import Mathlib

/-!
Shallow embedding of the TypeScript-to-Lua transpiler (`src/Transpiler.ts`,
class `LuaTranspiler`) and a verification of the frozen claims about it.

Modelling conventions:
* The external TypeScript front-end objects (`ts.Node`, `ts.Type`,
  `ts.TypeChecker`) are modelled by the inductive AST types below.  Every
  expression node carries the `Ty` that `checker.getTypeAtLocation` reports
  for it; the spec describes `Type` as an opaque handle with boolean
  capability queries, which is how `Ty` is modelled.
* `TranspileError` is modelled by `Err.transpileError` (the message string is
  kept, the offending node is dropped).  `Err.jsTypeError` models a JavaScript
  runtime `TypeError` (for the places where the source dereferences a child
  that can be `undefined`, e.g. `node.expression.kind` on `return;`).
* The mutable transpiler instance fields (`indent`, `genVarCounter`,
  `transpilingSwitch`) are threaded explicitly as a state value `St`; thrown
  exceptions become `Except.error`, which discards partial output exactly as a
  thrown exception does in the source.
* JavaScript number-to-string interpolation of the counter is modelled by
  `natStr` (decimal rendering); `parseInt` on a numeric-literal text is
  modelled by `parseIntJS`; `Array.prototype.join(",")` by `joinComma`;
  `String.prototype.slice(4)` (in `popIndent`) by dropping four characters.
* The embedding covers the sub-language of the transpiler that the claims
  range over: the statement and expression kinds listed below.  Constructs the
  claims never mention (classes, loops, template strings, object literals,
  conditional and arrow expressions, `new`) are not modelled.
-/

/-- Errors: `TranspileError` from the source, plus a constructor modelling a
JavaScript runtime `TypeError` (property access on `undefined`). -/
inductive Err where
  | transpileError (msg : String)
  | jsTypeError
deriving DecidableEq, Repr

/-- The mutable fields of class `LuaTranspiler`. -/
structure St where
  indent : String
  genVarCounter : Nat
  transpilingSwitch : Bool
deriving DecidableEq, Repr

/-- The state built by `new LuaTranspiler(checker)`. -/
def initialState : St := ⟨"", 0, false⟩

/-- Method `pushIndent`: `this.indent = this.indent + "    "`. -/
def pushIndent (st : St) : St := { st with indent := st.indent ++ "    " }

/-- Method `popIndent`: `this.indent = this.indent.slice(4)` (drop the first
four characters). -/
def popIndent (st : St) : St := { st with indent := ⟨st.indent.data.drop 4⟩ }

/-- Decimal digit character: `'0' + d` for `d < 10`. -/
def digitChar (d : Nat) : Char := Char.ofNat (48 + d)

/-- Fuel-driven decimal rendering helper (structural recursion on the fuel so
that concrete values reduce). `natStrAux fuel n` is the digit list of `n`
provided `n ≤ fuel` (and `[]` for `n = 0`). -/
def natStrAux : Nat → Nat → List Char
  | _, 0 => []
  | 0, _ + 1 => []
  | fuel + 1, n + 1 => natStrAux fuel ((n + 1) / 10) ++ [digitChar ((n + 1) % 10)]

/-- Decimal rendering of a natural number, modelling JavaScript template
interpolation `${n}` of a non-negative integer. -/
def natStr (n : Nat) : String := if n = 0 then "0" else ⟨natStrAux n n⟩

/-- Decimal rendering of an integer, modelling `${v}` for a JS number `v`. -/
def intStr : Int → String
  | .ofNat n => natStr n
  | .negSucc n => "-" ++ natStr (n + 1)

/-- Digit-run parser underlying `parseIntJS`. -/
def parseDigits : Nat → List Char → Nat
  | acc, [] => acc
  | acc, c :: cs => if c.isDigit then parseDigits (acc * 10 + (c.toNat - 48)) cs else acc

/-- Model of JavaScript `parseInt` applied to the text of a numeric literal:
reads the leading run of decimal digits. -/
def parseIntJS (s : String) : Int := Int.ofNat (parseDigits 0 s.data)

/-- Model of JavaScript `Array.prototype.join(",")`. -/
def joinComma : List String → String
  | [] => ""
  | [s] => s
  | s :: rest => s ++ "," ++ joinComma rest

/-- The opaque `ts.Type` handle.  The spec (§3) allows exactly these boolean
capability queries.  `isString`/`isStringLiteral`/`isObjectFlag` model the
`type.flags` tests against `ts.TypeFlags.String`/`StringLiteral`/`Object`
appearing in the source; the remaining fields model the `TSHelper` queries. -/
structure Ty where
  isString : Bool
  isStringLiteral : Bool
  isObjectFlag : Bool
  isArray : Bool
  isTuple : Bool
  isCompileMembersOnlyEnum : Bool
deriving DecidableEq, Repr

/-- Modelled from the spec: `TSHelper.isArrayType` (file `TSHelper.ts` is not
under `src/`); the spec's `Type` capability `is_array`. -/
def TSHelper.isArrayType (t : Ty) : Bool := t.isArray

/-- Modelled from the spec: `TSHelper.isTupleType`; the capability `is_tuple`. -/
def TSHelper.isTupleType (t : Ty) : Bool := t.isTuple

/-- Modelled from the spec: `TSHelper.isStringType`; the capability
`is_string`. -/
def TSHelper.isStringType (t : Ty) : Bool := t.isString

/-- Modelled from the spec: `TSHelper.isCompileMembersOnlyEnum`; the
capability `is_compile_members_only_enum`. -/
def TSHelper.isCompileMembersOnlyEnum (t : Ty) : Bool := t.isCompileMembersOnlyEnum

/-- Binary operator token kinds (`node.operatorToken.kind`) handled by
`transpileBinaryExpression` and `transpileOperator`. -/
inductive BinOp where
  | plusEqualsToken
  | minusEqualsToken
  | ampersandAmpersandToken
  | barBarToken
  | ampersandToken
  | barToken
  | plusToken
  | minusToken
  | asteriskToken
  | slashToken
  | percentToken
  | lessThanToken
  | greaterThanToken
  | lessThanEqualsToken
  | greaterThanEqualsToken
  | equalsEqualsEqualsToken
  | exclamationEqualsToken
  | exclamationEqualsEqualsToken
  | equalsToken
deriving DecidableEq, Repr

/-- Model of `ts.tokenToString` restricted to the operators above (the
canonical TypeScript spelling of the token). -/
def tokenToString : BinOp → String
  | .plusEqualsToken => "+="
  | .minusEqualsToken => "-="
  | .ampersandAmpersandToken => "&&"
  | .barBarToken => "||"
  | .ampersandToken => "&"
  | .barToken => "|"
  | .plusToken => "+"
  | .minusToken => "-"
  | .asteriskToken => "*"
  | .slashToken => "/"
  | .percentToken => "%"
  | .lessThanToken => "<"
  | .greaterThanToken => ">"
  | .lessThanEqualsToken => "<="
  | .greaterThanEqualsToken => ">="
  | .equalsEqualsEqualsToken => "==="
  | .exclamationEqualsToken => "!="
  | .exclamationEqualsEqualsToken => "!=="
  | .equalsToken => "="

/-- Method `transpileOperator`: rewrite `===` to `==` and `!=`, `!==` to
`~=`; otherwise use the token's canonical text. -/
def transpileOperator (op : BinOp) : String :=
  match op with
  | .equalsEqualsEqualsToken => "=="
  | .exclamationEqualsToken => "~="
  | .exclamationEqualsEqualsToken => "~="
  | _ => tokenToString op

/-- Unary operator kinds appearing in pre/postfix unary expressions. -/
inductive UnOp where
  | plusPlusToken
  | minusMinusToken
  | exclamationToken
  | minusToken
deriving DecidableEq, Repr

/-- Expression AST. Every node carries the `Ty` that the external checker
reports at its location (`checker.getTypeAtLocation(node)`), since `Type` is
an opaque oracle attached to nodes. -/
inductive Expr where
  | ident (name : String) (ty : Ty)
  | stringLit (text : String) (ty : Ty)
  | numericLit (text : String) (ty : Ty)
  | trueKw (ty : Ty)
  | falseKw (ty : Ty)
  | nullKw (ty : Ty)
  | thisKw (ty : Ty)
  | superKw (ty : Ty)
  | binary (left : Expr) (op : BinOp) (right : Expr) (ty : Ty)
  | call (callee : Expr) (args : List Expr) (ty : Ty)
  | propAccess (obj : Expr) (name : String) (ty : Ty)
  | elemAccess (obj : Expr) (index : Expr) (ty : Ty)
  | preUnary (op : UnOp) (operand : Expr) (ty : Ty)
  | postUnary (operand : Expr) (op : UnOp) (ty : Ty)
  | arrayLit (elems : List Expr) (ty : Ty)
  | paren (inner : Expr) (ty : Ty)

/-- The external type oracle: `checker.getTypeAtLocation(node)`. -/
def Expr.typeOf : Expr → Ty
  | .ident _ ty => ty
  | .stringLit _ ty => ty
  | .numericLit _ ty => ty
  | .trueKw ty => ty
  | .falseKw ty => ty
  | .nullKw ty => ty
  | .thisKw ty => ty
  | .superKw ty => ty
  | .binary _ _ _ ty => ty
  | .call _ _ ty => ty
  | .propAccess _ _ ty => ty
  | .elemAccess _ _ ty => ty
  | .preUnary _ _ ty => ty
  | .postUnary _ _ ty => ty
  | .arrayLit _ ty => ty
  | .paren _ ty => ty

/-- Syntactic test `ts.isStringLiteral(node)`. -/
def Expr.isStringLiteralNode : Expr → Bool
  | .stringLit _ _ => true
  | _ => false

mutual
/-- Method `transpileExpression(node, brackets?)`.  The omitted optional
`brackets` argument is `false` (JavaScript `undefined` is falsy).  The
dedicated expression emitters the source dispatches to
(`transpileBinaryExpression`, `transpileCallExpression`,
`transpileStringCallExpression`, `transpileArrayCallExpression`,
`transpileElementAccessExpression`, `transpilePostfixUnaryExpression`,
`transpilePrefixUnaryExpression`, `transpileArrayLiteral`) are inlined into
the corresponding match arms, each marked with a comment. -/
def transpileExpression : Expr → Bool → Except Err String
  | .binary l op r _, brackets => do
      -- transpileBinaryExpression: both operands are emitted with brackets
      let lhs ← transpileExpression l true
      let rhs ← transpileExpression r true
      let result ←
        match op with
        | .plusEqualsToken => pure (lhs ++ "=" ++ lhs ++ "+" ++ rhs)
        | .minusEqualsToken => pure (lhs ++ "=" ++ lhs ++ "-" ++ rhs)
        | .ampersandAmpersandToken => pure (lhs ++ " and " ++ rhs)
        | .barBarToken => pure (lhs ++ " or " ++ rhs)
        | .ampersandToken => pure ("bit.band(" ++ lhs ++ "," ++ rhs ++ ")")
        | .barToken => pure ("bit.bor(" ++ lhs ++ "," ++ rhs ++ ")")
        | .plusToken =>
            -- replace string + with ..; note only the LEFT operand is tested,
            -- and the early return bypasses the closing bracket logic
            if l.typeOf.isString || l.isStringLiteralNode then
              return lhs ++ ".." ++ rhs
            else
              pure (lhs ++ transpileOperator .plusToken ++ rhs)
        | _ => pure (lhs ++ transpileOperator op ++ rhs)
      if brackets then pure ("(" ++ result ++ ")") else pure result
  | .call callee args _, _ =>
      -- transpileCallExpression
      (match callee with
      | .propAccess obj name _ =>
          if obj.typeOf.isString || obj.typeOf.isStringLiteral then
            -- transpileStringCallExpression
            do
              let params ← do pure (joinComma (← transpileArgumentStrings args))
              let caller ← transpileExpression obj false
              match name with
              | "replace" => pure ("string.sub(" ++ caller ++ "," ++ params ++ ")")
              | "indexOf" =>
                  if args.length == 1 then
                    pure ("(string.find(" ++ caller ++ "," ++ params ++ ",1,true) or 0)-1")
                  else
                    pure ("(string.find(" ++ caller ++ "," ++ params ++ "+1,true) or 0)-1")
              | _ => .error (.transpileError ("Unsupported string function: " ++ name))
          else if obj.typeOf.isObjectFlag && TSHelper.isArrayType obj.typeOf then
            -- transpileArrayCallExpression
            do
              let params ← do pure (joinComma (← transpileArgumentStrings args))
              let caller ← transpileExpression obj false
              match name with
              | "push" => pure ("table.insert(" ++ caller ++ ", " ++ params ++ ")")
              | "forEach" => pure ("TS_forEach(" ++ caller ++ ", " ++ params ++ ")")
              | "map" => pure ("TS_map(" ++ caller ++ ", " ++ params ++ ")")
              | "filter" => pure ("TS_filter(" ++ caller ++ ", " ++ params ++ ")")
              | "some" => pure ("TS_some(" ++ caller ++ ", " ++ params ++ ")")
              | "every" => pure ("TS_every(" ++ caller ++ ", " ++ params ++ ")")
              | "slice" => pure ("TS_slice(" ++ caller ++ ", " ++ params ++ ")")
              | _ => .error (.transpileError ("Unsupported array function: " ++ name))
          else do
            -- include context parameter: transpileArguments(args, receiver)
            let callPath ← transpilePropertyAccessExpression obj name
            let ctx ← transpileExpression obj false
            let params := joinComma (ctx :: (← transpileArgumentStrings args))
            pure (callPath ++ "(" ++ params ++ ")")
      | .superKw _ => do
          -- super call: the context argument is a fresh ThisKeyword node,
          -- which transpiles to "self" (the computed callPath is unused)
          let params := joinComma ("self" :: (← transpileArgumentStrings args))
          pure ("self.__base.constructor(" ++ params ++ ")")
      | other => do
          let callPath ← transpileExpression other false
          let params ← do pure (joinComma (← transpileArgumentStrings args))
          pure (callPath ++ "(" ++ params ++ ")"))
  | .propAccess obj name _, _ => transpilePropertyAccessExpression obj name
  | .elemAccess obj idx _, _ => do
      -- transpileElementAccessExpression
      let element ← transpileExpression obj false
      let index ← transpileExpression idx false
      if TSHelper.isArrayType obj.typeOf || TSHelper.isTupleType obj.typeOf then
        pure (element ++ "[" ++ index ++ "+1]")
      else if TSHelper.isStringType obj.typeOf then
        pure ("string.sub(" ++ element ++ "," ++ index ++ "+1," ++ index ++ "+1)")
      else
        pure (element ++ "[" ++ index ++ "]")
  | .ident name _, _ => .ok name
  | .stringLit text _, _ => .ok ("\"" ++ text ++ "\"")
  | .numericLit text _, _ => .ok text
  | .trueKw _, _ => .ok "true"
  | .falseKw _, _ => .ok "false"
  | .nullKw _, _ => .ok "nil"
  | .thisKw _, _ => .ok "self"
  | .superKw _, _ => .ok "self.__base"
  | .postUnary operand op _, _ => do
      -- transpilePostfixUnaryExpression
      let o ← transpileExpression operand true
      match op with
      | .plusPlusToken => pure (o ++ " = " ++ o ++ " + 1")
      | .minusMinusToken => pure (o ++ " = " ++ o ++ " - 1")
      | _ => .error (.transpileError "Unsupported unary postfix: PostfixUnaryExpression")
  | .preUnary op operand _, _ => do
      -- transpilePrefixUnaryExpression
      let o ← transpileExpression operand true
      match op with
      | .plusPlusToken => pure (o ++ " = " ++ o ++ " + 1")
      | .minusMinusToken => pure (o ++ " = " ++ o ++ " - 1")
      | .exclamationToken => pure ("not " ++ o)
      | .minusToken => pure ("-" ++ o)
  | .arrayLit elems _, _ => do
      -- transpileArrayLiteral
      let values ← transpileArgumentStrings elems
      pure ("\x7b" ++ joinComma values ++ "\x7d")
  | .paren inner _, _ => do
      pure ("(" ++ (← transpileExpression inner false) ++ ")")
termination_by e _ => (sizeOf e, 0)

/-- Method `transpilePropertyAccessExpression` with the string/array property
rewriters (`transpileStringProperty`, `transpileArrayProperty`) inlined. -/
def transpilePropertyAccessExpression (obj : Expr) (property : String) : Except Err String :=
  if obj.typeOf.isString || obj.typeOf.isStringLiteral then
    -- transpileStringProperty
    match property with
    | "length" => do pure ("#" ++ (← transpileExpression obj false))
    | _ => .error (.transpileError ("Unsupported string property: " ++ property))
  else if obj.typeOf.isObjectFlag && TSHelper.isArrayType obj.typeOf then
    -- transpileArrayProperty
    match property with
    | "length" => do pure ("#" ++ (← transpileExpression obj false))
    | _ => .error (.transpileError ("Unsupported array property: " ++ property))
  else if TSHelper.isCompileMembersOnlyEnum obj.typeOf then
    -- do not output the path for member-only enums
    .ok property
  else do
    let path ← transpileExpression obj false
    pure (path ++ "." ++ property)
termination_by (sizeOf obj, 1)

/-- The parameter-mapping loop of `transpileArguments` (each argument is
emitted with `transpileExpression(param)`); the `","` join and the optional
context argument are applied at the call sites. -/
def transpileArgumentStrings : List Expr → Except Err (List String)
  | [] => .ok []
  | p :: rest => do
      let s ← transpileExpression p false
      let ss ← transpileArgumentStrings rest
      pure (s :: ss)
termination_by l => (sizeOf l, 0)
end

/-- One element of an array binding pattern (`ts.BindingElement` with an
identifier name); `dotDotDot` records the presence of a rest token. -/
structure BindingElem where
  name : String
  dotDotDot : Bool
deriving DecidableEq, Repr

/-- One variable declarator: a plain identifier or an array binding pattern.
Object destructuring and other shapes are outside the modelled subset. -/
inductive VarDecl where
  | identDecl (name : String) (initializer : Option Expr)
  | arrayPattern (elems : List BindingElem) (initializer : Option Expr)

/-- One enum member: name and optional initializer expression. -/
structure EnumMember where
  name : String
  initializer : Option Expr

/-- One element of a named-import clause; `propertyName` is present exactly
for a renamed import `{ a as b }`. -/
structure ImportSpec where
  propertyName : Option String
  name : String
deriving DecidableEq, Repr

/-- The `namedBindings` of an import clause: `import * as X` or
`import { a, b }`. -/
inductive ImportClause where
  | namespaceImport (name : String)
  | namedImports (elements : List ImportSpec)
deriving DecidableEq, Repr

mutual
/-- Statement AST (the statement kinds the claims range over). -/
inductive Stmt where
  | importDecl (moduleSpecifier : Expr) (bindings : ImportClause)
  | enumDecl (name : String) (members : List EnumMember) (ty : Ty)
  | variableStatement (decls : List VarDecl)
  | expressionStatement (e : Expr)
  | returnStmt (expr : Option Expr)
  | ifStmt (cond : Expr) (thenS : SB) (elseS : Option SB)
  | whileStmt (cond : Expr) (body : SB)
  | switchStmt (scrutinee : Expr) (clauses : List Clause)
  | breakStmt
  | continueStmt
  | funcDecl (name : String) (params : List String) (body : List Stmt)

/-- A statement position that may hold a block or a single statement (the
`ts.isBlock` test in `transpileStatement`). -/
inductive SB where
  | block (stmts : List Stmt)
  | single (s : Stmt)

/-- One clause of a switch `caseBlock`. -/
inductive Clause where
  | caseClause (e : Expr) (stmts : List Stmt)
  | defaultClause (stmts : List Stmt)
end

/-- The statements of a clause (`clause.statements`). -/
def Clause.statements : Clause → List Stmt
  | .caseClause _ stmts => stmts
  | .defaultClause stmts => stmts

/-- Method `transpileBreak`. -/
def transpileBreak (st : St) : String :=
  if st.transpilingSwitch then
    st.indent ++ "goto switchDone" ++ natStr st.genVarCounter ++ "\n"
  else
    st.indent ++ "break\n"

/-- Method `transpileExpression` applied to a child that may be absent
(JavaScript `undefined`): the source immediately reads `node.kind`, which
raises a runtime `TypeError` when the child is `undefined`. -/
def transpileExpressionOpt (e : Option Expr) (brackets : Bool) : Except Err String :=
  match e with
  | some ex => transpileExpression ex brackets
  | none => .error .jsTypeError

/-- Method `transpileReturn`: `"return " + this.transpileExpression(node.expression)`. -/
def transpileReturn (e : Option Expr) : Except Err String := do
  pure ("return " ++ (← transpileExpressionOpt e false))

/-- Method `transpileImport`.  The namespace-import template literal in the
source reads `` `{$imports.name.escapedText} = require(${name})` ``: the first
brace group is NOT an interpolation (it lacks the `$` prefix on the brace), so
the text `{$imports.name.escapedText}` is emitted literally. -/
def transpileImport (moduleSpecifier : Expr) (bindings : ImportClause) : Except Err String := do
  let name ← transpileExpression moduleSpecifier false
  match bindings with
  | .namespaceImport _ =>
      .ok ("\x7b$imports.name.escapedText\x7d = require(" ++ name ++ ")")
  | .namedImports elements =>
      -- forbid renaming
      if elements.any (fun el => el.propertyName.isSome) then
        .error (.transpileError "Renaming of individual imported objects is not allowed")
      else
        .ok ("require(" ++ name ++ ")")

/-- The member loop of `transpileEnum`: `val` is the running counter. -/
def transpileEnumMembers (st : St) (enumName : String) (membersOnly : Bool) :
    Int → List EnumMember → Except Err String
  | _, [] => .ok ""
  | val, m :: rest => do
      let v ←
        match m.initializer with
        | some (.numericLit text _) => pure (parseIntJS text)
        | some _ => .error (.transpileError "Only numeric initializers allowed for enums.")
        | none => pure val
      let line :=
        if membersOnly then
          st.indent ++ m.name ++ "=" ++ intStr v ++ "\n"
        else
          st.indent ++ enumName ++ "." ++ m.name ++ "=" ++ intStr v ++ "\n"
      let restOut ← transpileEnumMembers st enumName membersOnly (v + 1) rest
      pure (line ++ restOut)

/-- Method `transpileEnum`. -/
def transpileEnum (st : St) (name : String) (members : List EnumMember) (ty : Ty) :
    Except Err String := do
  let membersOnly := TSHelper.isCompileMembersOnlyEnum ty
  let header := if !membersOnly then st.indent ++ name ++ "=\x7b\x7d\n" else ""
  let body ← transpileEnumMembers st name membersOnly 0 members
  pure (header ++ body)

/-- The element loop of the array-destructuring branch of
`transpileVariableDeclaration` (`node.name.elements.forEach` with its index). -/
def transpileBindingElements (indent parentName : String) : Nat → List BindingElem → String
  | _, [] => ""
  | index, e :: rest =>
      (if !e.dotDotDot then
        indent ++ "local " ++ e.name ++ " = " ++ parentName ++ "[" ++ natStr (index + 1) ++ "]\n"
      else
        indent ++ "local " ++ e.name ++ " = TS_slice(" ++ parentName ++ ", " ++ natStr index ++ ")\n")
      ++ transpileBindingElements indent parentName (index + 1) rest

/-- Method `transpileVariableDeclaration`.  In the array-pattern branch the
source transpiles `node.initializer` unconditionally, so an absent initializer
raises the modelled `TypeError`. -/
def transpileVariableDeclaration (st : St) (d : VarDecl) : Except Err (String × St) :=
  match d with
  | .identDecl name init =>
      (match init with
      | some e => do
          let value ← transpileExpression e false
          pure ("local " ++ name ++ " = " ++ value, st)
      | none => .ok ("local " ++ name ++ " = nil", st))
  | .arrayPattern elems init => do
      let value ← transpileExpressionOpt init false
      let parentName := "__destr" ++ natStr st.genVarCounter
      let st1 := { st with genVarCounter := st.genVarCounter + 1 }
      let result := "local " ++ parentName ++ " = " ++ value ++ "\n"
        ++ transpileBindingElements st1.indent parentName 0 elems
      pure (result, st1)

/-- Method `transpileVariableStatement`: concatenate the declarators. -/
def transpileVariableStatement (st : St) : List VarDecl → Except Err (String × St)
  | [] => .ok ("", st)
  | d :: rest => do
      let (s1, st1) ← transpileVariableDeclaration st d
      let (s2, st2) ← transpileVariableStatement st1 rest
      pure (s1 ++ s2, st2)

mutual
/-- Method `transpileNode`: dispatch on the statement kind.  `transpileIf`,
`transpileWhile`, `transpileSwitch` and `transpileFunctionDeclaration` are
inlined into the corresponding arms, each marked with a comment. -/
def transpileNode (st : St) (s : Stmt) : Except Err (String × St) :=
  match s with
  | .importDecl m b => do
      let out ← transpileImport m b
      pure (out, st)
  | .enumDecl name members ty => do
      let out ← transpileEnum st name members ty
      pure (out, st)
  | .variableStatement decls => do
      let (out, st1) ← transpileVariableStatement st decls
      pure (st.indent ++ out ++ "\n", st1)
  | .expressionStatement e => do
      let out ← transpileExpression e false
      pure (st.indent ++ out ++ "\n", st)
  | .returnStmt e => do
      let out ← transpileReturn e
      pure (st.indent ++ out ++ "\n", st)
  | .ifStmt cond thenS elseS => do
      -- transpileIf
      let condition ← transpileExpression cond false
      let st1 := pushIndent st
      let (thenOut, st2) ← transpileStatement st1 thenS
      let st3 := popIndent st2
      match elseS with
      | none =>
          pure (st.indent ++ "if " ++ condition ++ " then\n" ++ thenOut
            ++ st3.indent ++ "end\n", st3)
      | some els => do
          let st4 := pushIndent st3
          let (elseOut, st5) ← transpileStatement st4 els
          let st6 := popIndent st5
          pure (st.indent ++ "if " ++ condition ++ " then\n" ++ thenOut
            ++ st3.indent ++ "else\n" ++ elseOut ++ st6.indent ++ "end\n", st6)
  | .whileStmt cond body => do
      -- transpileWhile
      let condition ← transpileExpression cond false
      let st1 := pushIndent st
      let (bodyOut, st2) ← transpileStatement st1 body
      let st3 := popIndent st2
      pure (st.indent ++ "while " ++ condition ++ " do\n" ++ bodyOut
        ++ st3.indent ++ "end\n", st3)
  | .switchStmt scrutinee clauses => do
      -- transpileSwitch
      let expression ← transpileExpression scrutinee true
      let (clausesOut, st1) ← transpileSwitchClauses st expression 0 clauses.length clauses
      let out := st.indent ++ "-------Switch statement start-------\n" ++ clausesOut
        ++ st1.indent ++ "end\n"
        ++ st1.indent ++ "::switchDone" ++ natStr st1.genVarCounter ++ "::\n"
        ++ st1.indent ++ "--------Switch statement end--------\n"
      -- increment counter for the next switch statement
      let st2 := { st1 with genVarCounter := st1.genVarCounter + clauses.length }
      pure (out, st2)
  | .breakStmt => .ok (transpileBreak st, st)
  | .continueStmt => .error (.transpileError "Continue is not supported in Lua")
  | .funcDecl name params body => do
      -- transpileFunctionDeclaration
      let st1 := pushIndent st
      let (bodyOut, st2) ← transpileStmtSeq st1 body
      let st3 := popIndent st2
      pure (st.indent ++ "function " ++ name ++ "(" ++ joinComma params ++ ")\n"
        ++ bodyOut ++ st3.indent ++ "end\n", st3)
termination_by sizeOf s

/-- The statement loop shared by `transpileBlock` (over a block's or source
file's statements) and the inline `forEach` loops of the source: transpile
each statement with `transpileNode` and concatenate. -/
def transpileStmtSeq (st : St) : List Stmt → Except Err (String × St)
  | [] => .ok ("", st)
  | s :: rest => do
      let (out1, st1) ← transpileNode st s
      let (out2, st2) ← transpileStmtSeq st1 rest
      pure (out1 ++ out2, st2)
termination_by l => sizeOf l

/-- Method `transpileStatement`: a block is iterated, any other statement is
dispatched to `transpileNode`. -/
def transpileStatement (st : St) : SB → Except Err (String × St)
  | .block stmts => transpileStmtSeq st stmts
  | .single s => transpileNode st s
termination_by sb => sizeOf sb

/-- The clause loop of `transpileSwitch` (`clauses.forEach` with its index);
`expression` is the transpiled scrutinee and `total` is `clauses.length`. -/
def transpileSwitchClauses (st : St) (expression : String) (index total : Nat) :
    List Clause → Except Err (String × St)
  | [] => .ok ("", st)
  | (.caseClause ce stmts) :: rest => do
      let condition ← transpileExpression ce true
      let keyword := if index == 0 then "if" else "elseif"
      let header := st.indent ++ keyword ++ " " ++ expression ++ "==" ++ condition ++ " then\n"
      transpileSwitchClauseTail st expression index total header stmts rest
  | (.defaultClause stmts) :: rest =>
      transpileSwitchClauseTail st expression index total (st.indent ++ "else\n") stmts rest
termination_by cs => sizeOf cs

/-- The per-clause body of the clause loop: fallthrough entry label, clause
statements under `transpilingSwitch := true` (reset to `false` afterwards),
and the fallthrough `goto` bridge to the next clause when one exists. -/
def transpileSwitchClauseTail (st : St) (expression : String) (index total : Nat)
    (header : String) (stmts : List Stmt) (rest : List Clause) : Except Err (String × St) := do
  let st1 := pushIndent st
  let label := st1.indent ++ "::switchCase" ++ natStr (st1.genVarCounter + index) ++ "::\n"
  let st2 := { st1 with transpilingSwitch := true }
  let (bodyOut, st3) ← transpileStmtSeq st2 stmts
  let st4 := { st3 with transpilingSwitch := false }
  let ft :=
    if index < total - 1 then
      st4.indent ++ "goto switchCase" ++ natStr (st4.genVarCounter + index + 1) ++ "\n"
    else ""
  let st5 := popIndent st4
  let (restOut, st6) ← transpileSwitchClauses st5 expression (index + 1) total rest
  pure (header ++ label ++ bodyOut ++ ft ++ restOut, st6)
termination_by sizeOf stmts + sizeOf rest + 1
end

/-- Static method `transpileSourceFile`: a fresh transpiler state, the
top-level statements of the file run through the block loop, and the
accumulated string returned. -/
def transpileSourceFile (file : List Stmt) : Except Err String :=
  (transpileStmtSeq initialState file).map Prod.fst

/-! ### Syntactic predicates on the AST (used to state the general theorems) -/

mutual
/-- No switch statement occurs anywhere inside (including nested blocks and
function bodies).  Used for the bodies of case clauses: a nested switch both
resets `transpilingSwitch` and advances `genVarCounter`. -/
def Stmt.noSwitch : Stmt → Bool
  | .switchStmt _ _ => false
  | .ifStmt _ t e => t.noSwitch && (match e with | some b => b.noSwitch | none => true)
  | .whileStmt _ b => b.noSwitch
  | .funcDecl _ _ body => Stmt.listNoSwitch body
  | _ => true
termination_by s => sizeOf s

/-- `Stmt.noSwitch` for a statement-or-block position. -/
def SB.noSwitch : SB → Bool
  | .block stmts => Stmt.listNoSwitch stmts
  | .single s => s.noSwitch
termination_by sb => sizeOf sb

/-- `Stmt.noSwitch` for every statement of a list. -/
def Stmt.listNoSwitch : List Stmt → Bool
  | [] => true
  | s :: rest => s.noSwitch && Stmt.listNoSwitch rest
termination_by l => sizeOf l
end

/-- A declarator that does not advance `genVarCounter` (no array pattern). -/
def VarDecl.noDestructuring : VarDecl → Bool
  | .identDecl _ _ => true
  | .arrayPattern _ _ => false

mutual
/-- Transpiling the statement leaves the transpiler state unchanged: no switch
statement and no array-destructuring declarator occurs anywhere inside. -/
def Stmt.stateFree : Stmt → Bool
  | .switchStmt _ _ => false
  | .variableStatement decls => decls.all VarDecl.noDestructuring
  | .ifStmt _ t e => t.stateFree && (match e with | some b => b.stateFree | none => true)
  | .whileStmt _ b => b.stateFree
  | .funcDecl _ _ body => Stmt.listStateFree body
  | _ => true
termination_by s => sizeOf s

/-- `Stmt.stateFree` for a statement-or-block position. -/
def SB.stateFree : SB → Bool
  | .block stmts => Stmt.listStateFree stmts
  | .single s => s.stateFree
termination_by sb => sizeOf sb

/-- `Stmt.stateFree` for every statement of a list. -/
def Stmt.listStateFree : List Stmt → Bool
  | [] => true
  | s :: rest => s.stateFree && Stmt.listStateFree rest
termination_by l => sizeOf l
end

mutual
/-- A `break` statement occurs lexically inside the statement, at any nesting
depth through `if`/`while`/function bodies (a break inside a nested switch
belongs to that inner switch and is not counted). -/
def Stmt.hasBreak : Stmt → Bool
  | .breakStmt => true
  | .ifStmt _ t e => t.hasBreak || (match e with | some b => b.hasBreak | none => false)
  | .whileStmt _ b => b.hasBreak
  | .funcDecl _ _ body => Stmt.listHasBreak body
  | _ => false
termination_by s => sizeOf s

/-- `Stmt.hasBreak` for a statement-or-block position. -/
def SB.hasBreak : SB → Bool
  | .block stmts => Stmt.listHasBreak stmts
  | .single s => s.hasBreak
termination_by sb => sizeOf sb

/-- `Stmt.hasBreak` for some statement of a list. -/
def Stmt.listHasBreak : List Stmt → Bool
  | [] => false
  | s :: rest => s.hasBreak || Stmt.listHasBreak rest
termination_by l => sizeOf l
end

/-- Every character of the string differs from `c`. -/
def strNoChar (c : Char) (s : String) : Bool := s.data.all (· ≠ c)

mutual
/-- Every name and literal text embedded in the expression is free of the
colon character (identifiers cannot contain `:`; the hypothesis also excludes
string literals whose text contains `:`). -/
def Expr.colonFree : Expr → Bool
  | .ident n _ => strNoChar ':' n
  | .stringLit t _ => strNoChar ':' t
  | .numericLit t _ => strNoChar ':' t
  | .trueKw _ | .falseKw _ | .nullKw _ | .thisKw _ | .superKw _ => true
  | .binary l _ r _ => l.colonFree && r.colonFree
  | .call c args _ => c.colonFree && Expr.listColonFree args
  | .propAccess o n _ => o.colonFree && strNoChar ':' n
  | .elemAccess o i _ => o.colonFree && i.colonFree
  | .preUnary _ o _ => o.colonFree
  | .postUnary o _ _ => o.colonFree
  | .arrayLit elems _ => Expr.listColonFree elems
  | .paren i _ => i.colonFree
termination_by e => sizeOf e

/-- `Expr.colonFree` for every expression of a list. -/
def Expr.listColonFree : List Expr → Bool
  | [] => true
  | e :: rest => e.colonFree && Expr.listColonFree rest
termination_by l => sizeOf l
end

/-- `Expr.colonFree` lifted to an optional expression. -/
def Expr.optColonFree : Option Expr → Bool
  | some e => e.colonFree
  | none => true

/-- Colon-freeness of the strings embedded in one declarator. -/
def VarDecl.colonFree : VarDecl → Bool
  | .identDecl n init => strNoChar ':' n && Expr.optColonFree init
  | .arrayPattern elems init =>
      elems.all (fun e => strNoChar ':' e.name) && Expr.optColonFree init

mutual
/-- Every name and literal text embedded in the statement is colon-free. -/
def Stmt.colonFree : Stmt → Bool
  | .importDecl m b => m.colonFree &&
      (match b with
       | .namespaceImport n => strNoChar ':' n
       | .namedImports els => els.all (fun el => strNoChar ':' el.name))
  | .enumDecl n members _ => strNoChar ':' n && members.all (fun m => strNoChar ':' m.name)
  | .variableStatement decls => decls.all VarDecl.colonFree
  | .expressionStatement e => e.colonFree
  | .returnStmt e => Expr.optColonFree e
  | .ifStmt cond t e => cond.colonFree && t.colonFree
      && (match e with | some b => b.colonFree | none => true)
  | .whileStmt cond b => cond.colonFree && b.colonFree
  | .switchStmt scrut clauses => scrut.colonFree && Clause.listColonFree clauses
  | .breakStmt => true
  | .continueStmt => true
  | .funcDecl n params body => strNoChar ':' n && params.all (strNoChar ':')
      && Stmt.listColonFree body
termination_by s => sizeOf s

/-- `Stmt.colonFree` for a statement-or-block position. -/
def SB.colonFree : SB → Bool
  | .block stmts => Stmt.listColonFree stmts
  | .single s => s.colonFree
termination_by sb => sizeOf sb

/-- `Stmt.colonFree` for every statement of a list. -/
def Stmt.listColonFree : List Stmt → Bool
  | [] => true
  | s :: rest => s.colonFree && Stmt.listColonFree rest
termination_by l => sizeOf l

/-- Colon-freeness for one clause (its test expression and its body). -/
def Clause.colonFree : Clause → Bool
  | .caseClause e stmts => e.colonFree && Stmt.listColonFree stmts
  | .defaultClause stmts => Stmt.listColonFree stmts
termination_by c => sizeOf c

/-- `Clause.colonFree` for every clause of a list. -/
def Clause.listColonFree : List Clause → Bool
  | [] => true
  | c :: rest => c.colonFree && Clause.listColonFree rest
termination_by l => sizeOf l
end

mutual
/-- Every switch statement occurring inside has at least one clause and
switch-free clause bodies (no switch nested within another switch's clause). -/
def Stmt.switchesOk : Stmt → Bool
  | .switchStmt _ clauses =>
      !clauses.isEmpty && clauses.all (fun c => Stmt.listNoSwitch c.statements)
  | .ifStmt _ t e => t.switchesOk && (match e with | some b => b.switchesOk | none => true)
  | .whileStmt _ b => b.switchesOk
  | .funcDecl _ _ body => Stmt.listSwitchesOk body
  | _ => true
termination_by s => sizeOf s

/-- `Stmt.switchesOk` for a statement-or-block position. -/
def SB.switchesOk : SB → Bool
  | .block stmts => Stmt.listSwitchesOk stmts
  | .single s => s.switchesOk
termination_by sb => sizeOf sb

/-- `Stmt.switchesOk` for every statement of a list. -/
def Stmt.listSwitchesOk : List Stmt → Bool
  | [] => true
  | s :: rest => s.switchesOk && Stmt.listSwitchesOk rest
termination_by l => sizeOf l
end

/-! ### String-occurrence observers (the language of the label-uniqueness
claims, on character lists) -/

/-- `matchPre pat l`: `pat` is a prefix of `l`. -/
def matchPre : List Char → List Char → Bool
  | [], _ => true
  | _ :: _, [] => false
  | p :: ps, c :: cs => p == c && matchPre ps cs

/-- Number of positions of `l` at which `pat` occurs as a substring. -/
def countSub (pat : List Char) : List Char → Nat
  | [] => if pat.isEmpty then 1 else 0
  | c :: rest => (if matchPre pat (c :: rest) then 1 else 0) + countSub pat rest

/-- The character list of a `::switchCase<n>::` label. -/
def casePat (n : Nat) : List Char := "::switchCase".data ++ (natStr n).data ++ "::".data

/-- The character list of a `::switchDone<n>::` label. -/
def donePat (n : Nat) : List Char := "::switchDone".data ++ (natStr n).data ++ "::".data

/-- The indent string consists of spaces only. -/
def allSpaces (s : String) : Bool := s.data.all (· == ' ')

/-- An output chunk is empty or ends in a newline or a closing parenthesis
(characters that occur in no `::switchCase<n>::` / `::switchDone<n>::` label),
so substring counts of label patterns distribute over concatenation at the
chunk boundary. -/
def lastSafe (s : String) : Bool :=
  match s.data.getLast? with
  | none => true
  | some c => c == '\n' || c == ')'

/-! ### Spec-side model for claim C8 (enum member values) -/

/-- Claim-side value assignment for enum members, following the claim's words:
each member's value is its initializer when that initializer is a numeric
literal (and counting continues from that value), otherwise one more than the
previous member's value, starting at `0`; a present non-numeric initializer is
a `TranspileError`. -/
def enumMemberValuesSpec : Int → List EnumMember → Except Err (List (String × Int))
  | _, [] => .ok []
  | next, m :: rest =>
      match m.initializer with
      | some (.numericLit text _) => do
          let v := parseIntJS text
          let tail ← enumMemberValuesSpec (v + 1) rest
          pure ((m.name, v) :: tail)
      | some _ => .error (.transpileError "Only numeric initializers allowed for enums.")
      | none => do
          let tail ← enumMemberValuesSpec (next + 1) rest
          pure ((m.name, next) :: tail)

/-- Claim-side rendering of one enum member line: a free `NAME=VALUE` line for
a compile-members-only enum, an `E.NAME=VALUE` line otherwise. -/
def renderEnumLines (st : St) (enumName : String) (membersOnly : Bool) :
    List (String × Int) → String
  | [] => ""
  | (n, v) :: rest =>
      (if membersOnly then st.indent ++ n ++ "=" ++ intStr v ++ "\n"
       else st.indent ++ enumName ++ "." ++ n ++ "=" ++ intStr v ++ "\n")
      ++ renderEnumLines st enumName membersOnly rest

/-- Claim-side rendering of a whole enum: no containing table for a
compile-members-only enum, an `E={}` header line otherwise. -/
def renderEnumSpec (st : St) (enumName : String) (membersOnly : Bool)
    (vals : List (String × Int)) : String :=
  (if !membersOnly then st.indent ++ enumName ++ "=\x7b\x7d\n" else "")
  ++ renderEnumLines st enumName membersOnly vals

/-! ### Concrete types and programs used in the claim instances -/

/-- A type answering `false` to every capability query (e.g. `number`). -/
def tyNone : Ty := ⟨false, false, false, false, false, false⟩

/-- The `string` type: `flags = ts.TypeFlags.String`. -/
def tyStr : Ty := ⟨true, false, false, false, false, false⟩

/-- A string-literal type: `flags = ts.TypeFlags.StringLiteral`. -/
def tyStrLit : Ty := ⟨false, true, false, false, false, false⟩

/-- An array type: object flags with `isArrayType`. -/
def tyArr : Ty := ⟨false, false, true, true, false, false⟩

/-- A compile-members-only enum type. -/
def tyEnumM : Ty := ⟨false, false, false, false, false, true⟩

/-- Statement `let x = 1 + 2;` (claim C6). -/
def progC6 : Stmt :=
  .variableStatement [.identDecl "x"
    (some (.binary (.numericLit "1" tyNone) .plusToken (.numericLit "2" tyNone) tyNone))]

/-- Statement `let [a, b, ...rest] = xs;` (claim C9). -/
def progC9 : Stmt :=
  .variableStatement [.arrayPattern [⟨"a", false⟩, ⟨"b", false⟩, ⟨"rest", true⟩]
    (some (.ident "xs" tyArr))]

/-- Expression statement `f()` for an identifier callee (used in switch
bodies). -/
def callStmt (f : String) : Stmt := .expressionStatement (.call (.ident f tyNone) [] tyNone)

/-- Statement `switch (j) { case 2: }` — the inner switch of the nested
counterexamples. -/
def innerSwitch : Stmt :=
  .switchStmt (.ident "j" tyNone) [.caseClause (.numericLit "2" tyNone) []]

/-- Statement `switch (k) { case 1: switch (j) { case 2: } break; }` (claim
C1's counterexample: a break after a nested switch in the same clause). -/
def progC1 : Stmt :=
  .switchStmt (.ident "k" tyNone)
    [.caseClause (.numericLit "1" tyNone) [innerSwitch, .breakStmt]]

/-- The transpilation of `progC1` (hand-checked against the source). -/
def outC1 : String :=
  "-------Switch statement start-------\nif k==1 then\n    ::switchCase0::\n    -------Switch statement start-------\n    if j==2 then\n        ::switchCase0::\n    end\n    ::switchDone0::\n    --------Switch statement end--------\n    break\nend\n::switchDone1::\n--------Switch statement end--------\n"

/-- Statement `switch (k) { case 1: switch (j) { case 2: } }` (claim C2's
counterexample: label `::switchCase0::` is emitted twice). -/
def progC2 : Stmt :=
  .switchStmt (.ident "k" tyNone)
    [.caseClause (.numericLit "1" tyNone) [innerSwitch]]

/-- The transpilation of `progC2` (hand-checked against the source). -/
def outC2 : String :=
  "-------Switch statement start-------\nif k==1 then\n    ::switchCase0::\n    -------Switch statement start-------\n    if j==2 then\n        ::switchCase0::\n    end\n    ::switchDone0::\n    --------Switch statement end--------\nend\n::switchDone1::\n--------Switch statement end--------\n"

/-- The switch of the spec's scenario 3:
`switch (k) { case 1: a(); break; case 2: b(); default: c(); }`. -/
def progScenario3 : Stmt :=
  .switchStmt (.ident "k" tyNone)
    [.caseClause (.numericLit "1" tyNone) [callStmt "a", .breakStmt],
     .caseClause (.numericLit "2" tyNone) [callStmt "b"],
     .defaultClause [callStmt "c"]]

/-! ## Theorems -/

/-! ### Monad plumbing for `Except Err` -/

theorem ok_bind {α β : Type} (a : α) (f : α → Except Err β) : (Except.ok a >>= f) = f a := rfl

theorem error_bind {α β : Type} (e : Err) (f : α → Except Err β) :
    ((Except.error e : Except Err α) >>= f) = .error e := rfl

theorem map_ok {α β : Type} (g : α → β) (a : α) :
    (Except.ok a : Except Err α).map g = .ok (g a) := rfl

theorem map_error {α β : Type} (g : α → β) (e : Err) :
    (Except.error e : Except Err α).map g = (.error e : Except Err β) := rfl

theorem bind_eq_ok {α β : Type} {a : Except Err α} {f : α → Except Err β} {c : β} :
    a >>= f = .ok c ↔ ∃ b, a = .ok b ∧ f b = .ok c := by
  cases a <;> simp [ok_bind, error_bind]

/-! ### Claim C3 (code bug): namespace imports and renamed imports -/

/-- C3: evaluating the code on `import * as X from "m"` emits the literal
text `{$imports.name.escapedText} = require("m")` — the template literal in
the source is not interpolated (`{$...}` instead of `${...}`) — while a
renamed named-import element raises the `TranspileError` the claim states. -/
theorem c3_import_emission :
    transpileSourceFile [.importDecl (.stringLit "m" tyStr) (.namespaceImport "X")]
      = .ok "\x7b$imports.name.escapedText\x7d = require(\"m\")"
    ∧ transpileSourceFile [.importDecl (.stringLit "m" tyStr)
        (.namedImports [⟨some "a", "b"⟩])]
      = .error (.transpileError "Renaming of individual imported objects is not allowed") := by
  constructor <;>
    simp [transpileSourceFile, transpileStmtSeq, transpileNode, transpileImport,
      transpileExpression, initialState, tyStr, ok_bind, error_bind, map_ok, map_error]

/-! ### Claim C7 (code bug): `return;` with no expression -/

/-- C7: evaluating the code on a return statement with no expression raises
the modelled JavaScript `TypeError` (`transpileReturn` passes the absent
child straight into `transpileExpression`, which reads `.kind` of
`undefined`); transpilation does not succeed. -/
theorem c7_return_crash :
    transpileSourceFile [.returnStmt none] = .error .jsTypeError := by
  simp [transpileSourceFile, transpileStmtSeq, transpileNode, transpileReturn,
    transpileExpressionOpt, initialState, ok_bind, error_bind, map_ok, map_error]

/-! ### Claim C6 (corrected): operand bracketing of `let x = 1 + 2;` -/

/-- C6 counterexample: the actual output of `let x = 1 + 2;` is
`local x = 1+2\n`, not the claimed `local x = (1)+(2)\n`: numeric-literal
operands ignore the `brackets` request (only binary and conditional
subexpressions are wrapped). -/
theorem c6_counterexample :
    transpileSourceFile [progC6] = .ok "local x = 1+2\n"
    ∧ ("local x = 1+2\n" : String) ≠ "local x = (1)+(2)\n" := by
  refine ⟨?_, by decide⟩
  simp [transpileSourceFile, transpileStmtSeq, transpileNode, transpileVariableStatement,
    transpileVariableDeclaration, transpileExpression, Expr.typeOf, Expr.isStringLiteralNode,
    transpileOperator, tokenToString, initialState, progC6, tyNone,
    ok_bind, error_bind, map_ok, map_error]

/-- C6 amended: the operands of the binary expression are requested with
`brackets = true`, but a numeric literal ignores that request (the flag only
wraps binary subexpressions), so the emitted statement is `local x = 1+2\n`. -/
theorem c6_output :
    transpileSourceFile [progC6] = .ok "local x = 1+2\n"
    ∧ transpileExpression (.numericLit "1" tyNone) true = .ok "1"
    ∧ transpileExpression
        (.binary (.numericLit "1" tyNone) .plusToken (.numericLit "2" tyNone) tyNone) true
        = .ok "(1+2)" := by
  refine ⟨?_, by simp [transpileExpression], ?_⟩ <;>
    simp [transpileSourceFile, transpileStmtSeq, transpileNode, transpileVariableStatement,
      transpileVariableDeclaration, transpileExpression, Expr.typeOf, Expr.isStringLiteralNode,
      transpileOperator, tokenToString, initialState, progC6, tyNone,
      ok_bind, error_bind, map_ok, map_error]

/-! ### Claim C9 (corrected): array destructuring output -/

/-- C9 counterexample: the actual output of `let [a, b, ...rest] = xs;` is the
claimed four lines followed by one extra `\n` (the `transpileNode` dispatcher
appends a newline to the variable-statement output, which already ends in a
newline). -/
theorem c9_counterexample :
    transpileSourceFile [progC9]
      = .ok "local __destr0 = xs\nlocal a = __destr0[1]\nlocal b = __destr0[2]\nlocal rest = TS_slice(__destr0, 2)\n\n"
    ∧ ("local __destr0 = xs\nlocal a = __destr0[1]\nlocal b = __destr0[2]\nlocal rest = TS_slice(__destr0, 2)\n\n" : String)
      ≠ "local __destr0 = xs\nlocal a = __destr0[1]\nlocal b = __destr0[2]\nlocal rest = TS_slice(__destr0, 2)\n" := by
  refine ⟨?_, by decide⟩
  simp [transpileSourceFile, transpileStmtSeq, transpileNode, transpileVariableStatement,
    transpileVariableDeclaration, transpileBindingElements, transpileExpression,
    transpileExpressionOpt, natStr, natStrAux, digitChar, initialState, progC9, tyArr,
    ok_bind, error_bind, map_ok, map_error]

/-- C9 amended: the temporary is named with the current counter (here 0), the
counter is incremented, positional element `i` binds `__destr0[i+1]`, the rest
element at index `i` binds `TS_slice(__destr0, i)`, and the dispatcher appends
one extra terminating newline to the lines the claim lists. -/
theorem c9_destructuring_output :
    transpileNode initialState progC9
      = .ok ("local __destr0 = xs\nlocal a = __destr0[1]\nlocal b = __destr0[2]\nlocal rest = TS_slice(__destr0, 2)\n\n",
        { indent := "", genVarCounter := 1, transpilingSwitch := false }) := by
  simp [transpileNode, transpileVariableStatement, transpileVariableDeclaration,
    transpileBindingElements, transpileExpression, transpileExpressionOpt,
    natStr, natStrAux, digitChar, initialState, progC9, tyArr,
    ok_bind, error_bind, map_ok, map_error]

/-! ### Claim C5 (confirmed): element access indexing -/

/-- C5: element access emits `a[i+1]` for arrays and tuples,
`string.sub(a,i+1,i+1)` for strings, and `a[i]` with no offset otherwise; and
the literal source `a[0]` on an array yields `a[0+1]`. -/
theorem c5_element_access :
    (∀ (obj idx : Expr) (ty : Ty) (b : Bool) (so si : String),
      transpileExpression obj false = .ok so →
      transpileExpression idx false = .ok si →
      transpileExpression (.elemAccess obj idx ty) b = .ok (
        if TSHelper.isArrayType obj.typeOf || TSHelper.isTupleType obj.typeOf then
          so ++ "[" ++ si ++ "+1]"
        else if TSHelper.isStringType obj.typeOf then
          "string.sub(" ++ so ++ "," ++ si ++ "+1," ++ si ++ "+1)"
        else so ++ "[" ++ si ++ "]"))
    ∧ transpileExpression (.elemAccess (.ident "a" tyArr) (.numericLit "0" tyNone) tyNone) false
      = .ok "a[0+1]" := by
  constructor
  · intro obj idx ty b so si hso hsi
    rw [transpileExpression, hso, hsi]
    simp only [ok_bind]
    split
    · rfl
    · split <;> rfl
  · simp [transpileExpression, TSHelper.isArrayType, TSHelper.isTupleType, TSHelper.isStringType,
      Expr.typeOf, tyArr, ok_bind, error_bind]

/-- C5 witness: the general part applied to an object-typed receiver. -/
theorem c5_element_access_witness :
    transpileExpression (.elemAccess (.ident "o" tyNone) (.ident "k" tyNone) tyNone) false
      = .ok "o[k]" := by
  have h := c5_element_access.1 (.ident "o" tyNone) (.ident "k" tyNone) tyNone false "o" "k"
    (by simp [transpileExpression]) (by simp [transpileExpression])
  simpa [TSHelper.isArrayType, TSHelper.isTupleType, TSHelper.isStringType,
    Expr.typeOf, tyNone] using h

/-! ### Claim C4 (corrected): `+` versus `..` -/

/-- C4 counterexample: in `1 + "a"` the right operand is a string literal (of
string-literal type), yet the emitted operator is `+`, not `..` — only the
left operand is tested. -/
theorem c4_counterexample :
    transpileExpression
        (.binary (.numericLit "1" tyNone) .plusToken (.stringLit "a" tyStrLit) tyNone) false
      = .ok "1+\"a\""
    ∧ ("1+\"a\"" : String) ≠ "1..\"a\"" := by
  refine ⟨?_, by decide⟩
  simp [transpileExpression, Expr.typeOf, Expr.isStringLiteralNode, transpileOperator,
    tokenToString, tyNone, ok_bind, error_bind]

/-- C4 amended: a binary `+` emits `..` iff the LEFT operand's static type is
string or the left operand is a string literal syntactically (the right
operand is never consulted); the `..` form also bypasses the bracket wrap. -/
theorem c4_concat_iff_left_string :
    ∀ (l r : Expr) (ty : Ty) (b : Bool) (ls rs : String),
      transpileExpression l true = .ok ls →
      transpileExpression r true = .ok rs →
      transpileExpression (.binary l .plusToken r ty) b
        = .ok (if l.typeOf.isString || l.isStringLiteralNode then ls ++ ".." ++ rs
               else if b then "(" ++ ls ++ "+" ++ rs ++ ")" else ls ++ "+" ++ rs) := by
  intro l r ty b ls rs hl hr
  rw [transpileExpression, hl, hr]
  by_cases hc : (l.typeOf.isString || l.isStringLiteralNode) = true
  · simp [hc, ok_bind]
  · simp at hc
    cases b <;> simp [hc, ok_bind, transpileOperator, tokenToString, String.append_assoc]

/-- C4 witness: the amended claim applied to `"a" + 1`. -/
theorem c4_concat_witness :
    transpileExpression
        (.binary (.stringLit "a" tyStrLit) .plusToken (.numericLit "1" tyNone) tyNone) false
      = .ok "\"a\"..1" := by
  have h := c4_concat_iff_left_string (.stringLit "a" tyStrLit) (.numericLit "1" tyNone)
    tyNone false "\"a\"" "1" (by simp [transpileExpression]) (by simp [transpileExpression])
  simpa [Expr.typeOf, Expr.isStringLiteralNode, tyStrLit] using h

/-! ### Claim C10 (corrected): context argument for method-style calls -/

/-- C10 counterexample: for a receiver whose type is a compile-members-only
enum (which is neither string nor array), the call path is the bare member
name, so the receiver appears only once: the output is `m(E,1)`, not
`E.m(E,1)`. -/
theorem c10_counterexample :
    transpileSourceFile [.expressionStatement
        (.call (.propAccess (.ident "E" tyEnumM) "m" tyNone) [.numericLit "1" tyNone] tyNone)]
      = .ok "m(E,1)\n"
    ∧ ("m(E,1)\n" : String) ≠ "E.m(E,1)\n" := by
  refine ⟨?_, by decide⟩
  simp [transpileSourceFile, transpileStmtSeq, transpileNode, transpileExpression,
    transpilePropertyAccessExpression, transpileArgumentStrings, joinComma,
    TSHelper.isArrayType, TSHelper.isCompileMembersOnlyEnum, Expr.typeOf,
    tyEnumM, tyNone, initialState, ok_bind, error_bind, map_ok, map_error]

/-- C10 amended: for a call through a property access whose receiver type is
neither string, nor (object and array), nor a compile-members-only enum, the
receiver's transpilation `R` is emitted twice — in the call path `R.m` and as
the first (context) argument — giving `R.m(R,args…)`. -/
theorem c10_context_call :
    ∀ (obj : Expr) (name : String) (pty cty : Ty) (args : List Expr) (b : Bool)
      (r : String) (argStrs : List String),
      obj.typeOf.isString = false →
      obj.typeOf.isStringLiteral = false →
      (obj.typeOf.isObjectFlag && TSHelper.isArrayType obj.typeOf) = false →
      TSHelper.isCompileMembersOnlyEnum obj.typeOf = false →
      transpileExpression obj false = .ok r →
      transpileArgumentStrings args = .ok argStrs →
      transpileExpression (.call (.propAccess obj name pty) args cty) b
        = .ok (r ++ "." ++ name ++ "(" ++ joinComma (r :: argStrs) ++ ")") := by
  intro obj name pty cty args b r argStrs h1 h2 h3 h4 hobj hargs
  have e1 : (obj.typeOf.isString || obj.typeOf.isStringLiteral) = false := by
    rw [h1, h2]; rfl
  rw [transpileExpression.eq_def]
  simp only [e1, h3, Bool.false_eq_true, if_false]
  rw [transpilePropertyAccessExpression.eq_def]
  simp only [e1, h3, h4, Bool.false_eq_true, if_false, hobj, hargs, ok_bind]
  simp [ok_bind, String.append_assoc]
  rfl

/-- C10 witness: the amended claim applied to `o.m(1)` for a plain
object-typed receiver. -/
theorem c10_context_call_witness :
    transpileExpression
        (.call (.propAccess (.ident "o" tyNone) "m" tyNone) [.numericLit "1" tyNone] tyNone) false
      = .ok "o.m(o,1)" := by
  have h := c10_context_call (.ident "o" tyNone) "m" tyNone tyNone [.numericLit "1" tyNone]
    false "o" ["1"] (by simp [Expr.typeOf, tyNone]) (by simp [Expr.typeOf, tyNone])
    (by simp [Expr.typeOf, tyNone, TSHelper.isArrayType])
    (by simp [Expr.typeOf, tyNone, TSHelper.isCompileMembersOnlyEnum])
    (by simp [transpileExpression])
    (by simp [transpileArgumentStrings, transpileExpression, ok_bind])
  simpa [joinComma] using h

/-! ### Claim C8 (confirmed): enum member values and rendering -/

/-- The member loop of `transpileEnum` computes exactly the claim-side value
assignment and renders one line per member. -/
theorem transpileEnumMembers_eq_spec (st : St) (enumName : String) (mo : Bool) :
    ∀ (ms : List EnumMember) (v : Int),
      transpileEnumMembers st enumName mo v ms
        = (enumMemberValuesSpec v ms).map (renderEnumLines st enumName mo) := by
  intro ms
  induction ms with
  | nil =>
      intro v
      simp [transpileEnumMembers, enumMemberValuesSpec, renderEnumLines, map_ok]
  | cons m rest ih =>
      intro v
      cases hi : m.initializer with
      | none =>
          cases hs : enumMemberValuesSpec (v + 1) rest <;>
            simp [transpileEnumMembers, enumMemberValuesSpec, hi, hs, ih, renderEnumLines,
              ok_bind, error_bind, map_ok, map_error]
      | some e =>
          cases e
          case numericLit text tyx =>
            cases hs : enumMemberValuesSpec (parseIntJS text + 1) rest <;>
              simp_all [transpileEnumMembers, enumMemberValuesSpec, renderEnumLines,
                ok_bind, error_bind, map_ok, map_error]
          all_goals
            simp [transpileEnumMembers, enumMemberValuesSpec, hi,
              ok_bind, error_bind, map_ok, map_error]

/-- C8: an enum transpiles to the claim-side rendering of the claim-side value
assignment: values come from numeric-literal initializers (counting continues
from them), otherwise previous value plus one starting at 0; a present
non-numeric initializer is a `TranspileError`; a compile-members-only enum
emits free `NAME=VALUE` lines with no containing table, a regular enum emits
the `E={}` header and `E.NAME=VALUE` lines. -/
theorem c8_enum_values :
    ∀ (st : St) (name : String) (members : List EnumMember) (ty : Ty),
      transpileEnum st name members ty
        = (enumMemberValuesSpec 0 members).map
            (renderEnumSpec st name (TSHelper.isCompileMembersOnlyEnum ty)) := by
  intro st name members ty
  cases hs : enumMemberValuesSpec 0 members <;>
    simp [transpileEnum, transpileEnumMembers_eq_spec, hs, renderEnumSpec,
      ok_bind, error_bind, map_ok, map_error]

/-! ### Claims C1 and C2 (corrected): counterexamples with a nested switch -/

set_option maxRecDepth 40000 in
/-- C1 counterexample: in
`switch (k) { case 1: switch (j) { case 2: } break; }` the break lexically
inside the outer case clause (after the nested switch) emits plain `break`,
not `goto switchDone<N>` — the inner switch resets `transpilingSwitch` to
`false` — so the output contains no `goto switchDone` at all, yet contains
`break`. -/
theorem c1_counterexample :
    transpileSourceFile [progC1] = .ok outC1
    ∧ countSub "goto switchDone".data outC1.data = 0
    ∧ countSub "break".data outC1.data = 1 := by
  refine ⟨?_, by decide, by decide⟩
  simp [transpileSourceFile, transpileStmtSeq, transpileNode, transpileSwitchClauses,
    transpileSwitchClauseTail, transpileBreak, transpileExpression, natStr, natStrAux,
    digitChar, initialState, progC1, innerSwitch, outC1, tyNone, pushIndent, popIndent,
    ok_bind, error_bind, map_ok, map_error]

set_option maxRecDepth 40000 in
/-- C2 counterexample: in `switch (k) { case 1: switch (j) { case 2: } }` the
label `::switchCase0::` is emitted twice (once by the outer switch's first
clause, once by the nested switch, which still sees `gen_counter = 0`). -/
theorem c2_counterexample :
    transpileSourceFile [progC2] = .ok outC2
    ∧ countSub (casePat 0) outC2.data = 2 := by
  refine ⟨?_, by decide⟩
  simp [transpileSourceFile, transpileStmtSeq, transpileNode, transpileSwitchClauses,
    transpileSwitchClauseTail, transpileBreak, transpileExpression, natStr, natStrAux,
    digitChar, initialState, progC2, innerSwitch, outC2, tyNone, pushIndent, popIndent,
    ok_bind, error_bind, map_ok, map_error]

/-! ### Decimal rendering: digit facts and injectivity -/

theorem digitChar_isDigit {d : Nat} (h : d < 10) : (digitChar d).isDigit = true := by
  interval_cases d <;> decide

theorem digitChar_inj {d e : Nat} (hd : d < 10) (he : e < 10) :
    digitChar d = digitChar e → d = e := by
  interval_cases d <;> interval_cases e <;> decide

theorem isDigit_ne_colon {c : Char} (h : c.isDigit = true) : c ≠ ':' := by
  intro hc; subst hc; exact absurd h (by decide)

theorem isDigit_ne_newline {c : Char} (h : c.isDigit = true) : c ≠ '\n' := by
  intro hc; subst hc; exact absurd h (by decide)

theorem natStrAux_fuel : ∀ (n f1 f2 : Nat), n ≤ f1 → n ≤ f2 → natStrAux f1 n = natStrAux f2 n := by
  intro n
  induction n using Nat.strong_induction_on with
  | _ n ih =>
    intro f1 f2 h1 h2
    cases n with
    | zero => simp [natStrAux]
    | succ m =>
      cases f1 with
      | zero => omega
      | succ g1 =>
        cases f2 with
        | zero => omega
        | succ g2 =>
          simp only [natStrAux]
          have hd : (m + 1) / 10 < m + 1 := Nat.div_lt_self (Nat.succ_pos m) (by norm_num)
          rw [ih ((m + 1) / 10) hd g1 g2 (by omega) (by omega)]

theorem natStrAux_self (n : Nat) (hn : 0 < n) :
    natStrAux n n = natStrAux (n / 10) (n / 10) ++ [digitChar (n % 10)] := by
  cases n with
  | zero => omega
  | succ m =>
    simp only [natStrAux]
    have hd : (m + 1) / 10 < m + 1 := Nat.div_lt_self (Nat.succ_pos m) (by norm_num)
    rw [natStrAux_fuel ((m + 1) / 10) m ((m + 1) / 10) (by omega) (le_refl _)]

theorem natStrAux_digits : ∀ n, ∀ c ∈ natStrAux n n, c.isDigit = true := by
  intro n
  induction n using Nat.strong_induction_on with
  | _ n ih =>
    intro c hc
    rcases Nat.eq_zero_or_pos n with h0 | hp
    · subst h0; simp [natStrAux] at hc
    · rw [natStrAux_self n hp] at hc
      rcases List.mem_append.1 hc with h | h
      · exact ih (n / 10) (Nat.div_lt_self hp (by norm_num)) c h
      · simp only [List.mem_singleton] at h
        subst h
        exact digitChar_isDigit (Nat.mod_lt n (by norm_num))

theorem natStr_digits (n : Nat) : ∀ c ∈ (natStr n).data, c.isDigit = true := by
  intro c hc
  by_cases h : n = 0
  · subst h
    simp [natStr] at hc
    subst hc
    decide
  · simp [natStr, h] at hc
    exact natStrAux_digits n c hc

theorem natStrAux_ne_nil (n : Nat) (hn : 0 < n) : natStrAux n n ≠ [] := by
  rw [natStrAux_self n hn]; simp

theorem natStrAux_inj : ∀ n, ∀ m, natStrAux n n = natStrAux m m → n = m := by
  intro n
  induction n using Nat.strong_induction_on with
  | _ n ih =>
    intro m h
    rcases Nat.eq_zero_or_pos n with h0 | hp
    · subst h0
      rcases Nat.eq_zero_or_pos m with hm0 | hmp
      · omega
      · exfalso
        apply natStrAux_ne_nil m hmp
        simpa [natStrAux] using h.symm
    · rcases Nat.eq_zero_or_pos m with hm0 | hmp
      · exfalso
        apply natStrAux_ne_nil n hp
        subst hm0
        simpa [natStrAux] using h
      · rw [natStrAux_self n hp, natStrAux_self m hmp] at h
        have h2 := congrArg List.reverse h
        simp only [List.reverse_append, List.reverse_cons, List.reverse_nil, List.nil_append,
          List.singleton_append, List.cons.injEq] at h2
        obtain ⟨hx, hrev⟩ := h2
        have hmod : n % 10 = m % 10 :=
          digitChar_inj (Nat.mod_lt n (by norm_num)) (Nat.mod_lt m (by norm_num)) hx
        have hdiv : n / 10 = m / 10 :=
          ih (n / 10) (Nat.div_lt_self hp (by norm_num)) (m / 10) (List.reverse_injective hrev)
        omega

theorem natStr_inj : ∀ {n m : Nat}, natStr n = natStr m → n = m := by
  intro n m h
  have hd : (natStr n).data = (natStr m).data := by rw [h]
  by_cases hn : n = 0 <;> by_cases hm : m = 0
  · omega
  · exfalso
    subst hn
    simp [natStr, hm] at hd
    rw [natStrAux_self m (Nat.pos_of_ne_zero hm)] at hd
    have hlen := congrArg List.length hd
    simp at hlen
    have hnil : natStrAux (m / 10) (m / 10) = [] := hlen
    rw [hnil] at hd
    simp at hd
    have : m % 10 = 0 :=
      digitChar_inj (Nat.mod_lt m (by positivity)) (by norm_num) (by simpa [digitChar] using hd.symm)
    have : m / 10 = 0 := by
      by_contra hq
      exact natStrAux_ne_nil (m / 10) (Nat.pos_of_ne_zero hq) hnil
    omega
  · exfalso
    subst hm
    simp [natStr, hn] at hd
    rw [natStrAux_self n (Nat.pos_of_ne_zero hn)] at hd
    have hlen := congrArg List.length hd
    simp at hlen
    have hnil : natStrAux (n / 10) (n / 10) = [] := hlen
    rw [hnil] at hd
    simp at hd
    have : n % 10 = 0 :=
      digitChar_inj (Nat.mod_lt n (by positivity)) (by norm_num) (by simpa [digitChar] using hd)
    have : n / 10 = 0 := by
      by_contra hq
      exact natStrAux_ne_nil (n / 10) (Nat.pos_of_ne_zero hq) hnil
    omega
  · simp [natStr, hn, hm] at hd
    exact natStrAux_inj n m hd

/-! ### Substring counting: generic lemmas -/

theorem matchPre_length : ∀ (pat l : List Char), matchPre pat l = true → pat.length ≤ l.length := by
  intro pat
  induction pat with
  | nil => intro l _; simp
  | cons p ps ih =>
    intro l h
    cases l with
    | nil => simp [matchPre] at h
    | cons c cs =>
      simp [matchPre] at h
      have := ih cs h.2
      simp
      omega

theorem countSub_nil {pat : List Char} (h : pat ≠ []) : countSub pat [] = 0 := by
  simp [countSub, h]

theorem countSub_short : ∀ (pat l : List Char), l.length < pat.length → countSub pat l = 0 := by
  intro pat l
  induction l with
  | nil =>
    intro h
    have hp : pat ≠ [] := by
      intro e; subst e; simp at h
    exact countSub_nil hp
  | cons c cs ih =>
    intro h
    simp only [List.length_cons] at h
    simp only [countSub]
    have h1 : matchPre pat (c :: cs) = false := by
      by_contra hx
      simp only [Bool.not_eq_false] at hx
      have := matchPre_length pat (c :: cs) hx
      simp only [List.length_cons] at this
      omega
    rw [h1]
    simp only [if_false, Bool.false_eq_true]
    simp [ih (by omega)]

theorem countSub_cons_skip (h : Char) (ps : List Char) :
    ∀ (a b : List Char), (∀ c ∈ a, c ≠ h) →
      countSub (h :: ps) (a ++ b) = countSub (h :: ps) b := by
  intro a
  induction a with
  | nil => intro b _; simp
  | cons c a' ih =>
    intro b ha
    have hc : c ≠ h := ha c (by simp)
    have hm : matchPre (h :: ps) (c :: (a' ++ b)) = false := by
      have hb : (h == c) = false := beq_eq_false_iff_ne.mpr (Ne.symm hc)
      simp [matchPre, hb]
    rw [List.cons_append]
    rw [countSub, hm]
    simpa using ih b (fun x hx => ha x (by simp [hx]))

theorem countSub_zero_of_skip (h : Char) (ps : List Char) (a : List Char)
    (ha : ∀ c ∈ a, c ≠ h) : countSub (h :: ps) a = 0 := by
  have h2 := countSub_cons_skip h ps a [] ha
  simp at h2
  rw [h2]
  exact countSub_nil (by simp)

theorem matchPre_stops (ch : Char) :
    ∀ (x pat b : List Char), ch ∉ pat → x.getLast? = some ch →
      matchPre pat (x ++ b) = matchPre pat x := by
  intro x
  induction x with
  | nil => intro pat b _ hx; simp at hx
  | cons c x' ih =>
    intro pat b hch hx
    cases pat with
    | nil => simp [matchPre]
    | cons p ps =>
      cases x' with
      | nil =>
        simp only [List.getLast?_singleton, Option.some.injEq] at hx
        subst hx
        simp only [List.singleton_append, matchPre]
        have hp : (p == c) = false := by
          have hpc : p ≠ c := by
            intro e; subst e; exact hch (by simp)
          simp [hpc]
        rw [hp]
        simp
      | cons c2 x'' =>
        rw [List.cons_append]
        rw [matchPre, matchPre]
        congr 1
        apply ih
        · exact fun hm => hch (by simp [hm])
        · simpa using hx

theorem countSub_append_last (ch : Char) :
    ∀ (a pat b : List Char), pat ≠ [] → ch ∉ pat → a.getLast? = some ch →
      countSub pat (a ++ b) = countSub pat a + countSub pat b := by
  intro a
  induction a with
  | nil => intro pat b _ _ hx; simp at hx
  | cons c a' ih =>
    intro pat b hp hch hlast
    cases a' with
    | nil =>
      simp only [List.getLast?_singleton, Option.some.injEq] at hlast
      subst hlast
      rw [List.singleton_append]
      rw [countSub, countSub]
      have hm : matchPre pat (c :: b) = matchPre pat [c] := by
        have h2 := matchPre_stops c [c] pat b hch (by simp)
        simpa using h2
      rw [hm, countSub_nil hp]
      omega
    | cons c2 a'' =>
      rw [List.cons_append]
      rw [countSub, countSub]
      have hm : matchPre pat (c :: (c2 :: a'' ++ b)) = matchPre pat (c :: c2 :: a'') := by
        have h2 := matchPre_stops ch (c :: c2 :: a'') pat b hch hlast
        simpa using h2
      rw [hm]
      have hrec := ih pat b hp hch (by simpa using hlast)
      omega

/-! ### Substring counting: label-specific lemmas -/

theorem switchCase_data : "switchCase".data = ['s', 'w', 'i', 't', 'c', 'h', 'C', 'a', 's', 'e'] := rfl

theorem switchDone_data : "switchDone".data = ['s', 'w', 'i', 't', 'c', 'h', 'D', 'o', 'n', 'e'] := rfl

theorem casePat_eq (n : Nat) :
    casePat n = ':' :: ':' :: ("switchCase".data ++ ((natStr n).data ++ [':', ':'])) := by
  simp [casePat, switchCase_data]

theorem donePat_eq (n : Nat) :
    donePat n = ':' :: ':' :: ("switchDone".data ++ ((natStr n).data ++ [':', ':'])) := by
  simp [donePat, switchDone_data]

theorem matchPre_common : ∀ (S x y : List Char), matchPre (S ++ x) (S ++ y) = matchPre x y := by
  intro S
  induction S with
  | nil => intro x y; simp
  | cons c S' ih => intro x y; simp [matchPre, ih]

theorem matchPre_digits : ∀ (d1 d2 r : List Char),
    (∀ c ∈ d1, c.isDigit = true) → (∀ c ∈ d2, c.isDigit = true) →
    matchPre (d1 ++ [':', ':']) (d2 ++ ':' :: ':' :: r) = decide (d1 = d2) := by
  intro d1
  induction d1 with
  | nil =>
    intro d2 r _ h2
    cases d2 with
    | nil => simp [matchPre]
    | cons b d2' =>
      have hb : (':' == b) = false :=
        beq_eq_false_iff_ne.mpr (Ne.symm (isDigit_ne_colon (h2 b (by simp))))
      simp [matchPre, hb]
  | cons a d1' ih =>
    intro d2 r h1 h2
    cases d2 with
    | nil =>
      have ha : (a == ':') = false :=
        beq_eq_false_iff_ne.mpr (isDigit_ne_colon (h1 a (by simp)))
      simp [matchPre, ha]
    | cons b d2' =>
      by_cases hab : a = b
      · subst hab
        simp only [List.cons_append, matchPre, beq_self_eq_true, Bool.true_and, List.append_eq]
        rw [ih d2' r (fun c hc => h1 c (by simp [hc])) (fun c hc => h2 c (by simp [hc]))]
        have hiff : (d1' = d2') ↔ (a :: d1' = a :: d2') := by simp
        rw [decide_eq_decide.mpr hiff]
      · have hb : (a == b) = false := beq_eq_false_iff_ne.mpr hab
        simp [matchPre, hb, hab]

theorem natStr_data_inj {n m : Nat} (h : (natStr n).data = (natStr m).data) : n = m :=
  natStr_inj (congrArg String.mk h)

theorem newline_not_mem_casePat (n : Nat) : '\n' ∉ casePat n := by
  intro hmem
  rw [casePat_eq] at hmem
  simp [switchCase_data] at hmem
  have := natStr_digits n '\n' hmem
  exact absurd this (by decide)

theorem newline_not_mem_donePat (n : Nat) : '\n' ∉ donePat n := by
  intro hmem
  rw [donePat_eq] at hmem
  simp [switchDone_data] at hmem
  have := natStr_digits n '\n' hmem
  exact absurd this (by decide)

theorem rparen_not_mem_casePat (n : Nat) : ')' ∉ casePat n := by
  intro hmem
  rw [casePat_eq] at hmem
  simp [switchCase_data] at hmem
  have := natStr_digits n ')' hmem
  exact absurd this (by decide)

theorem rparen_not_mem_donePat (n : Nat) : ')' ∉ donePat n := by
  intro hmem
  rw [donePat_eq] at hmem
  simp [switchDone_data] at hmem
  have := natStr_digits n ')' hmem
  exact absurd this (by decide)

theorem countSub_casePat_caseLine (n m : Nat) (ind : List Char) (hind : ∀ c ∈ ind, c = ' ') :
    countSub (casePat n) (ind ++ ("::switchCase".data ++ ((natStr m).data ++ [':', ':', '\n'])))
      = if n = m then 1 else 0 := by
  have hdig : ∀ c ∈ (natStr m).data, c ≠ ':' := fun c hc => isDigit_ne_colon (natStr_digits m c hc)
  rw [casePat_eq]
  rw [countSub_cons_skip ':' _ ind _ (fun c hc => by rw [hind c hc]; decide)]
  have hline : ("::switchCase".data ++ ((natStr m).data ++ [':', ':', '\n']))
      = ':' :: ':' :: ("switchCase".data ++ ((natStr m).data ++ [':', ':', '\n'])) := by
    simp [switchCase_data]
  rw [hline]
  rw [countSub, countSub]
  have h0 : matchPre (':' :: ':' :: ("switchCase".data ++ ((natStr n).data ++ [':', ':'])))
      (':' :: ':' :: ("switchCase".data ++ ((natStr m).data ++ [':', ':', '\n'])))
      = decide ((natStr n).data = (natStr m).data) := by
    simp only [matchPre, beq_self_eq_true, Bool.true_and, List.append_eq, List.nil_append]
    have he : (natStr m).data ++ [':', ':', '\n'] = (natStr m).data ++ ':' :: ':' :: ['\n'] := rfl
    rw [he, matchPre_digits _ _ _ (natStr_digits n) (natStr_digits m)]
  have h1 : matchPre (':' :: ':' :: ("switchCase".data ++ ((natStr n).data ++ [':', ':'])))
      (':' :: ("switchCase".data ++ ((natStr m).data ++ [':', ':', '\n']))) = false := by
    simp [matchPre, switchCase_data]
  have h2 : countSub (':' :: ':' :: ("switchCase".data ++ ((natStr n).data ++ [':', ':'])))
      ("switchCase".data ++ ((natStr m).data ++ [':', ':', '\n'])) = 0 := by
    rw [countSub_cons_skip ':' _ "switchCase".data _ (by decide)]
    rw [countSub_cons_skip ':' _ (natStr m).data _ hdig]
    apply countSub_short
    simp [switchCase_data]
  rw [h0, h1, h2]
  simp only [if_false, Bool.false_eq_true, Nat.add_zero, decide_eq_true_eq]
  by_cases h : n = m
  · subst h; simp
  · have hne : ¬((natStr n).data = (natStr m).data) := fun he => h (natStr_data_inj he)
    simp [h, hne]

theorem countSub_donePat_doneLine (n m : Nat) (ind : List Char) (hind : ∀ c ∈ ind, c = ' ') :
    countSub (donePat n) (ind ++ ("::switchDone".data ++ ((natStr m).data ++ [':', ':', '\n'])))
      = if n = m then 1 else 0 := by
  have hdig : ∀ c ∈ (natStr m).data, c ≠ ':' := fun c hc => isDigit_ne_colon (natStr_digits m c hc)
  rw [donePat_eq]
  rw [countSub_cons_skip ':' _ ind _ (fun c hc => by rw [hind c hc]; decide)]
  have hline : ("::switchDone".data ++ ((natStr m).data ++ [':', ':', '\n']))
      = ':' :: ':' :: ("switchDone".data ++ ((natStr m).data ++ [':', ':', '\n'])) := by
    simp [switchDone_data]
  rw [hline]
  rw [countSub, countSub]
  have h0 : matchPre (':' :: ':' :: ("switchDone".data ++ ((natStr n).data ++ [':', ':'])))
      (':' :: ':' :: ("switchDone".data ++ ((natStr m).data ++ [':', ':', '\n'])))
      = decide ((natStr n).data = (natStr m).data) := by
    simp only [matchPre, beq_self_eq_true, Bool.true_and, List.append_eq, List.nil_append]
    have he : (natStr m).data ++ [':', ':', '\n'] = (natStr m).data ++ ':' :: ':' :: ['\n'] := rfl
    rw [he, matchPre_digits _ _ _ (natStr_digits n) (natStr_digits m)]
  have h1 : matchPre (':' :: ':' :: ("switchDone".data ++ ((natStr n).data ++ [':', ':'])))
      (':' :: ("switchDone".data ++ ((natStr m).data ++ [':', ':', '\n']))) = false := by
    simp [matchPre, switchDone_data]
  have h2 : countSub (':' :: ':' :: ("switchDone".data ++ ((natStr n).data ++ [':', ':'])))
      ("switchDone".data ++ ((natStr m).data ++ [':', ':', '\n'])) = 0 := by
    rw [countSub_cons_skip ':' _ "switchDone".data _ (by decide)]
    rw [countSub_cons_skip ':' _ (natStr m).data _ hdig]
    apply countSub_short
    simp [switchDone_data]
  rw [h0, h1, h2]
  simp only [if_false, Bool.false_eq_true, Nat.add_zero, decide_eq_true_eq]
  by_cases h : n = m
  · subst h; simp
  · have hne : ¬((natStr n).data = (natStr m).data) := fun he => h (natStr_data_inj he)
    simp [h, hne]

theorem countSub_casePat_doneLine (n m : Nat) (ind : List Char) (hind : ∀ c ∈ ind, c = ' ') :
    countSub (casePat n) (ind ++ ("::switchDone".data ++ ((natStr m).data ++ [':', ':', '\n'])))
      = 0 := by
  have hdig : ∀ c ∈ (natStr m).data, c ≠ ':' := fun c hc => isDigit_ne_colon (natStr_digits m c hc)
  rw [casePat_eq]
  rw [countSub_cons_skip ':' _ ind _ (fun c hc => by rw [hind c hc]; decide)]
  have hline : ("::switchDone".data ++ ((natStr m).data ++ [':', ':', '\n']))
      = ':' :: ':' :: ("switchDone".data ++ ((natStr m).data ++ [':', ':', '\n'])) := by
    simp [switchDone_data]
  rw [hline]
  rw [countSub, countSub]
  have h0 : matchPre (':' :: ':' :: ("switchCase".data ++ ((natStr n).data ++ [':', ':'])))
      (':' :: ':' :: ("switchDone".data ++ ((natStr m).data ++ [':', ':', '\n'])))
      = false := by
    simp [matchPre, switchCase_data, switchDone_data]
  have h1 : matchPre (':' :: ':' :: ("switchCase".data ++ ((natStr n).data ++ [':', ':'])))
      (':' :: ("switchDone".data ++ ((natStr m).data ++ [':', ':', '\n']))) = false := by
    simp [matchPre, switchCase_data, switchDone_data]
  have h2 : countSub (':' :: ':' :: ("switchCase".data ++ ((natStr n).data ++ [':', ':'])))
      ("switchDone".data ++ ((natStr m).data ++ [':', ':', '\n'])) = 0 := by
    rw [countSub_cons_skip ':' _ "switchDone".data _ (by decide)]
    rw [countSub_cons_skip ':' _ (natStr m).data _ hdig]
    apply countSub_short
    simp [switchCase_data]
  rw [h0, h1, h2]
  simp

theorem countSub_donePat_caseLine (n m : Nat) (ind : List Char) (hind : ∀ c ∈ ind, c = ' ') :
    countSub (donePat n) (ind ++ ("::switchCase".data ++ ((natStr m).data ++ [':', ':', '\n'])))
      = 0 := by
  have hdig : ∀ c ∈ (natStr m).data, c ≠ ':' := fun c hc => isDigit_ne_colon (natStr_digits m c hc)
  rw [donePat_eq]
  rw [countSub_cons_skip ':' _ ind _ (fun c hc => by rw [hind c hc]; decide)]
  have hline : ("::switchCase".data ++ ((natStr m).data ++ [':', ':', '\n']))
      = ':' :: ':' :: ("switchCase".data ++ ((natStr m).data ++ [':', ':', '\n'])) := by
    simp [switchCase_data]
  rw [hline]
  rw [countSub, countSub]
  have h0 : matchPre (':' :: ':' :: ("switchDone".data ++ ((natStr n).data ++ [':', ':'])))
      (':' :: ':' :: ("switchCase".data ++ ((natStr m).data ++ [':', ':', '\n'])))
      = false := by
    simp [matchPre, switchCase_data, switchDone_data]
  have h1 : matchPre (':' :: ':' :: ("switchDone".data ++ ((natStr n).data ++ [':', ':'])))
      (':' :: ("switchCase".data ++ ((natStr m).data ++ [':', ':', '\n']))) = false := by
    simp [matchPre, switchCase_data, switchDone_data]
  have h2 : countSub (':' :: ':' :: ("switchDone".data ++ ((natStr n).data ++ [':', ':'])))
      ("switchCase".data ++ ((natStr m).data ++ [':', ':', '\n'])) = 0 := by
    rw [countSub_cons_skip ':' _ "switchCase".data _ (by decide)]
    rw [countSub_cons_skip ':' _ (natStr m).data _ hdig]
    apply countSub_short
    simp [switchDone_data]
  rw [h0, h1, h2]
  simp

/-! ### String utilities: colon-freeness, indent algebra, last characters -/

theorem strNoChar_append (ch : Char) (a b : String) :
    strNoChar ch (a ++ b) = (strNoChar ch a && strNoChar ch b) := by
  simp [strNoChar, String.data_append, List.all_append]

theorem strNoChar_spec {ch : Char} {s : String} (h : strNoChar ch s = true) :
    ∀ c ∈ s.data, c ≠ ch := by
  simp only [strNoChar, List.all_eq_true, decide_eq_true_eq] at h
  exact h

theorem strNoChar_natStr (n : Nat) : strNoChar ':' (natStr n) = true := by
  simp only [strNoChar, List.all_eq_true, decide_eq_true_eq]
  exact fun c hc => isDigit_ne_colon (natStr_digits n c hc)

theorem strNoChar_intStr (v : Int) : strNoChar ':' (intStr v) = true := by
  cases v with
  | ofNat n => simpa [intStr] using strNoChar_natStr n
  | negSucc n =>
      simp only [intStr, strNoChar_append, Bool.and_eq_true]
      exact ⟨by decide, strNoChar_natStr (n + 1)⟩

theorem strNoChar_joinComma (ch : Char) (hch : ch ≠ ',') :
    ∀ l : List String, (∀ s ∈ l, strNoChar ch s = true) → strNoChar ch (joinComma l) = true := by
  intro l
  induction l with
  | nil => intro _; simp [joinComma, strNoChar]
  | cons s rest ih =>
    intro h
    cases rest with
    | nil => simpa [joinComma] using h s (by simp)
    | cons s2 rest' =>
      have hj : joinComma (s :: s2 :: rest') = s ++ "," ++ joinComma (s2 :: rest') := rfl
      rw [hj]
      simp only [strNoChar_append, Bool.and_eq_true]
      refine ⟨⟨h s (by simp), ?_⟩, ih (fun x hx => h x (by simp [hx]))⟩
      simp only [strNoChar, List.all_eq_true, decide_eq_true_eq]
      intro c hc
      have : c = ',' := by simpa using hc
      subst this
      exact Ne.symm hch

theorem allSpaces_spec {s : String} (h : allSpaces s = true) : ∀ c ∈ s.data, c = ' ' := by
  simp only [allSpaces, List.all_eq_true, beq_iff_eq] at h
  exact h

theorem allSpaces_push (st : St) (h : allSpaces st.indent = true) :
    allSpaces (pushIndent st).indent = true := by
  simp only [pushIndent, allSpaces, String.data_append, List.all_append, Bool.and_eq_true]
  constructor
  · simpa [allSpaces] using h
  · decide

theorem strNoChar_of_allSpaces {s : String} (h : allSpaces s = true) :
    strNoChar ':' s = true := by
  simp only [strNoChar, List.all_eq_true, decide_eq_true_eq]
  intro c hc
  rw [allSpaces_spec h c hc]
  decide

theorem drop4_spaces {s : String} (h : allSpaces s = true) :
    (⟨(s ++ "    ").data.drop 4⟩ : String) = s := by
  have hs : s.data = List.replicate s.data.length ' ' :=
    List.eq_replicate_of_mem (allSpaces_spec h)
  have hd : (s ++ "    ").data = s.data ++ List.replicate 4 ' ' := by
    rw [String.data_append]; rfl
  rw [hd, hs, ← List.replicate_add]
  rw [List.drop_replicate]
  have hlen : s.data.length + 4 - 4 = s.data.length := by omega
  rw [hlen, ← hs]

theorem getLast?_append_right {α : Type} : ∀ (a b : List α), b ≠ [] →
    (a ++ b).getLast? = b.getLast? := by
  intro a
  induction a with
  | nil => intro b _; simp
  | cons c a' ih =>
    intro b hb
    cases a' with
    | nil =>
      cases b with
      | nil => exact absurd rfl hb
      | cons b1 b' => simp [List.getLast?_cons_cons]
    | cons a2 a'' =>
      have hrec := ih b hb
      simp only [List.cons_append] at hrec ⊢
      rw [List.getLast?_cons_cons]
      exact hrec

mutual
theorem transpileExpression_noColon (e : Expr) (b : Bool) (s : String)
    (hcf : e.colonFree = true) (h : transpileExpression e b = .ok s) :
    strNoChar ':' s = true := by
  cases e with
  | ident name ty =>
      simp only [transpileExpression, Except.ok.injEq] at h
      subst h
      simpa [Expr.colonFree] using hcf
  | stringLit text ty =>
      simp only [transpileExpression, Except.ok.injEq] at h
      subst h
      simp only [Expr.colonFree] at hcf
      simp only [strNoChar_append, Bool.and_eq_true]
      exact ⟨⟨by decide, hcf⟩, by decide⟩
  | numericLit text ty =>
      simp only [transpileExpression, Except.ok.injEq] at h
      subst h
      simpa [Expr.colonFree] using hcf
  | trueKw ty =>
      simp only [transpileExpression, Except.ok.injEq] at h
      subst h; decide
  | falseKw ty =>
      simp only [transpileExpression, Except.ok.injEq] at h
      subst h; decide
  | nullKw ty =>
      simp only [transpileExpression, Except.ok.injEq] at h
      subst h; decide
  | thisKw ty =>
      simp only [transpileExpression, Except.ok.injEq] at h
      subst h; decide
  | superKw ty =>
      simp only [transpileExpression, Except.ok.injEq] at h
      subst h; decide
  | paren inner ty =>
      simp only [transpileExpression, bind_eq_ok] at h
      obtain ⟨si, hsi, h⟩ := h
      simp only [Pure.pure, Except.pure, Except.ok.injEq] at h
      subst h
      have hin := transpileExpression_noColon inner false si (by simpa [Expr.colonFree] using hcf) hsi
      simp only [strNoChar_append, Bool.and_eq_true]
      exact ⟨⟨by decide, hin⟩, by decide⟩
  | preUnary op operand ty =>
      simp only [transpileExpression, bind_eq_ok] at h
      obtain ⟨o, ho, h⟩ := h
      have hoc := transpileExpression_noColon operand true o (by simpa [Expr.colonFree] using hcf) ho
      cases op <;>
        simp only [Pure.pure, Except.pure, Except.ok.injEq] at h <;>
        subst h <;>
        simp only [strNoChar_append, Bool.and_eq_true] <;>
        simp [hoc] <;> decide
  | postUnary operand op ty =>
      simp only [transpileExpression, bind_eq_ok] at h
      obtain ⟨o, ho, h⟩ := h
      have hoc := transpileExpression_noColon operand true o (by simpa [Expr.colonFree] using hcf) ho
      cases op <;>
        simp only [Pure.pure, Except.pure, Except.ok.injEq] at h <;>
        first
        | (subst h
           simp only [strNoChar_append, Bool.and_eq_true]
           simp [hoc] <;> decide)
        | simp at h
  | arrayLit elems ty =>
      simp only [transpileExpression, bind_eq_ok] at h
      obtain ⟨vals, hvals, h⟩ := h
      simp only [Pure.pure, Except.pure, Except.ok.injEq] at h
      subst h
      have hv := transpileArgumentStrings_noColon elems vals (by simpa [Expr.colonFree] using hcf) hvals
      have hj := strNoChar_joinComma ':' (by decide) vals hv
      simp only [strNoChar_append, Bool.and_eq_true]
      exact ⟨⟨by decide, hj⟩, by decide⟩
  | elemAccess obj idx ty =>
      simp only [transpileExpression, bind_eq_ok] at h
      obtain ⟨se, hse, h⟩ := h
      obtain ⟨si, hsi, h⟩ := h
      simp only [Expr.colonFree, Bool.and_eq_true] at hcf
      have h1 := transpileExpression_noColon obj false se hcf.1 hse
      have h2 := transpileExpression_noColon idx false si hcf.2 hsi
      split at h <;>
        [skip; split at h] <;>
        simp only [Pure.pure, Except.pure, Except.ok.injEq] at h <;>
        subst h <;>
        simp only [strNoChar_append, Bool.and_eq_true] <;>
        simp [h1, h2] <;> decide
  | propAccess obj name ty =>
      simp only [transpileExpression] at h
      simp only [Expr.colonFree, Bool.and_eq_true] at hcf
      exact transpilePropertyAccessExpression_noColon obj name s hcf.1 hcf.2 h
  | binary l op r ty =>
      simp only [transpileExpression, bind_eq_ok] at h
      obtain ⟨lhs, hlhs, h⟩ := h
      obtain ⟨rhs, hrhs, h⟩ := h
      simp only [Expr.colonFree, Bool.and_eq_true] at hcf
      have h1 := transpileExpression_noColon l true lhs hcf.1 hlhs
      have h2 := transpileExpression_noColon r true rhs hcf.2 hrhs
      cases op
      case plusToken =>
        rcases Bool.eq_false_or_eq_true (l.typeOf.isString || l.isStringLiteralNode) with hc | hc <;>
          cases b <;>
          simp only [ok_bind] at h <;>
          simp [hc, Pure.pure, Except.pure, ok_bind] at h <;>
          subst h <;>
          simp [strNoChar_append, h1, h2] <;>
          decide
      all_goals
        cases b <;>
          simp only [ok_bind] at h <;>
          simp [Pure.pure, Except.pure, ok_bind] at h <;>
          subst h <;>
          simp [strNoChar_append, h1, h2, transpileOperator, tokenToString] <;>
          decide
  | call callee args ty =>
      simp only [Expr.colonFree, Bool.and_eq_true] at hcf
      have hargsCF := hcf.2
      rw [transpileExpression.eq_def] at h
      simp only [] at h
      split at h
      · -- callee is a property access
        rename_i obj name pty
        obtain ⟨ho, hn⟩ : obj.colonFree = true ∧ strNoChar ':' name = true := by
          simpa [Expr.colonFree, Bool.and_eq_true] using hcf.1
        split at h
        · -- transpileStringCallExpression
          simp only [bind_eq_ok] at h
          obtain ⟨argStrs, hargs, h⟩ := h
          obtain ⟨params, hparams, h⟩ := h
          obtain ⟨caller, hcaller, h⟩ := h
          have hpjoin : strNoChar ':' params = true := by
            simp only [Pure.pure, Except.pure, Except.ok.injEq] at hparams
            subst hparams
            exact strNoChar_joinComma ':' (by decide) argStrs
              (transpileArgumentStrings_noColon args argStrs hargsCF hargs)
          have hcal := transpileExpression_noColon obj false caller ho hcaller
          split at h <;>
            (try split at h) <;>
            simp [Pure.pure, Except.pure] at h <;>
            subst h <;>
            simp [strNoChar_append, hpjoin, hcal] <;>
            decide
        · split at h
          · -- transpileArrayCallExpression
            simp only [bind_eq_ok] at h
            obtain ⟨argStrs, hargs, h⟩ := h
            obtain ⟨params, hparams, h⟩ := h
            obtain ⟨caller, hcaller, h⟩ := h
            have hpjoin : strNoChar ':' params = true := by
              simp only [Pure.pure, Except.pure, Except.ok.injEq] at hparams
              subst hparams
              exact strNoChar_joinComma ':' (by decide) argStrs
                (transpileArgumentStrings_noColon args argStrs hargsCF hargs)
            have hcal := transpileExpression_noColon obj false caller ho hcaller
            split at h <;>
              simp [Pure.pure, Except.pure] at h <;>
              subst h <;>
              simp [strNoChar_append, hpjoin, hcal] <;>
              decide
          · -- context-argument path
            simp only [bind_eq_ok] at h
            obtain ⟨cp, hcp, h⟩ := h
            obtain ⟨ctx, hctx, h⟩ := h
            obtain ⟨argStrs, hargs, h⟩ := h
            simp only [Pure.pure, Except.pure, Except.ok.injEq] at h
            subst h
            have hcpc := transpilePropertyAccessExpression_noColon obj name cp ho hn hcp
            have hctxc := transpileExpression_noColon obj false ctx ho hctx
            have hjoin : strNoChar ':' (joinComma (ctx :: argStrs)) = true := by
              apply strNoChar_joinComma ':' (by decide)
              intro x hx
              rcases List.mem_cons.mp hx with hx | hx
              · subst hx; exact hctxc
              · exact transpileArgumentStrings_noColon args argStrs hargsCF hargs x hx
            simp only [strNoChar_append, Bool.and_eq_true]
            exact ⟨⟨⟨hcpc, by decide⟩, hjoin⟩, by decide⟩
      · -- callee is `super`
        simp only [bind_eq_ok] at h
        obtain ⟨argStrs, hargs, h⟩ := h
        simp only [Pure.pure, Except.pure, Except.ok.injEq] at h
        subst h
        have hjoin : strNoChar ':' (joinComma ("self" :: argStrs)) = true := by
          apply strNoChar_joinComma ':' (by decide)
          intro x hx
          rcases List.mem_cons.mp hx with hx | hx
          · subst hx; decide
          · exact transpileArgumentStrings_noColon args argStrs hargsCF hargs x hx
        simp only [strNoChar_append, Bool.and_eq_true]
        exact ⟨⟨by decide, hjoin⟩, by decide⟩
      · -- any other callee
        simp only [bind_eq_ok] at h
        obtain ⟨cp, hcp, h⟩ := h
        obtain ⟨argStrs, hargs, h⟩ := h
        obtain ⟨params, hparams, h⟩ := h
        simp only [Pure.pure, Except.pure, Except.ok.injEq] at h hparams
        subst h
        subst hparams
        have hcpc := transpileExpression_noColon callee false cp hcf.1 hcp
        have hjoin := strNoChar_joinComma ':' (by decide) argStrs
          (transpileArgumentStrings_noColon args argStrs hargsCF hargs)
        simp only [strNoChar_append, Bool.and_eq_true]
        exact ⟨⟨⟨hcpc, by decide⟩, hjoin⟩, by decide⟩
termination_by (sizeOf e, 0)

theorem transpilePropertyAccessExpression_noColon (obj : Expr) (name : String) (s : String)
    (hobj : obj.colonFree = true) (hname : strNoChar ':' name = true)
    (h : transpilePropertyAccessExpression obj name = .ok s) :
    strNoChar ':' s = true := by
  rw [transpilePropertyAccessExpression.eq_def] at h
  split at h
  · -- string property
    split at h
    · simp only [bind_eq_ok] at h
      obtain ⟨p, hp, h⟩ := h
      simp only [Pure.pure, Except.pure, Except.ok.injEq] at h
      subst h
      have hpc := transpileExpression_noColon obj false p hobj hp
      simp only [strNoChar_append, Bool.and_eq_true]
      exact ⟨by decide, hpc⟩
    · simp at h
  · split at h
    · -- array property
      split at h
      · simp only [bind_eq_ok] at h
        obtain ⟨p, hp, h⟩ := h
        simp only [Pure.pure, Except.pure, Except.ok.injEq] at h
        subst h
        have hpc := transpileExpression_noColon obj false p hobj hp
        simp only [strNoChar_append, Bool.and_eq_true]
        exact ⟨by decide, hpc⟩
      · simp at h
    · split at h
      · -- compile-members-only enum: bare member name
        simp only [Except.ok.injEq] at h
        subst h
        exact hname
      · -- plain path
        simp only [bind_eq_ok] at h
        obtain ⟨p, hp, h⟩ := h
        simp only [Pure.pure, Except.pure, Except.ok.injEq] at h
        subst h
        have hpc := transpileExpression_noColon obj false p hobj hp
        simp only [strNoChar_append, Bool.and_eq_true]
        exact ⟨⟨hpc, by decide⟩, hname⟩
termination_by (sizeOf obj, 1)

theorem transpileArgumentStrings_noColon (l : List Expr) (ss : List String)
    (hcf : Expr.listColonFree l = true) (h : transpileArgumentStrings l = .ok ss) :
    ∀ s ∈ ss, strNoChar ':' s = true := by
  cases l with
  | nil =>
    simp only [transpileArgumentStrings, Except.ok.injEq] at h
    subst h
    simp
  | cons p rest =>
    simp only [Expr.listColonFree, Bool.and_eq_true] at hcf
    simp only [transpileArgumentStrings, bind_eq_ok] at h
    obtain ⟨s0, hs0, h⟩ := h
    obtain ⟨ss0, hss0, h⟩ := h
    simp only [Pure.pure, Except.pure, Except.ok.injEq] at h
    subst h
    intro x hx
    rcases List.mem_cons.mp hx with hx | hx
    · rw [hx]
      exact transpileExpression_noColon p false s0 hcf.1 hs0
    · exact transpileArgumentStrings_noColon rest ss0 hcf.2 hss0 x hx
termination_by (sizeOf l, 0)
end

/-! ### Statement-level auxiliary lemmas -/

theorem transpileImport_noColon (m : Expr) (b : ImportClause) (s : String)
    (hm : m.colonFree = true) (h : transpileImport m b = .ok s) :
    strNoChar ':' s = true := by
  simp only [transpileImport, bind_eq_ok] at h
  obtain ⟨name, hname, h⟩ := h
  have hnc := transpileExpression_noColon m false name hm hname
  split at h
  · simp only [Except.ok.injEq] at h
    subst h
    simp only [strNoChar_append, Bool.and_eq_true]
    exact ⟨⟨by decide, hnc⟩, by decide⟩
  · split at h
    · simp at h
    · simp only [Except.ok.injEq] at h
      subst h
      simp only [strNoChar_append, Bool.and_eq_true]
      exact ⟨⟨by decide, hnc⟩, by decide⟩

theorem transpileEnumMembers_noColon (st : St) (enumName : String) (mo : Bool)
    (hind : strNoChar ':' st.indent = true) (hen : strNoChar ':' enumName = true) :
    ∀ (ms : List EnumMember) (v : Int) (s : String),
      ms.all (fun m => strNoChar ':' m.name) = true →
      transpileEnumMembers st enumName mo v ms = .ok s →
      strNoChar ':' s = true := by
  intro ms
  induction ms with
  | nil =>
    intro v s _ h
    simp only [transpileEnumMembers, Except.ok.injEq] at h
    subst h
    decide
  | cons m rest ih =>
    intro v s hcf h
    simp only [List.all_cons, Bool.and_eq_true] at hcf
    have hm0 : strNoChar ':' m.name = true := by simpa using hcf.1
    simp only [transpileEnumMembers] at h
    cases hi : m.initializer with
    | none =>
      rw [hi] at h
      simp only [ok_bind, Pure.pure, Except.pure, bind_eq_ok] at h
      obtain ⟨restOut, hrest, h⟩ := h
      simp only [Except.ok.injEq] at h
      subst h
      have hro := ih (v + 1) restOut hcf.2 hrest
      simp only [strNoChar_append, Bool.and_eq_true]
      refine ⟨?_, hro⟩
      split <;>
        simp [strNoChar_append, hind, hen, hm0, strNoChar_intStr] <;>
        decide
    | some e =>
      rw [hi] at h
      cases e
      case numericLit text tyx =>
        simp only [ok_bind, Pure.pure, Except.pure, bind_eq_ok] at h
        obtain ⟨restOut, hrest, h⟩ := h
        simp only [Except.ok.injEq] at h
        subst h
        have hro := ih (parseIntJS text + 1) restOut hcf.2 hrest
        simp only [strNoChar_append, Bool.and_eq_true]
        refine ⟨?_, hro⟩
        split <;>
          simp [strNoChar_append, hind, hen, hm0, strNoChar_intStr] <;>
          decide
      all_goals simp [error_bind] at h

theorem transpileEnum_noColon (st : St) (name : String) (members : List EnumMember) (ty : Ty)
    (s : String) (hind : strNoChar ':' st.indent = true) (hname : strNoChar ':' name = true)
    (hmem : members.all (fun m => strNoChar ':' m.name) = true)
    (h : transpileEnum st name members ty = .ok s) : strNoChar ':' s = true := by
  simp only [transpileEnum, bind_eq_ok] at h
  obtain ⟨body, hbody, h⟩ := h
  simp only [Pure.pure, Except.pure, Except.ok.injEq] at h
  subst h
  have hb := transpileEnumMembers_noColon st name
    (TSHelper.isCompileMembersOnlyEnum ty) hind hname members 0 body hmem hbody
  simp only [strNoChar_append, Bool.and_eq_true]
  refine ⟨?_, hb⟩
  split
  · simp only [strNoChar_append, Bool.and_eq_true]
    exact ⟨⟨hind, hname⟩, by decide⟩
  · decide

theorem transpileBindingElements_noColon (indent parentName : String)
    (hi : strNoChar ':' indent = true) (hp : strNoChar ':' parentName = true) :
    ∀ (elems : List BindingElem) (idx : Nat),
      elems.all (fun e => strNoChar ':' e.name) = true →
      strNoChar ':' (transpileBindingElements indent parentName idx elems) = true := by
  intro elems
  induction elems with
  | nil =>
    intro idx _
    simp only [transpileBindingElements]
    decide
  | cons e rest ih =>
    intro idx hcf
    simp only [List.all_cons, Bool.and_eq_true] at hcf
    have he : strNoChar ':' e.name = true := by simpa using hcf.1
    rw [transpileBindingElements]
    simp only [strNoChar_append, Bool.and_eq_true]
    refine ⟨?_, ih (idx + 1) hcf.2⟩
    split <;>
      simp [strNoChar_append, hi, hp, he, strNoChar_natStr] <;>
      decide

theorem transpileVariableDeclaration_effects (st : St) (d : VarDecl) (o : String) (st' : St)
    (h : transpileVariableDeclaration st d = .ok (o, st')) :
    st'.indent = st.indent ∧ st'.transpilingSwitch = st.transpilingSwitch ∧
    st.genVarCounter ≤ st'.genVarCounter ∧
    (VarDecl.colonFree d = true → strNoChar ':' st.indent = true → strNoChar ':' o = true) ∧
    (VarDecl.noDestructuring d = true → st' = st) := by
  cases d with
  | identDecl name init =>
    cases init with
    | some e =>
      simp only [transpileVariableDeclaration, bind_eq_ok] at h
      obtain ⟨value, hval, h⟩ := h
      simp only [Pure.pure, Except.pure, Except.ok.injEq, Prod.mk.injEq] at h
      obtain ⟨ho, hst⟩ := h
      subst ho
      subst hst
      refine ⟨rfl, rfl, le_refl _, ?_, fun _ => rfl⟩
      intro hcf _
      simp only [VarDecl.colonFree, Expr.optColonFree, Bool.and_eq_true] at hcf
      have hv := transpileExpression_noColon e false value hcf.2 hval
      simp [strNoChar_append, hv, hcf.1] <;> decide
    | none =>
      simp only [transpileVariableDeclaration, Except.ok.injEq, Prod.mk.injEq] at h
      obtain ⟨ho, hst⟩ := h
      subst ho
      subst hst
      refine ⟨rfl, rfl, le_refl _, ?_, fun _ => rfl⟩
      intro hcf _
      simp only [VarDecl.colonFree, Expr.optColonFree, Bool.and_eq_true] at hcf
      simp [strNoChar_append, hcf.1] <;> decide
  | arrayPattern elems init =>
    cases init with
    | some e =>
      simp only [transpileVariableDeclaration, transpileExpressionOpt, bind_eq_ok] at h
      obtain ⟨value, hval, h⟩ := h
      simp only [Pure.pure, Except.pure, Except.ok.injEq, Prod.mk.injEq] at h
      obtain ⟨ho, hst⟩ := h
      subst ho
      subst hst
      refine ⟨rfl, rfl, by simp, ?_, by simp [VarDecl.noDestructuring]⟩
      intro hcf hind
      simp only [VarDecl.colonFree, Expr.optColonFree, Bool.and_eq_true] at hcf
      have hv := transpileExpression_noColon e false value hcf.2 hval
      have hpn : strNoChar ':' ("__destr" ++ natStr st.genVarCounter) = true := by
        simp only [strNoChar_append, Bool.and_eq_true]
        exact ⟨by decide, strNoChar_natStr _⟩
      have hbe := transpileBindingElements_noColon st.indent
        ("__destr" ++ natStr st.genVarCounter) hind hpn elems 0 hcf.1
      simp [strNoChar_append, hv, hpn, hbe] <;> decide
    | none =>
      simp [transpileVariableDeclaration, transpileExpressionOpt, error_bind] at h

theorem transpileVariableStatement_effects :
    ∀ (decls : List VarDecl) (st : St) (o : String) (st' : St),
      transpileVariableStatement st decls = .ok (o, st') →
      st'.indent = st.indent ∧ st'.transpilingSwitch = st.transpilingSwitch ∧
      st.genVarCounter ≤ st'.genVarCounter ∧
      (decls.all VarDecl.colonFree = true → strNoChar ':' st.indent = true →
        strNoChar ':' o = true) ∧
      (decls.all VarDecl.noDestructuring = true → st' = st) := by
  intro decls
  induction decls with
  | nil =>
    intro st o st' h
    simp only [transpileVariableStatement, Except.ok.injEq, Prod.mk.injEq] at h
    obtain ⟨ho, hst⟩ := h
    subst ho
    subst hst
    exact ⟨rfl, rfl, le_refl _, fun _ _ => by decide, fun _ => rfl⟩
  | cons d rest ih =>
    intro st o st' h
    simp only [transpileVariableStatement, bind_eq_ok] at h
    obtain ⟨⟨o1, st1⟩, h1, h⟩ := h
    obtain ⟨⟨o2, st2⟩, h2, h⟩ := h
    simp only [Pure.pure, Except.pure, Except.ok.injEq, Prod.mk.injEq] at h
    obtain ⟨ho, hst⟩ := h
    subst ho
    subst hst
    obtain ⟨e1i, e1f, e1g, e1c, e1s⟩ := transpileVariableDeclaration_effects st d o1 st1 h1
    obtain ⟨e2i, e2f, e2g, e2c, e2s⟩ := ih st1 o2 st2 h2
    refine ⟨by rw [e2i, e1i], by rw [e2f, e1f], le_trans e1g e2g, ?_, ?_⟩
    · intro hcf hind
      simp only [List.all_cons, Bool.and_eq_true] at hcf
      simp only [strNoChar_append, Bool.and_eq_true]
      exact ⟨e1c hcf.1 hind, e2c hcf.2 (by rw [e1i]; exact hind)⟩
    · intro hsf
      simp only [List.all_cons, Bool.and_eq_true] at hsf
      have := e1s hsf.1
      subst this
      exact e2s hsf.2

theorem popIndent_pushIndent (st : St) (h : allSpaces st.indent = true) :
    popIndent (pushIndent st) = st := by
  cases st with
  | mk ind gen fl =>
    simp only [popIndent, pushIndent, St.mk.injEq]
    exact ⟨drop4_spaces h, trivial, trivial⟩

theorem popIndent_after_push {st st2 : St} (hi : st2.indent = (pushIndent st).indent)
    (hsp : allSpaces st.indent = true) : (popIndent st2).indent = st.indent := by
  show (⟨st2.indent.data.drop 4⟩ : String) = st.indent
  rw [hi]
  exact drop4_spaces hsp

mutual
theorem noSwitch_node (s : Stmt) : ∀ (st : St) (out : String) (st' : St),
    Stmt.noSwitch s = true → allSpaces st.indent = true →
    transpileNode st s = .ok (out, st') →
    st'.indent = st.indent ∧ st'.transpilingSwitch = st.transpilingSwitch ∧
    st.genVarCounter ≤ st'.genVarCounter ∧
    (Stmt.stateFree s = true → st' = st) ∧
    (Stmt.colonFree s = true → strNoChar ':' out = true) := by
  intro st out st' hns hsp h
  cases s with
  | importDecl m b =>
    simp only [transpileNode, bind_eq_ok] at h
    obtain ⟨o, ho, h⟩ := h
    simp only [Pure.pure, Except.pure, Except.ok.injEq, Prod.mk.injEq] at h
    obtain ⟨rfl, rfl⟩ := h
    refine ⟨rfl, rfl, le_refl _, fun _ => rfl, ?_⟩
    intro hcf
    unfold Stmt.colonFree at hcf; simp only [Bool.and_eq_true] at hcf
    exact transpileImport_noColon m b o hcf.1 ho
  | enumDecl name members ty =>
    simp only [transpileNode, bind_eq_ok] at h
    obtain ⟨o, ho, h⟩ := h
    simp only [Pure.pure, Except.pure, Except.ok.injEq, Prod.mk.injEq] at h
    obtain ⟨rfl, rfl⟩ := h
    refine ⟨rfl, rfl, le_refl _, fun _ => rfl, ?_⟩
    intro hcf
    unfold Stmt.colonFree at hcf; simp only [Bool.and_eq_true] at hcf
    exact transpileEnum_noColon st name members ty o (strNoChar_of_allSpaces hsp)
      hcf.1 hcf.2 ho
  | variableStatement decls =>
    simp only [transpileNode, bind_eq_ok] at h
    obtain ⟨⟨o, st1⟩, h1, h⟩ := h
    simp only [Pure.pure, Except.pure, Except.ok.injEq, Prod.mk.injEq] at h
    obtain ⟨rfl, rfl⟩ := h
    obtain ⟨e1, e2, e3, e4, e5⟩ := transpileVariableStatement_effects decls st o st1 h1
    refine ⟨e1, e2, e3, ?_, ?_⟩
    · intro hsf
      unfold Stmt.stateFree at hsf
      exact e5 hsf
    · intro hcf
      unfold Stmt.colonFree at hcf
      simp only [strNoChar_append, Bool.and_eq_true]
      exact ⟨⟨strNoChar_of_allSpaces hsp, e4 hcf (strNoChar_of_allSpaces hsp)⟩, by decide⟩
  | expressionStatement e =>
    simp only [transpileNode, bind_eq_ok] at h
    obtain ⟨o, ho, h⟩ := h
    simp only [Pure.pure, Except.pure, Except.ok.injEq, Prod.mk.injEq] at h
    obtain ⟨rfl, rfl⟩ := h
    refine ⟨rfl, rfl, le_refl _, fun _ => rfl, ?_⟩
    intro hcf
    unfold Stmt.colonFree at hcf
    have hv := transpileExpression_noColon e false o hcf ho
    simp only [strNoChar_append, Bool.and_eq_true]
    exact ⟨⟨strNoChar_of_allSpaces hsp, hv⟩, by decide⟩
  | returnStmt e =>
    cases e with
    | none =>
      simp [transpileNode, transpileReturn, transpileExpressionOpt, error_bind] at h
    | some ex =>
      simp only [transpileNode, transpileReturn, transpileExpressionOpt, bind_eq_ok] at h
      obtain ⟨o, ⟨v, hv, ho⟩, h⟩ := h
      simp only [Pure.pure, Except.pure, Except.ok.injEq] at ho
      subst ho
      simp only [Pure.pure, Except.pure, Except.ok.injEq, Prod.mk.injEq] at h
      obtain ⟨rfl, rfl⟩ := h
      refine ⟨rfl, rfl, le_refl _, fun _ => rfl, ?_⟩
      intro hcf
      unfold Stmt.colonFree at hcf; simp only [Expr.optColonFree] at hcf
      have hvc := transpileExpression_noColon ex false v hcf hv
      simp only [strNoChar_append, Bool.and_eq_true]
      exact ⟨⟨strNoChar_of_allSpaces hsp, by decide, hvc⟩, by decide⟩
  | ifStmt cond t e =>
    cases e with
    | none =>
      simp only [transpileNode, bind_eq_ok] at h
      obtain ⟨condition, hcond, h⟩ := h
      obtain ⟨⟨thenOut, st2⟩, hthen, h⟩ := h
      simp only [Pure.pure, Except.pure, Except.ok.injEq, Prod.mk.injEq] at h
      obtain ⟨rfl, rfl⟩ := h
      unfold Stmt.noSwitch at hns; simp only [Bool.and_true] at hns
      have hsp1 : allSpaces (pushIndent st).indent = true := allSpaces_push st hsp
      obtain ⟨i2, f2, g2, s2, c2⟩ := noSwitch_sb t (pushIndent st) thenOut st2 hns hsp1 hthen
      have hi3 : (popIndent st2).indent = st.indent := popIndent_after_push i2 hsp
      have f2' : st2.transpilingSwitch = st.transpilingSwitch := f2
      have g2' : st.genVarCounter ≤ st2.genVarCounter := g2
      refine ⟨hi3, f2', g2', ?_, ?_⟩
      · intro hsf
        unfold Stmt.stateFree at hsf; simp only [Bool.and_true] at hsf
        rw [s2 hsf]
        exact popIndent_pushIndent st hsp
      · intro hcf
        unfold Stmt.colonFree at hcf; simp only [Bool.and_true, Bool.and_eq_true] at hcf
        have hc := transpileExpression_noColon cond false condition hcf.1 hcond
        have ht := c2 hcf.2
        simp [strNoChar_append, hi3, strNoChar_of_allSpaces hsp, hc, ht] <;> decide
    | some els =>
      simp only [transpileNode, bind_eq_ok] at h
      obtain ⟨condition, hcond, h⟩ := h
      obtain ⟨⟨thenOut, st2⟩, hthen, h⟩ := h
      obtain ⟨⟨elseOut, st5⟩, helse, h⟩ := h
      simp only [Pure.pure, Except.pure, Except.ok.injEq, Prod.mk.injEq] at h
      obtain ⟨rfl, rfl⟩ := h
      unfold Stmt.noSwitch at hns; simp only [Bool.and_eq_true] at hns
      have hsp1 : allSpaces (pushIndent st).indent = true := allSpaces_push st hsp
      obtain ⟨i2, f2, g2, s2, c2⟩ :=
        noSwitch_sb t (pushIndent st) thenOut st2 hns.1 hsp1 hthen
      have hi3 : (popIndent st2).indent = st.indent := popIndent_after_push i2 hsp
      have hsp3 : allSpaces (popIndent st2).indent = true := by rw [hi3]; exact hsp
      have hsp4 : allSpaces (pushIndent (popIndent st2)).indent = true :=
        allSpaces_push _ hsp3
      obtain ⟨i5, f5, g5, s5, c5⟩ :=
        noSwitch_sb els (pushIndent (popIndent st2)) elseOut st5 hns.2 hsp4 helse
      have hi6 : (popIndent st5).indent = (popIndent st2).indent :=
        popIndent_after_push i5 hsp3
      have f5' : st5.transpilingSwitch = st2.transpilingSwitch := f5
      have f2' : st2.transpilingSwitch = st.transpilingSwitch := f2
      have g2' : st.genVarCounter ≤ st2.genVarCounter := g2
      have g5' : st2.genVarCounter ≤ st5.genVarCounter := g5
      refine ⟨hi6.trans hi3, f5'.trans f2', le_trans g2' g5', ?_, ?_⟩
      · intro hsf
        unfold Stmt.stateFree at hsf; simp only [Bool.and_eq_true] at hsf
        have e2 : st2 = pushIndent st := s2 hsf.1
        have e5 : st5 = pushIndent (popIndent st2) := s5 hsf.2
        show popIndent st5 = st
        rw [e5, e2, popIndent_pushIndent st hsp]
        exact popIndent_pushIndent st hsp
      · intro hcf
        unfold Stmt.colonFree at hcf; simp only [Bool.and_eq_true] at hcf
        have hc := transpileExpression_noColon cond false condition hcf.1.1 hcond
        have ht := c2 hcf.1.2
        have he := c5 hcf.2
        simp [strNoChar_append, hi3, hi6, strNoChar_of_allSpaces hsp, hc, ht, he] <;> decide
  | whileStmt cond b =>
    simp only [transpileNode, bind_eq_ok] at h
    obtain ⟨condition, hcond, h⟩ := h
    obtain ⟨⟨bodyOut, st2⟩, hbody, h⟩ := h
    simp only [Pure.pure, Except.pure, Except.ok.injEq, Prod.mk.injEq] at h
    obtain ⟨rfl, rfl⟩ := h
    unfold Stmt.noSwitch at hns
    have hsp1 : allSpaces (pushIndent st).indent = true := allSpaces_push st hsp
    obtain ⟨i2, f2, g2, s2, c2⟩ := noSwitch_sb b (pushIndent st) bodyOut st2 hns hsp1 hbody
    have hi3 : (popIndent st2).indent = st.indent := popIndent_after_push i2 hsp
    have f2' : st2.transpilingSwitch = st.transpilingSwitch := f2
    have g2' : st.genVarCounter ≤ st2.genVarCounter := g2
    refine ⟨hi3, f2', g2', ?_, ?_⟩
    · intro hsf
      unfold Stmt.stateFree at hsf
      rw [s2 hsf]
      exact popIndent_pushIndent st hsp
    · intro hcf
      unfold Stmt.colonFree at hcf; simp only [Bool.and_eq_true] at hcf
      have hc := transpileExpression_noColon cond false condition hcf.1 hcond
      have hb := c2 hcf.2
      simp [strNoChar_append, hi3, strNoChar_of_allSpaces hsp, hc, hb] <;> decide
  | switchStmt scrut clauses =>
    unfold Stmt.noSwitch at hns; simp at hns
  | breakStmt =>
    simp only [transpileNode, Except.ok.injEq, Prod.mk.injEq] at h
    obtain ⟨rfl, rfl⟩ := h
    refine ⟨rfl, rfl, le_refl _, fun _ => rfl, ?_⟩
    intro _
    simp only [transpileBreak]
    split <;>
      simp [strNoChar_append, strNoChar_of_allSpaces hsp, strNoChar_natStr] <;>
      decide
  | continueStmt =>
    simp [transpileNode] at h
  | funcDecl name params body =>
    simp only [transpileNode, bind_eq_ok] at h
    obtain ⟨⟨bodyOut, st2⟩, hbody, h⟩ := h
    simp only [Pure.pure, Except.pure, Except.ok.injEq, Prod.mk.injEq] at h
    obtain ⟨rfl, rfl⟩ := h
    unfold Stmt.noSwitch at hns
    have hsp1 : allSpaces (pushIndent st).indent = true := allSpaces_push st hsp
    obtain ⟨i2, f2, g2, s2, c2⟩ := noSwitch_seq body (pushIndent st) bodyOut st2 hns hsp1 hbody
    have hi3 : (popIndent st2).indent = st.indent := popIndent_after_push i2 hsp
    have f2' : st2.transpilingSwitch = st.transpilingSwitch := f2
    have g2' : st.genVarCounter ≤ st2.genVarCounter := g2
    refine ⟨hi3, f2', g2', ?_, ?_⟩
    · intro hsf
      unfold Stmt.stateFree at hsf
      rw [s2 hsf]
      exact popIndent_pushIndent st hsp
    · intro hcf
      unfold Stmt.colonFree at hcf; simp only [Bool.and_eq_true] at hcf
      have hb := c2 hcf.2
      have hp : strNoChar ':' (joinComma params) = true := by
        refine strNoChar_joinComma ':' (by decide) params ?_
        intro x hx
        have := hcf.1.2
        simp only [List.all_eq_true] at this
        exact this x hx
      simp [strNoChar_append, hi3, strNoChar_of_allSpaces hsp, hcf.1.1, hb, hp] <;> decide
termination_by sizeOf s

theorem noSwitch_seq (l : List Stmt) : ∀ (st : St) (out : String) (st' : St),
    Stmt.listNoSwitch l = true → allSpaces st.indent = true →
    transpileStmtSeq st l = .ok (out, st') →
    st'.indent = st.indent ∧ st'.transpilingSwitch = st.transpilingSwitch ∧
    st.genVarCounter ≤ st'.genVarCounter ∧
    (Stmt.listStateFree l = true → st' = st) ∧
    (Stmt.listColonFree l = true → strNoChar ':' out = true) := by
  intro st out st' hns hsp h
  cases l with
  | nil =>
    simp only [transpileStmtSeq, Except.ok.injEq, Prod.mk.injEq] at h
    obtain ⟨rfl, rfl⟩ := h
    exact ⟨rfl, rfl, le_refl _, fun _ => rfl, fun _ => by decide⟩
  | cons s rest =>
    simp only [transpileStmtSeq, bind_eq_ok] at h
    obtain ⟨⟨o1, st1⟩, h1, h⟩ := h
    obtain ⟨⟨o2, st2⟩, h2, h⟩ := h
    simp only [Pure.pure, Except.pure, Except.ok.injEq, Prod.mk.injEq] at h
    obtain ⟨rfl, rfl⟩ := h
    unfold Stmt.listNoSwitch at hns; simp only [Bool.and_eq_true] at hns
    obtain ⟨i1, f1, g1, s1, c1⟩ := noSwitch_node s st o1 st1 hns.1 hsp h1
    have hsp1 : allSpaces st1.indent = true := by rw [i1]; exact hsp
    obtain ⟨i2, f2, g2, s2, c2⟩ := noSwitch_seq rest st1 o2 st2 hns.2 hsp1 h2
    refine ⟨i2.trans i1, f2.trans f1, le_trans g1 g2, ?_, ?_⟩
    · intro hsf
      unfold Stmt.listStateFree at hsf; simp only [Bool.and_eq_true] at hsf
      have e1 : st1 = st := s1 hsf.1
      rw [← e1]
      exact s2 hsf.2
    · intro hcf
      unfold Stmt.listColonFree at hcf; simp only [Bool.and_eq_true] at hcf
      simp only [strNoChar_append, Bool.and_eq_true]
      exact ⟨c1 hcf.1, c2 hcf.2⟩
termination_by sizeOf l

theorem noSwitch_sb (sb : SB) : ∀ (st : St) (out : String) (st' : St),
    SB.noSwitch sb = true → allSpaces st.indent = true →
    transpileStatement st sb = .ok (out, st') →
    st'.indent = st.indent ∧ st'.transpilingSwitch = st.transpilingSwitch ∧
    st.genVarCounter ≤ st'.genVarCounter ∧
    (SB.stateFree sb = true → st' = st) ∧
    (SB.colonFree sb = true → strNoChar ':' out = true) := by
  intro st out st' hns hsp h
  cases sb with
  | block stmts =>
    simp only [transpileStatement] at h
    unfold SB.noSwitch at hns
    obtain ⟨i1, f1, g1, s1, c1⟩ := noSwitch_seq stmts st out st' hns hsp h
    refine ⟨i1, f1, g1, ?_, ?_⟩
    · intro hsf
      unfold SB.stateFree at hsf
      exact s1 hsf
    · intro hcf
      unfold SB.colonFree at hcf
      exact c1 hcf
  | single s =>
    simp only [transpileStatement] at h
    unfold SB.noSwitch at hns
    obtain ⟨i1, f1, g1, s1, c1⟩ := noSwitch_node s st out st' hns hsp h
    refine ⟨i1, f1, g1, ?_, ?_⟩
    · intro hsf
      unfold SB.stateFree at hsf
      exact s1 hsf
    · intro hcf
      unfold SB.colonFree at hcf
      exact c1 hcf
termination_by sizeOf sb
end

theorem str_ext {a b : String} (h : a.data = b.data) : a = b := by
  cases a with
  | mk d1 =>
    cases b with
    | mk d2 =>
      simp only [] at h
      exact congrArg String.mk h

mutual
theorem stateFree_noSwitch (s : Stmt) : Stmt.stateFree s = true → Stmt.noSwitch s = true := by
  intro h
  cases s with
  | ifStmt cond t e =>
    unfold Stmt.stateFree at h
    unfold Stmt.noSwitch
    cases e with
    | none =>
      simp only [Bool.and_true] at h ⊢
      exact stateFree_noSwitch_sb t h
    | some b =>
      simp only [Bool.and_eq_true] at h ⊢
      exact ⟨stateFree_noSwitch_sb t h.1, stateFree_noSwitch_sb b h.2⟩
  | whileStmt cond b =>
    unfold Stmt.stateFree at h
    unfold Stmt.noSwitch
    exact stateFree_noSwitch_sb b h
  | funcDecl name params body =>
    unfold Stmt.stateFree at h
    unfold Stmt.noSwitch
    exact stateFree_noSwitch_list body h
  | switchStmt scrut clauses =>
    unfold Stmt.stateFree at h
    exact absurd h (by decide)
  | importDecl m b => unfold Stmt.noSwitch; rfl
  | enumDecl n members ty => unfold Stmt.noSwitch; rfl
  | variableStatement decls => unfold Stmt.noSwitch; rfl
  | expressionStatement e => unfold Stmt.noSwitch; rfl
  | returnStmt e => unfold Stmt.noSwitch; rfl
  | breakStmt => unfold Stmt.noSwitch; rfl
  | continueStmt => unfold Stmt.noSwitch; rfl
termination_by sizeOf s

theorem stateFree_noSwitch_sb (sb : SB) : SB.stateFree sb = true → SB.noSwitch sb = true := by
  intro h
  cases sb with
  | block stmts =>
    unfold SB.stateFree at h
    unfold SB.noSwitch
    exact stateFree_noSwitch_list stmts h
  | single s =>
    unfold SB.stateFree at h
    unfold SB.noSwitch
    exact stateFree_noSwitch s h
termination_by sizeOf sb

theorem stateFree_noSwitch_list (l : List Stmt) :
    Stmt.listStateFree l = true → Stmt.listNoSwitch l = true := by
  intro h
  cases l with
  | nil => unfold Stmt.listNoSwitch; rfl
  | cons s rest =>
    unfold Stmt.listStateFree at h
    unfold Stmt.listNoSwitch
    simp only [Bool.and_eq_true] at h ⊢
    exact ⟨stateFree_noSwitch s h.1, stateFree_noSwitch_list rest h.2⟩
termination_by sizeOf l
end

theorem listStateFree_cons (s : Stmt) (l : List Stmt) :
    Stmt.listStateFree (s :: l) = (Stmt.stateFree s && Stmt.listStateFree l) := by
  rw [Stmt.listStateFree.eq_def]

theorem listStateFree_append : ∀ (l1 l2 : List Stmt),
    Stmt.listStateFree (l1 ++ l2) = (Stmt.listStateFree l1 && Stmt.listStateFree l2) := by
  intro l1
  induction l1 with
  | nil =>
    intro l2
    rw [List.nil_append]
    have h0 : Stmt.listStateFree [] = true := by unfold Stmt.listStateFree; rfl
    rw [h0, Bool.true_and]
  | cons s l1' ih =>
    intro l2
    rw [List.cons_append, listStateFree_cons, listStateFree_cons, ih, Bool.and_assoc]

theorem transpileStmtSeq_append (l1 : List Stmt) : ∀ (l2 : List Stmt) (st : St) (o : String)
    (st' : St), transpileStmtSeq st (l1 ++ l2) = .ok (o, st') →
    ∃ (o1 : String) (st1 : St) (o2 : String), transpileStmtSeq st l1 = .ok (o1, st1) ∧
      transpileStmtSeq st1 l2 = .ok (o2, st') ∧ o = o1 ++ o2 := by
  induction l1 with
  | nil =>
    intro l2 st o st' h
    rw [List.nil_append] at h
    refine ⟨"", st, o, by simp [transpileStmtSeq], h, ?_⟩
    apply str_ext
    simp
  | cons s l1' ih =>
    intro l2 st o st' h
    rw [List.cons_append] at h
    simp only [transpileStmtSeq, bind_eq_ok] at h
    obtain ⟨⟨oh, sth⟩, hh, h⟩ := h
    obtain ⟨⟨ot, stt⟩, ht, h⟩ := h
    simp only [Pure.pure, Except.pure, Except.ok.injEq, Prod.mk.injEq] at h
    obtain ⟨rfl, rfl⟩ := h
    obtain ⟨oa, sta, ob, ha, hb, hsplit⟩ := ih l2 sth ot stt ht
    refine ⟨oh ++ oa, sta, ob, ?_, hb, ?_⟩
    · simp only [transpileStmtSeq, bind_eq_ok]
      exact ⟨(oh, sth), hh, (oa, sta), ha, rfl⟩
    · rw [hsplit]
      apply str_ext
      simp [String.data_append, List.append_assoc]

theorem strcat_mid (h1 l1 b1 f1 r1 o1x o3x brk : String) (hb1 : b1 = o1x ++ (brk ++ o3x)) :
    ∃ a b : String, h1 ++ l1 ++ b1 ++ f1 ++ r1 = a ++ brk ++ b := by
  refine ⟨h1 ++ l1 ++ o1x, o3x ++ f1 ++ r1, ?_⟩
  rw [hb1]
  apply str_ext
  simp [String.data_append, List.append_assoc]

theorem strcat_lift (p r ax brk bx : String) (hr : r = ax ++ brk ++ bx) :
    ∃ a b : String, p ++ r = a ++ brk ++ b := by
  refine ⟨p ++ ax, bx, ?_⟩
  rw [hr]
  apply str_ext
  simp [String.data_append, List.append_assoc]

mutual
theorem break_emits_node (s : Stmt) : ∀ (st : St) (out : String) (st' : St),
    Stmt.stateFree s = true → allSpaces st.indent = true →
    st.transpilingSwitch = true →
    transpileNode st s = .ok (out, st') →
    Stmt.hasBreak s = true →
    ∃ a b : String,
      out = a ++ ("goto switchDone" ++ natStr st.genVarCounter ++ "\n") ++ b := by
  intro st out st' hsf hsp hfl h hhb
  cases s with
  | importDecl m b => unfold Stmt.hasBreak at hhb; simp at hhb
  | enumDecl name members ty => unfold Stmt.hasBreak at hhb; simp at hhb
  | variableStatement decls => unfold Stmt.hasBreak at hhb; simp at hhb
  | expressionStatement e => unfold Stmt.hasBreak at hhb; simp at hhb
  | returnStmt e => unfold Stmt.hasBreak at hhb; simp at hhb
  | continueStmt => unfold Stmt.hasBreak at hhb; simp at hhb
  | switchStmt scrut clauses => unfold Stmt.hasBreak at hhb; simp at hhb
  | breakStmt =>
    simp only [transpileNode, Except.ok.injEq, Prod.mk.injEq] at h
    obtain ⟨rfl, rfl⟩ := h
    refine ⟨st.indent, "", ?_⟩
    rw [transpileBreak, if_pos hfl]
    apply str_ext
    simp [String.data_append, List.append_assoc]
  | ifStmt cond t e =>
    unfold Stmt.stateFree at hsf
    unfold Stmt.hasBreak at hhb
    cases e with
    | none =>
      simp only [Bool.and_true] at hsf
      simp only [Bool.or_false] at hhb
      simp only [transpileNode, bind_eq_ok] at h
      obtain ⟨condition, hcond, h⟩ := h
      obtain ⟨⟨thenOut, st2⟩, hthen, h⟩ := h
      simp only [Pure.pure, Except.pure, Except.ok.injEq, Prod.mk.injEq] at h
      obtain ⟨rfl, rfl⟩ := h
      have hsp1 : allSpaces (pushIndent st).indent = true := allSpaces_push st hsp
      have hfl1 : (pushIndent st).transpilingSwitch = true := hfl
      obtain ⟨a, b, hre⟩ := break_emits_sb t (pushIndent st) thenOut st2 hsf hsp1 hfl1 hthen hhb
      have hre' : thenOut = a ++ ("goto switchDone" ++ natStr st.genVarCounter ++ "\n") ++ b :=
        hre
      refine ⟨st.indent ++ "if " ++ condition ++ " then\n" ++ a,
        b ++ ((popIndent st2).indent ++ "end\n"), ?_⟩
      rw [hre']
      apply str_ext
      simp [String.data_append, List.append_assoc]
    | some els =>
      simp only [Bool.and_eq_true] at hsf
      simp only [Bool.or_eq_true] at hhb
      simp only [transpileNode, bind_eq_ok] at h
      obtain ⟨condition, hcond, h⟩ := h
      obtain ⟨⟨thenOut, st2⟩, hthen, h⟩ := h
      obtain ⟨⟨elseOut, st5⟩, helse, h⟩ := h
      simp only [Pure.pure, Except.pure, Except.ok.injEq, Prod.mk.injEq] at h
      obtain ⟨rfl, rfl⟩ := h
      have hsp1 : allSpaces (pushIndent st).indent = true := allSpaces_push st hsp
      have hfl1 : (pushIndent st).transpilingSwitch = true := hfl
      rcases hhb with hhb | hhb
      · obtain ⟨a, b, hre⟩ :=
          break_emits_sb t (pushIndent st) thenOut st2 hsf.1 hsp1 hfl1 hthen hhb
        have hre' : thenOut
            = a ++ ("goto switchDone" ++ natStr st.genVarCounter ++ "\n") ++ b := hre
        refine ⟨st.indent ++ "if " ++ condition ++ " then\n" ++ a,
          b ++ ((popIndent st2).indent ++ "else\n" ++ elseOut
            ++ (popIndent st5).indent ++ "end\n"), ?_⟩
        rw [hre']
        apply str_ext
        simp [String.data_append, List.append_assoc]
      · obtain ⟨_, _, _, s2, _⟩ := noSwitch_sb t (pushIndent st) thenOut st2
          (stateFree_noSwitch_sb t hsf.1) hsp1 hthen
        have e2 : st2 = pushIndent st := s2 hsf.1
        have hstE : pushIndent (popIndent st2) = pushIndent st := by
          rw [e2, popIndent_pushIndent st hsp]
        rw [hstE] at helse
        obtain ⟨a, b, hre⟩ :=
          break_emits_sb els (pushIndent st) elseOut st5 hsf.2 hsp1 hfl1 helse hhb
        have hre' : elseOut
            = a ++ ("goto switchDone" ++ natStr st.genVarCounter ++ "\n") ++ b := hre
        refine ⟨st.indent ++ "if " ++ condition ++ " then\n" ++ thenOut
          ++ (popIndent st2).indent ++ "else\n" ++ a,
          b ++ ((popIndent st5).indent ++ "end\n"), ?_⟩
        rw [hre']
        apply str_ext
        simp [String.data_append, List.append_assoc]
  | whileStmt cond b =>
    unfold Stmt.stateFree at hsf
    unfold Stmt.hasBreak at hhb
    simp only [transpileNode, bind_eq_ok] at h
    obtain ⟨condition, hcond, h⟩ := h
    obtain ⟨⟨bodyOut, st2⟩, hbody, h⟩ := h
    simp only [Pure.pure, Except.pure, Except.ok.injEq, Prod.mk.injEq] at h
    obtain ⟨rfl, rfl⟩ := h
    have hsp1 : allSpaces (pushIndent st).indent = true := allSpaces_push st hsp
    have hfl1 : (pushIndent st).transpilingSwitch = true := hfl
    obtain ⟨a, b2, hre⟩ := break_emits_sb b (pushIndent st) bodyOut st2 hsf hsp1 hfl1 hbody hhb
    have hre' : bodyOut = a ++ ("goto switchDone" ++ natStr st.genVarCounter ++ "\n") ++ b2 :=
      hre
    refine ⟨st.indent ++ "while " ++ condition ++ " do\n" ++ a,
      b2 ++ ((popIndent st2).indent ++ "end\n"), ?_⟩
    rw [hre']
    apply str_ext
    simp [String.data_append, List.append_assoc]
  | funcDecl name params body =>
    unfold Stmt.stateFree at hsf
    unfold Stmt.hasBreak at hhb
    simp only [transpileNode, bind_eq_ok] at h
    obtain ⟨⟨bodyOut, st2⟩, hbody, h⟩ := h
    simp only [Pure.pure, Except.pure, Except.ok.injEq, Prod.mk.injEq] at h
    obtain ⟨rfl, rfl⟩ := h
    have hsp1 : allSpaces (pushIndent st).indent = true := allSpaces_push st hsp
    have hfl1 : (pushIndent st).transpilingSwitch = true := hfl
    obtain ⟨a, b, hre⟩ :=
      break_emits_seq body (pushIndent st) bodyOut st2 hsf hsp1 hfl1 hbody hhb
    have hre' : bodyOut = a ++ ("goto switchDone" ++ natStr st.genVarCounter ++ "\n") ++ b :=
      hre
    refine ⟨st.indent ++ "function " ++ name ++ "(" ++ joinComma params ++ ")\n" ++ a,
      b ++ ((popIndent st2).indent ++ "end\n"), ?_⟩
    rw [hre']
    apply str_ext
    simp [String.data_append, List.append_assoc]
termination_by sizeOf s

theorem break_emits_sb (sb : SB) : ∀ (st : St) (out : String) (st' : St),
    SB.stateFree sb = true → allSpaces st.indent = true →
    st.transpilingSwitch = true →
    transpileStatement st sb = .ok (out, st') →
    SB.hasBreak sb = true →
    ∃ a b : String,
      out = a ++ ("goto switchDone" ++ natStr st.genVarCounter ++ "\n") ++ b := by
  intro st out st' hsf hsp hfl h hhb
  cases sb with
  | block stmts =>
    simp only [transpileStatement] at h
    unfold SB.stateFree at hsf
    unfold SB.hasBreak at hhb
    exact break_emits_seq stmts st out st' hsf hsp hfl h hhb
  | single s =>
    simp only [transpileStatement] at h
    unfold SB.stateFree at hsf
    unfold SB.hasBreak at hhb
    exact break_emits_node s st out st' hsf hsp hfl h hhb
termination_by sizeOf sb

theorem break_emits_seq (l : List Stmt) : ∀ (st : St) (out : String) (st' : St),
    Stmt.listStateFree l = true → allSpaces st.indent = true →
    st.transpilingSwitch = true →
    transpileStmtSeq st l = .ok (out, st') →
    Stmt.listHasBreak l = true →
    ∃ a b : String,
      out = a ++ ("goto switchDone" ++ natStr st.genVarCounter ++ "\n") ++ b := by
  intro st out st' hsf hsp hfl h hhb
  cases l with
  | nil => unfold Stmt.listHasBreak at hhb; simp at hhb
  | cons s rest =>
    unfold Stmt.listStateFree at hsf
    simp only [Bool.and_eq_true] at hsf
    unfold Stmt.listHasBreak at hhb
    simp only [Bool.or_eq_true] at hhb
    simp only [transpileStmtSeq, bind_eq_ok] at h
    obtain ⟨⟨o1, st1⟩, h1, h⟩ := h
    obtain ⟨⟨o2, st2⟩, h2, h⟩ := h
    simp only [Pure.pure, Except.pure, Except.ok.injEq, Prod.mk.injEq] at h
    obtain ⟨rfl, rfl⟩ := h
    rcases hhb with hhb | hhb
    · obtain ⟨a, b, hre⟩ := break_emits_node s st o1 st1 hsf.1 hsp hfl h1 hhb
      refine ⟨a, b ++ o2, ?_⟩
      rw [hre]
      apply str_ext
      simp [String.data_append, List.append_assoc]
    · obtain ⟨_, _, _, s1eq, _⟩ :=
        noSwitch_node s st o1 st1 (stateFree_noSwitch s hsf.1) hsp h1
      have e1 : st1 = st := s1eq hsf.1
      rw [e1] at h2
      obtain ⟨a, b, hre⟩ := break_emits_seq rest st o2 st2 hsf.2 hsp hfl h2 hhb
      refine ⟨o1 ++ a, b, ?_⟩
      rw [hre]
      apply str_ext
      simp [String.data_append, List.append_assoc]
termination_by sizeOf l
end

mutual
theorem switchClauseTail_break (expression : String) (stmts : List Stmt) (rest : List Clause) :
    ∀ (st : St) (index total : Nat) (header o : String) (st1 : St),
      allSpaces st.indent = true →
      Stmt.listStateFree stmts = true →
      rest.all (fun c => Stmt.listStateFree (Clause.statements c)) = true →
      transpileSwitchClauseTail st expression index total header stmts rest = .ok (o, st1) →
      st1.indent = st.indent ∧ st1.genVarCounter = st.genVarCounter ∧
      (Stmt.listHasBreak stmts = true →
        ∃ a b : String,
          o = a ++ ("goto switchDone" ++ natStr st.genVarCounter ++ "\n") ++ b) ∧
      (∀ (i : Nat) (c : Clause),
        rest.get? i = some c → Stmt.listHasBreak (Clause.statements c) = true →
        ∃ a b : String,
          o = a ++ ("goto switchDone" ++ natStr st.genVarCounter ++ "\n") ++ b) := by
  intro st index total header o st1 hsp hsfs hsfr h
  simp only [transpileSwitchClauseTail, bind_eq_ok] at h
  obtain ⟨⟨bodyOut, st3⟩, hbody, h⟩ := h
  obtain ⟨⟨restOut, st6⟩, hrest, h⟩ := h
  simp only [Pure.pure, Except.pure, Except.ok.injEq, Prod.mk.injEq] at h
  obtain ⟨rfl, rfl⟩ := h
  have hns : Stmt.listNoSwitch stmts = true := stateFree_noSwitch_list stmts hsfs
  have hsp2 : allSpaces ({ pushIndent st with transpilingSwitch := true } : St).indent = true :=
    allSpaces_push st hsp
  obtain ⟨i3, f3, g3, s3, c3⟩ := noSwitch_seq stmts _ bodyOut st3 hns hsp2 hbody
  have e3 : st3 = { pushIndent st with transpilingSwitch := true } := s3 hsfs
  rw [e3] at hrest
  have hArgIndent :
      (popIndent { { pushIndent st with transpilingSwitch := true } with
        transpilingSwitch := false }).indent = st.indent := drop4_spaces hsp
  have hArgGen :
      (popIndent { { pushIndent st with transpilingSwitch := true } with
        transpilingSwitch := false }).genVarCounter = st.genVarCounter := rfl
  have hArgSp : allSpaces (popIndent { { pushIndent st with transpilingSwitch := true } with
      transpilingSwitch := false }).indent = true := by
    rw [hArgIndent]; exact hsp
  obtain ⟨i6, g6, hbreak6⟩ :=
    switchClauses_break expression rest _ (index + 1) total restOut st6 hArgSp hsfr hrest
  refine ⟨i6.trans hArgIndent, g6.trans hArgGen, ?_, ?_⟩
  · intro hhb
    have hfl2 : ({ pushIndent st with transpilingSwitch := true } : St).transpilingSwitch
        = true := rfl
    obtain ⟨a, b, hre⟩ := break_emits_seq stmts _ bodyOut st3 hsfs hsp2 hfl2 hbody hhb
    have hre0 : bodyOut = a ++ ("goto switchDone" ++ natStr st.genVarCounter ++ "\n") ++ b :=
      hre
    have hre' : bodyOut
        = a ++ (("goto switchDone" ++ natStr st.genVarCounter ++ "\n") ++ b) := by
      rw [hre0]
      apply str_ext
      simp [String.data_append, List.append_assoc]
    exact strcat_mid _ _ _ _ _ _ _ _ hre'
  · intro i c hget hhb
    obtain ⟨a, b, hre⟩ := hbreak6 i c hget hhb
    rw [hArgGen] at hre
    exact strcat_lift _ _ _ _ _ hre
termination_by sizeOf stmts + sizeOf rest + 1

theorem switchClauses_break (expression : String) (cs : List Clause) :
    ∀ (st : St) (index total : Nat) (o : String) (st1 : St),
      allSpaces st.indent = true →
      cs.all (fun c => Stmt.listStateFree (Clause.statements c)) = true →
      transpileSwitchClauses st expression index total cs = .ok (o, st1) →
      st1.indent = st.indent ∧ st1.genVarCounter = st.genVarCounter ∧
      ∀ (i : Nat) (c : Clause),
        cs.get? i = some c → Stmt.listHasBreak (Clause.statements c) = true →
        ∃ a b : String,
          o = a ++ ("goto switchDone" ++ natStr st.genVarCounter ++ "\n") ++ b := by
  intro st index total o st1 hsp hsf h
  cases cs with
  | nil =>
    simp only [transpileSwitchClauses, Except.ok.injEq, Prod.mk.injEq] at h
    obtain ⟨rfl, rfl⟩ := h
    refine ⟨rfl, rfl, ?_⟩
    intro i c hget _
    simp at hget
  | cons c0 rest =>
    cases c0 with
    | caseClause ce stmts =>
      simp only [transpileSwitchClauses, bind_eq_ok] at h
      obtain ⟨condition, hcond, h⟩ := h
      simp only [List.all_cons, Bool.and_eq_true] at hsf
      have hsfs : Stmt.listStateFree stmts = true := by
        simpa [Clause.statements] using hsf.1
      obtain ⟨i1, g1, hb3, hb4⟩ := switchClauseTail_break expression stmts rest st index total
        _ o st1 hsp hsfs hsf.2 h
      refine ⟨i1, g1, ?_⟩
      intro i c hget hcs
      cases i with
      | zero =>
        simp only [List.get?_cons_zero, Option.some.injEq] at hget
        subst hget
        exact hb3 (by simpa [Clause.statements] using hcs)
      | succ j =>
        simp only [List.get?_cons_succ] at hget
        exact hb4 j c hget hcs
    | defaultClause stmts =>
      simp only [transpileSwitchClauses, bind_eq_ok] at h
      simp only [List.all_cons, Bool.and_eq_true] at hsf
      have hsfs : Stmt.listStateFree stmts = true := by
        simpa [Clause.statements] using hsf.1
      obtain ⟨i1, g1, hb3, hb4⟩ := switchClauseTail_break expression stmts rest st index total
        _ o st1 hsp hsfs hsf.2 h
      refine ⟨i1, g1, ?_⟩
      intro i c hget hcs
      cases i with
      | zero =>
        simp only [List.get?_cons_zero, Option.some.injEq] at hget
        subst hget
        exact hb3 (by simpa [Clause.statements] using hcs)
      | succ j =>
        simp only [List.get?_cons_succ] at hget
        exact hb4 j c hget hcs
termination_by sizeOf cs
end

/-- **C1** (corrected). For a switch statement whose case-clause bodies are
state-free (no nested switch and no array-destructuring declarator — the two
constructs that mutate `transpilingSwitch` / `genVarCounter`), every `break`
lexically inside one of its case clauses — at any nesting depth through
`if`/`while`/function bodies — emits `goto switchDone<N>` where `N` is
`genVarCounter` at the switch's start, and the switch's terminator label is
`::switchDone<N>::` with the same `N`. -/
theorem c1_break_targets_terminator
    (st : St) (scrut : Expr) (clauses : List Clause) (out : String) (st' : St)
    (i : Nat) (c : Clause)
    (hsp : allSpaces st.indent = true)
    (hsf : clauses.all (fun c => Stmt.listStateFree (Clause.statements c)) = true)
    (hget : clauses.get? i = some c)
    (hbrk : Stmt.listHasBreak (Clause.statements c) = true)
    (h : transpileNode st (.switchStmt scrut clauses) = .ok (out, st')) :
    (∃ a b : String,
      out = a ++ ("goto switchDone" ++ natStr st.genVarCounter ++ "\n") ++ b) ∧
    (∃ a : String,
      out = a ++ (st.indent ++ "::switchDone" ++ natStr st.genVarCounter ++ "::\n"
        ++ st.indent ++ "--------Switch statement end--------\n")) := by
  simp only [transpileNode, bind_eq_ok] at h
  obtain ⟨expression, hexp, h⟩ := h
  obtain ⟨⟨clausesOut, st1⟩, hcl, h⟩ := h
  simp only [Pure.pure, Except.pure, Except.ok.injEq, Prod.mk.injEq] at h
  obtain ⟨rfl, rfl⟩ := h
  obtain ⟨i1, g1, hbr⟩ :=
    switchClauses_break expression clauses st 0 clauses.length clausesOut st1 hsp hsf hcl
  constructor
  · obtain ⟨a, b, hre⟩ := hbr i c hget hbrk
    refine ⟨st.indent ++ "-------Switch statement start-------\n" ++ a,
      b ++ (st1.indent ++ "end\n" ++ st1.indent ++ "::switchDone"
        ++ natStr st1.genVarCounter ++ "::\n" ++ st1.indent
        ++ "--------Switch statement end--------\n"), ?_⟩
    rw [hre]
    apply str_ext
    simp [String.data_append, List.append_assoc]
  · rw [i1, g1]
    refine ⟨st.indent ++ "-------Switch statement start-------\n" ++ clausesOut
      ++ st.indent ++ "end\n", ?_⟩
    apply str_ext
    simp [String.data_append, List.append_assoc]

/-- Witness for `c1_break_targets_terminator`: the switch
`switch (x) { case 1: if (true) { f(); break; } }`, whose break is nested
inside an if-block of the clause, transpiled from the initial state. -/
theorem c1_break_targets_terminator_witness :
    (∃ a b : String,
      "-------Switch statement start-------\nif x==1 then\n    ::switchCase0::\n    if true then\n        f()\n        goto switchDone0\n    end\nend\n::switchDone0::\n--------Switch statement end--------\n"
        = a ++ ("goto switchDone" ++ natStr 0 ++ "\n") ++ b) ∧
    (∃ a : String,
      "-------Switch statement start-------\nif x==1 then\n    ::switchCase0::\n    if true then\n        f()\n        goto switchDone0\n    end\nend\n::switchDone0::\n--------Switch statement end--------\n"
        = a ++ ("" ++ "::switchDone" ++ natStr 0 ++ "::\n"
          ++ "" ++ "--------Switch statement end--------\n")) := by
  have h : transpileNode initialState (.switchStmt (.ident "x" tyNone)
      [Clause.caseClause (.numericLit "1" tyNone)
        [.ifStmt (.trueKw tyNone) (.block [callStmt "f", Stmt.breakStmt]) none]])
      = .ok ("-------Switch statement start-------\nif x==1 then\n    ::switchCase0::\n    if true then\n        f()\n        goto switchDone0\n    end\nend\n::switchDone0::\n--------Switch statement end--------\n",
        ⟨"", 1, false⟩) := by
    simp [transpileNode, transpileStmtSeq, transpileStatement, transpileSwitchClauses,
      transpileSwitchClauseTail, transpileBreak, transpileExpression,
      transpileArgumentStrings, joinComma, natStr, natStrAux, digitChar, initialState,
      callStmt, tyNone, pushIndent, popIndent, ok_bind, error_bind, map_ok, map_error]
  exact c1_break_targets_terminator initialState (.ident "x" tyNone)
    [Clause.caseClause (.numericLit "1" tyNone)
      [.ifStmt (.trueKw tyNone) (.block [callStmt "f", Stmt.breakStmt]) none]]
    _ _ 0
    (Clause.caseClause (.numericLit "1" tyNone)
      [.ifStmt (.trueKw tyNone) (.block [callStmt "f", Stmt.breakStmt]) none])
    (by decide)
    (by simp [List.all, Clause.statements, Stmt.listStateFree.eq_def, Stmt.stateFree.eq_def,
      SB.stateFree.eq_def, callStmt])
    rfl
    (by simp [Clause.statements, Stmt.listHasBreak.eq_def, Stmt.hasBreak.eq_def,
      SB.hasBreak.eq_def, callStmt])
    h

theorem colonColonNl_data : "::\n".data = [':', ':', '\n'] := rfl

theorem casePat_ne_nil (n : Nat) : casePat n ≠ [] := by
  rw [casePat_eq]
  simp

theorem donePat_ne_nil (n : Nat) : donePat n ≠ [] := by
  rw [donePat_eq]
  simp

theorem lastSafe_right (a b : String) (hne : b.data ≠ []) (hb : lastSafe b = true) :
    lastSafe (a ++ b) = true := by
  simp only [lastSafe] at hb ⊢
  rw [String.data_append, getLast?_append_right a.data b.data hne]
  exact hb

theorem lastSafe_append (a b : String) (ha : lastSafe a = true) (hb : lastSafe b = true) :
    lastSafe (a ++ b) = true := by
  by_cases hbe : b.data = []
  · have hd : (a ++ b).data = a.data := by simp [String.data_append, hbe]
    simp only [lastSafe] at ha ⊢
    rw [hd]
    exact ha
  · exact lastSafe_right a b hbe hb

theorem lastSafe_nl (x : String) : lastSafe (x ++ "\n") = true := by
  apply lastSafe_right
  · decide
  · decide

theorem lastSafe_rp (x : String) : lastSafe (x ++ ")") = true := by
  apply lastSafe_right
  · decide
  · decide

theorem countSub_split_safe (pat : List Char) (hne : pat ≠ []) (hnl : '\n' ∉ pat)
    (hrp : ')' ∉ pat) (a b : String) (ha : lastSafe a = true) :
    countSub pat (a ++ b).data = countSub pat a.data + countSub pat b.data := by
  rw [String.data_append]
  simp only [lastSafe] at ha
  cases hcb : a.data.getLast? with
  | none =>
    have hade : a.data = [] := by
      cases hd : a.data with
      | nil => rfl
      | cons c rest => rw [hd] at hcb; simp [List.getLast?] at hcb
    rw [hade]
    rw [countSub_nil hne]
    simp
  | some c =>
    rw [hcb] at ha
    simp only [Bool.or_eq_true, beq_iff_eq] at ha
    rcases ha with rfl | rfl
    · exact countSub_append_last '\n' a.data pat b.data hne hnl hcb
    · exact countSub_append_last ')' a.data pat b.data hne hrp hcb

theorem countSub_skip_cf_casePat (n : Nat) (a b : String) (ha : strNoChar ':' a = true) :
    countSub (casePat n) (a ++ b).data = countSub (casePat n) b.data := by
  rw [String.data_append, casePat_eq]
  exact countSub_cons_skip ':' _ a.data b.data (strNoChar_spec ha)

theorem countSub_skip_cf_donePat (n : Nat) (a b : String) (ha : strNoChar ':' a = true) :
    countSub (donePat n) (a ++ b).data = countSub (donePat n) b.data := by
  rw [String.data_append, donePat_eq]
  exact countSub_cons_skip ':' _ a.data b.data (strNoChar_spec ha)

theorem countSub_casePat_zero_cf (n : Nat) (s : String) (hs : strNoChar ':' s = true) :
    countSub (casePat n) s.data = 0 := by
  rw [casePat_eq]
  exact countSub_zero_of_skip ':' _ s.data (strNoChar_spec hs)

theorem countSub_donePat_zero_cf (n : Nat) (s : String) (hs : strNoChar ':' s = true) :
    countSub (donePat n) s.data = 0 := by
  rw [donePat_eq]
  exact countSub_zero_of_skip ':' _ s.data (strNoChar_spec hs)

theorem transpileEnumMembers_lastSafe (st : St) (enumName : String) (mo : Bool) :
    ∀ (ms : List EnumMember) (v : Int) (s : String),
      transpileEnumMembers st enumName mo v ms = .ok s → lastSafe s = true := by
  intro ms
  induction ms with
  | nil =>
    intro v s h
    simp only [transpileEnumMembers, Except.ok.injEq] at h
    subst h
    decide
  | cons m rest ih =>
    intro v s h
    simp only [transpileEnumMembers] at h
    cases hi : m.initializer with
    | none =>
      rw [hi] at h
      simp only [ok_bind, Pure.pure, Except.pure, bind_eq_ok] at h
      obtain ⟨restOut, hrest, h⟩ := h
      simp only [Except.ok.injEq] at h
      subst h
      refine lastSafe_append _ _ ?_ (ih (v + 1) restOut hrest)
      split <;> exact lastSafe_nl _
    | some e =>
      rw [hi] at h
      cases e
      case numericLit text tyx =>
        simp only [ok_bind, Pure.pure, Except.pure, bind_eq_ok] at h
        obtain ⟨restOut, hrest, h⟩ := h
        simp only [Except.ok.injEq] at h
        subst h
        refine lastSafe_append _ _ ?_ (ih (parseIntJS text + 1) restOut hrest)
        split <;> exact lastSafe_nl _
      all_goals simp [error_bind] at h

theorem transpileEnum_lastSafe (st : St) (name : String) (members : List EnumMember) (ty : Ty)
    (s : String) (h : transpileEnum st name members ty = .ok s) : lastSafe s = true := by
  simp only [transpileEnum, bind_eq_ok] at h
  obtain ⟨body, hbody, h⟩ := h
  simp only [Pure.pure, Except.pure, Except.ok.injEq] at h
  subst h
  refine lastSafe_append _ _ ?_ (transpileEnumMembers_lastSafe st name _ members 0 body hbody)
  split
  · exact lastSafe_right _ _ (by decide) (by decide)
  · decide

theorem lastSafe_node (s : Stmt) (st : St) (out : String) (st' : St)
    (h : transpileNode st s = .ok (out, st')) : lastSafe out = true := by
  cases s with
  | importDecl m b =>
    simp only [transpileNode, bind_eq_ok] at h
    obtain ⟨o, ho, h⟩ := h
    simp only [Pure.pure, Except.pure, Except.ok.injEq, Prod.mk.injEq] at h
    obtain ⟨rfl, rfl⟩ := h
    simp only [transpileImport, bind_eq_ok] at ho
    obtain ⟨name, _, ho⟩ := ho
    split at ho
    · simp only [Except.ok.injEq] at ho
      subst ho
      exact lastSafe_rp _
    · split at ho
      · simp at ho
      · simp only [Except.ok.injEq] at ho
        subst ho
        exact lastSafe_rp _
  | enumDecl name members ty =>
    simp only [transpileNode, bind_eq_ok] at h
    obtain ⟨o, ho, h⟩ := h
    simp only [Pure.pure, Except.pure, Except.ok.injEq, Prod.mk.injEq] at h
    obtain ⟨rfl, rfl⟩ := h
    exact transpileEnum_lastSafe st name members ty o ho
  | variableStatement decls =>
    simp only [transpileNode, bind_eq_ok] at h
    obtain ⟨⟨o, st1⟩, _, h⟩ := h
    simp only [Pure.pure, Except.pure, Except.ok.injEq, Prod.mk.injEq] at h
    obtain ⟨rfl, rfl⟩ := h
    exact lastSafe_nl _
  | expressionStatement e =>
    simp only [transpileNode, bind_eq_ok] at h
    obtain ⟨o, _, h⟩ := h
    simp only [Pure.pure, Except.pure, Except.ok.injEq, Prod.mk.injEq] at h
    obtain ⟨rfl, rfl⟩ := h
    exact lastSafe_nl _
  | returnStmt e =>
    simp only [transpileNode, bind_eq_ok] at h
    obtain ⟨o, _, h⟩ := h
    simp only [Pure.pure, Except.pure, Except.ok.injEq, Prod.mk.injEq] at h
    obtain ⟨rfl, rfl⟩ := h
    exact lastSafe_nl _
  | ifStmt cond t e =>
    cases e with
    | none =>
      simp only [transpileNode, bind_eq_ok] at h
      obtain ⟨condition, _, h⟩ := h
      obtain ⟨⟨thenOut, st2⟩, _, h⟩ := h
      simp only [Pure.pure, Except.pure, Except.ok.injEq, Prod.mk.injEq] at h
      obtain ⟨rfl, rfl⟩ := h
      exact lastSafe_right _ _ (by decide) (by decide)
    | some els =>
      simp only [transpileNode, bind_eq_ok] at h
      obtain ⟨condition, _, h⟩ := h
      obtain ⟨⟨thenOut, st2⟩, _, h⟩ := h
      obtain ⟨⟨elseOut, st5⟩, _, h⟩ := h
      simp only [Pure.pure, Except.pure, Except.ok.injEq, Prod.mk.injEq] at h
      obtain ⟨rfl, rfl⟩ := h
      exact lastSafe_right _ _ (by decide) (by decide)
  | whileStmt cond b =>
    simp only [transpileNode, bind_eq_ok] at h
    obtain ⟨condition, _, h⟩ := h
    obtain ⟨⟨bodyOut, st2⟩, _, h⟩ := h
    simp only [Pure.pure, Except.pure, Except.ok.injEq, Prod.mk.injEq] at h
    obtain ⟨rfl, rfl⟩ := h
    exact lastSafe_right _ _ (by decide) (by decide)
  | switchStmt scrut clauses =>
    simp only [transpileNode, bind_eq_ok] at h
    obtain ⟨expression, _, h⟩ := h
    obtain ⟨⟨clausesOut, st1⟩, _, h⟩ := h
    simp only [Pure.pure, Except.pure, Except.ok.injEq, Prod.mk.injEq] at h
    obtain ⟨rfl, rfl⟩ := h
    exact lastSafe_right _ _ (by decide) (by decide)
  | breakStmt =>
    simp only [transpileNode, Except.ok.injEq, Prod.mk.injEq] at h
    obtain ⟨rfl, rfl⟩ := h
    simp only [transpileBreak]
    split
    · exact lastSafe_nl _
    · exact lastSafe_right _ _ (by decide) (by decide)
  | continueStmt =>
    simp [transpileNode] at h
  | funcDecl name params body =>
    simp only [transpileNode, bind_eq_ok] at h
    obtain ⟨⟨bodyOut, st2⟩, _, h⟩ := h
    simp only [Pure.pure, Except.pure, Except.ok.injEq, Prod.mk.injEq] at h
    obtain ⟨rfl, rfl⟩ := h
    exact lastSafe_right _ _ (by decide) (by decide)

theorem lastSafe_seq : ∀ (l : List Stmt) (st : St) (out : String) (st' : St),
    transpileStmtSeq st l = .ok (out, st') → lastSafe out = true := by
  intro l
  induction l with
  | nil =>
    intro st out st' h
    simp only [transpileStmtSeq, Except.ok.injEq, Prod.mk.injEq] at h
    obtain ⟨rfl, rfl⟩ := h
    decide
  | cons s rest ih =>
    intro st out st' h
    simp only [transpileStmtSeq, bind_eq_ok] at h
    obtain ⟨⟨o1, st1⟩, h1, h⟩ := h
    obtain ⟨⟨o2, st2⟩, h2, h⟩ := h
    simp only [Pure.pure, Except.pure, Except.ok.injEq, Prod.mk.injEq] at h
    obtain ⟨rfl, rfl⟩ := h
    exact lastSafe_append _ _ (lastSafe_node s st o1 st1 h1) (ih st1 o2 st2 h2)

theorem lastSafe_sb (sb : SB) (st : St) (out : String) (st' : St)
    (h : transpileStatement st sb = .ok (out, st')) : lastSafe out = true := by
  cases sb with
  | block stmts =>
    simp only [transpileStatement] at h
    exact lastSafe_seq stmts st out st' h
  | single s =>
    simp only [transpileStatement] at h
    exact lastSafe_node s st out st' h

mutual
theorem lastSafe_tail (expression : String) (stmts : List Stmt) (rest : List Clause) :
    ∀ (st : St) (index total : Nat) (header o : String) (st1 : St),
      lastSafe header = true →
      transpileSwitchClauseTail st expression index total header stmts rest = .ok (o, st1) →
      lastSafe o = true := by
  intro st index total header o st1 hh h
  simp only [transpileSwitchClauseTail, bind_eq_ok] at h
  obtain ⟨⟨bodyOut, st3⟩, hbody, h⟩ := h
  obtain ⟨⟨restOut, st6⟩, hrest, h⟩ := h
  simp only [Pure.pure, Except.pure, Except.ok.injEq, Prod.mk.injEq] at h
  obtain ⟨rfl, rfl⟩ := h
  refine lastSafe_append _ _ (lastSafe_append _ _ (lastSafe_append _ _ (lastSafe_append _ _ hh
    (lastSafe_right _ _ (by decide) (by decide))) (lastSafe_seq stmts _ bodyOut st3 hbody)) ?_)
    (lastSafe_clauses expression rest _ (index + 1) total restOut st6 hrest)
  split
  · exact lastSafe_nl _
  · decide
termination_by sizeOf stmts + sizeOf rest + 1

theorem lastSafe_clauses (expression : String) (cs : List Clause) :
    ∀ (st : St) (index total : Nat) (o : String) (st1 : St),
      transpileSwitchClauses st expression index total cs = .ok (o, st1) →
      lastSafe o = true := by
  intro st index total o st1 h
  cases cs with
  | nil =>
    simp only [transpileSwitchClauses, Except.ok.injEq, Prod.mk.injEq] at h
    obtain ⟨rfl, rfl⟩ := h
    decide
  | cons c0 rest =>
    cases c0 with
    | caseClause ce stmts =>
      simp only [transpileSwitchClauses, bind_eq_ok] at h
      obtain ⟨condition, hcond, h⟩ := h
      exact lastSafe_tail expression stmts rest st index total _ o st1
        (lastSafe_right _ _ (by decide) (by decide)) h
    | defaultClause stmts =>
      simp only [transpileSwitchClauses, bind_eq_ok] at h
      exact lastSafe_tail expression stmts rest st index total _ o st1
        (lastSafe_right _ _ (by decide) (by decide)) h
termination_by sizeOf cs
end

theorem append5_assoc (p q r s t : String) :
    p ++ q ++ r ++ s ++ t = p ++ (q ++ (r ++ (s ++ t))) := by
  apply str_ext
  simp [String.data_append, List.append_assoc]

theorem append7_regroup (q1 q2 q3 q4 q5 q6 q7 : String) :
    q1 ++ q2 ++ q3 ++ q4 ++ q5 ++ q6 ++ q7
      = (q1 ++ q2 ++ q3 ++ q4) ++ (q5 ++ (q6 ++ q7)) := by
  apply str_ext
  simp [String.data_append, List.append_assoc]

theorem append8_regroup (q1 q2 q3 q4 q5 q6 q7 q8 : String) :
    q1 ++ q2 ++ q3 ++ q4 ++ q5 ++ q6 ++ q7 ++ q8
      = q1 ++ ((q2 ++ q3 ++ q4 ++ q5) ++ (q6 ++ (q7 ++ q8))) := by
  apply str_ext
  simp [String.data_append, List.append_assoc]

theorem append9_regroup (q1 q2 q3 q4 q5 q6 q7 q8 q9 : String) :
    q1 ++ q2 ++ q3 ++ q4 ++ q5 ++ q6 ++ q7 ++ q8 ++ q9
      = (q1 ++ q2 ++ q3 ++ q4 ++ q5 ++ q6) ++ (q7 ++ (q8 ++ q9)) := by
  apply str_ext
  simp [String.data_append, List.append_assoc]

theorem append10_regroup (q1 q2 q3 q4 q5 q6 q7 q8 q9 q10 : String) :
    q1 ++ q2 ++ q3 ++ q4 ++ q5 ++ q6 ++ q7 ++ q8 ++ q9 ++ q10
      = (q1 ++ q2 ++ q3 ++ q4) ++ (q5 ++ ((q6 ++ q7) ++ (q8 ++ (q9 ++ q10)))) := by
  apply str_ext
  simp [String.data_append, List.append_assoc]

theorem append11_regroup (q1 q2 q3 q4 q5 q6 q7 q8 q9 q10 q11 : String) :
    q1 ++ q2 ++ q3 ++ q4 ++ q5 ++ q6 ++ q7 ++ q8 ++ q9 ++ q10 ++ q11
      = (q1 ++ q2) ++ (q3 ++ ((q4 ++ q5) ++ ((q6 ++ q7 ++ q8 ++ q9) ++ (q10 ++ q11)))) := by
  apply str_ext
  simp [String.data_append, List.append_assoc]

theorem count_casePat_caseLineStr (n m : Nat) (ind : String) (hind : allSpaces ind = true) :
    countSub (casePat n) (ind ++ "::switchCase" ++ natStr m ++ "::\n").data
      = if n = m then 1 else 0 := by
  have hd : (ind ++ "::switchCase" ++ natStr m ++ "::\n").data
      = ind.data ++ ("::switchCase".data ++ ((natStr m).data ++ [':', ':', '\n'])) := by
    simp [String.data_append, List.append_assoc, colonColonNl_data]
  rw [hd]
  exact countSub_casePat_caseLine n m ind.data (allSpaces_spec hind)

theorem count_donePat_caseLineStr (n m : Nat) (ind : String) (hind : allSpaces ind = true) :
    countSub (donePat n) (ind ++ "::switchCase" ++ natStr m ++ "::\n").data = 0 := by
  have hd : (ind ++ "::switchCase" ++ natStr m ++ "::\n").data
      = ind.data ++ ("::switchCase".data ++ ((natStr m).data ++ [':', ':', '\n'])) := by
    simp [String.data_append, List.append_assoc, colonColonNl_data]
  rw [hd]
  exact countSub_donePat_caseLine n m ind.data (allSpaces_spec hind)

theorem count_casePat_doneLineStr (n m : Nat) (ind : String) (hind : allSpaces ind = true) :
    countSub (casePat n) (ind ++ "::switchDone" ++ natStr m ++ "::\n").data = 0 := by
  have hd : (ind ++ "::switchDone" ++ natStr m ++ "::\n").data
      = ind.data ++ ("::switchDone".data ++ ((natStr m).data ++ [':', ':', '\n'])) := by
    simp [String.data_append, List.append_assoc, colonColonNl_data]
  rw [hd]
  exact countSub_casePat_doneLine n m ind.data (allSpaces_spec hind)

theorem count_donePat_doneLineStr (n m : Nat) (ind : String) (hind : allSpaces ind = true) :
    countSub (donePat n) (ind ++ "::switchDone" ++ natStr m ++ "::\n").data
      = if n = m then 1 else 0 := by
  have hd : (ind ++ "::switchDone" ++ natStr m ++ "::\n").data
      = ind.data ++ ("::switchDone".data ++ ((natStr m).data ++ [':', ':', '\n'])) := by
    simp [String.data_append, List.append_assoc, colonColonNl_data]
  rw [hd]
  exact countSub_donePat_doneLine n m ind.data (allSpaces_spec hind)

theorem count_casePat_empty (n : Nat) : countSub (casePat n) ("" : String).data = 0 := by
  exact countSub_nil (casePat_ne_nil n)

theorem count_donePat_empty (n : Nat) : countSub (donePat n) ("" : String).data = 0 := by
  exact countSub_nil (donePat_ne_nil n)

mutual
theorem labels_node (s : Stmt) : ∀ (st : St) (out : String) (st' : St),
    Stmt.switchesOk s = true → Stmt.colonFree s = true → allSpaces st.indent = true →
    transpileNode st s = .ok (out, st') →
    st'.indent = st.indent ∧ st.genVarCounter ≤ st'.genVarCounter ∧
    ∀ n : Nat,
      countSub (casePat n) out.data ≤ 1 ∧
      countSub (donePat n) out.data ≤ 1 ∧
      ((0 < countSub (casePat n) out.data ∨ 0 < countSub (donePat n) out.data) →
        st.genVarCounter ≤ n ∧ n < st'.genVarCounter) := by
  intro st out st' hso hcf hsp h
  cases s with
  | importDecl m b =>
    have hns : Stmt.noSwitch (Stmt.importDecl m b) = true := by unfold Stmt.noSwitch; rfl
    obtain ⟨i', f', g', _, c'⟩ := noSwitch_node _ st out st' hns hsp h
    have hcfout : strNoChar ':' out = true := c' hcf
    refine ⟨i', g', ?_⟩
    intro n
    rw [countSub_casePat_zero_cf n out hcfout, countSub_donePat_zero_cf n out hcfout]
    exact ⟨Nat.zero_le 1, Nat.zero_le 1, fun hp => absurd hp (by simp)⟩
  | enumDecl name members ty =>
    have hns : Stmt.noSwitch (Stmt.enumDecl name members ty) = true := by
      unfold Stmt.noSwitch; rfl
    obtain ⟨i', f', g', _, c'⟩ := noSwitch_node _ st out st' hns hsp h
    have hcfout : strNoChar ':' out = true := c' hcf
    refine ⟨i', g', ?_⟩
    intro n
    rw [countSub_casePat_zero_cf n out hcfout, countSub_donePat_zero_cf n out hcfout]
    exact ⟨Nat.zero_le 1, Nat.zero_le 1, fun hp => absurd hp (by simp)⟩
  | variableStatement decls =>
    have hns : Stmt.noSwitch (Stmt.variableStatement decls) = true := by
      unfold Stmt.noSwitch; rfl
    obtain ⟨i', f', g', _, c'⟩ := noSwitch_node _ st out st' hns hsp h
    have hcfout : strNoChar ':' out = true := c' hcf
    refine ⟨i', g', ?_⟩
    intro n
    rw [countSub_casePat_zero_cf n out hcfout, countSub_donePat_zero_cf n out hcfout]
    exact ⟨Nat.zero_le 1, Nat.zero_le 1, fun hp => absurd hp (by simp)⟩
  | expressionStatement e =>
    have hns : Stmt.noSwitch (Stmt.expressionStatement e) = true := by
      unfold Stmt.noSwitch; rfl
    obtain ⟨i', f', g', _, c'⟩ := noSwitch_node _ st out st' hns hsp h
    have hcfout : strNoChar ':' out = true := c' hcf
    refine ⟨i', g', ?_⟩
    intro n
    rw [countSub_casePat_zero_cf n out hcfout, countSub_donePat_zero_cf n out hcfout]
    exact ⟨Nat.zero_le 1, Nat.zero_le 1, fun hp => absurd hp (by simp)⟩
  | returnStmt e =>
    have hns : Stmt.noSwitch (Stmt.returnStmt e) = true := by unfold Stmt.noSwitch; rfl
    obtain ⟨i', f', g', _, c'⟩ := noSwitch_node _ st out st' hns hsp h
    have hcfout : strNoChar ':' out = true := c' hcf
    refine ⟨i', g', ?_⟩
    intro n
    rw [countSub_casePat_zero_cf n out hcfout, countSub_donePat_zero_cf n out hcfout]
    exact ⟨Nat.zero_le 1, Nat.zero_le 1, fun hp => absurd hp (by simp)⟩
  | breakStmt =>
    have hns : Stmt.noSwitch Stmt.breakStmt = true := by unfold Stmt.noSwitch; rfl
    obtain ⟨i', f', g', _, c'⟩ := noSwitch_node _ st out st' hns hsp h
    have hcfout : strNoChar ':' out = true := c' hcf
    refine ⟨i', g', ?_⟩
    intro n
    rw [countSub_casePat_zero_cf n out hcfout, countSub_donePat_zero_cf n out hcfout]
    exact ⟨Nat.zero_le 1, Nat.zero_le 1, fun hp => absurd hp (by simp)⟩
  | continueStmt =>
    simp [transpileNode] at h
  | ifStmt cond t e =>
    cases e with
    | none =>
      simp only [transpileNode, bind_eq_ok] at h
      obtain ⟨condition, hcond, h⟩ := h
      obtain ⟨⟨thenOut, st2⟩, hthen, h⟩ := h
      simp only [Pure.pure, Except.pure, Except.ok.injEq, Prod.mk.injEq] at h
      obtain ⟨rfl, rfl⟩ := h
      unfold Stmt.switchesOk at hso; simp only [Bool.and_true] at hso
      unfold Stmt.colonFree at hcf; simp only [Bool.and_true, Bool.and_eq_true] at hcf
      have hsp1 : allSpaces (pushIndent st).indent = true := allSpaces_push st hsp
      obtain ⟨i2, gT, cntT⟩ := labels_sb t (pushIndent st) thenOut st2 hso hcf.2 hsp1 hthen
      have hi3 : (popIndent st2).indent = st.indent := popIndent_after_push i2 hsp
      have gT' : st.genVarCounter ≤ st2.genVarCounter := gT
      refine ⟨hi3, gT', ?_⟩
      intro n
      have hc := transpileExpression_noColon cond false condition hcf.1 hcond
      have hP : strNoChar ':' (st.indent ++ "if " ++ condition ++ " then\n") = true := by
        simp [strNoChar_append, strNoChar_of_allSpaces hsp, hc] <;> decide
      have hQ : strNoChar ':' (st.indent ++ "end\n") = true := by
        simp [strNoChar_append, strNoChar_of_allSpaces hsp] <;> decide
      have hts : lastSafe thenOut = true := lastSafe_sb t (pushIndent st) thenOut st2 hthen
      rw [hi3, append7_regroup,
        countSub_skip_cf_casePat n _ _ hP, countSub_skip_cf_donePat n _ _ hP,
        countSub_split_safe (casePat n) (casePat_ne_nil n) (newline_not_mem_casePat n)
          (rparen_not_mem_casePat n) _ _ hts,
        countSub_split_safe (donePat n) (donePat_ne_nil n) (newline_not_mem_donePat n)
          (rparen_not_mem_donePat n) _ _ hts,
        countSub_casePat_zero_cf n _ hQ, countSub_donePat_zero_cf n _ hQ]
      obtain ⟨a1, d1, w1⟩ := cntT n
      have w1' : 0 < countSub (casePat n) thenOut.data ∨ 0 < countSub (donePat n) thenOut.data →
          st.genVarCounter ≤ n ∧ n < st2.genVarCounter := w1
      refine ⟨by omega, by omega, ?_⟩
      intro hp
      have hres : st.genVarCounter ≤ n ∧ n < st2.genVarCounter := by
        refine w1' ?_
        rcases hp with hp | hp
        · exact Or.inl (by omega)
        · exact Or.inr (by omega)
      exact hres
    | some els =>
      simp only [transpileNode, bind_eq_ok] at h
      obtain ⟨condition, hcond, h⟩ := h
      obtain ⟨⟨thenOut, st2⟩, hthen, h⟩ := h
      obtain ⟨⟨elseOut, st5⟩, helse, h⟩ := h
      simp only [Pure.pure, Except.pure, Except.ok.injEq, Prod.mk.injEq] at h
      obtain ⟨rfl, rfl⟩ := h
      unfold Stmt.switchesOk at hso; simp only [Bool.and_eq_true] at hso
      unfold Stmt.colonFree at hcf; simp only [Bool.and_eq_true] at hcf
      have hsp1 : allSpaces (pushIndent st).indent = true := allSpaces_push st hsp
      obtain ⟨i2, gT, cntT⟩ := labels_sb t (pushIndent st) thenOut st2 hso.1 hcf.1.2 hsp1 hthen
      have hi3 : (popIndent st2).indent = st.indent := popIndent_after_push i2 hsp
      have hsp3 : allSpaces (popIndent st2).indent = true := by rw [hi3]; exact hsp
      have hsp4 : allSpaces (pushIndent (popIndent st2)).indent = true :=
        allSpaces_push _ hsp3
      obtain ⟨i5, gE, cntE⟩ :=
        labels_sb els (pushIndent (popIndent st2)) elseOut st5 hso.2 hcf.2 hsp4 helse
      have hi6 : (popIndent st5).indent = (popIndent st2).indent :=
        popIndent_after_push i5 hsp3
      have gT' : st.genVarCounter ≤ st2.genVarCounter := gT
      have gE' : st2.genVarCounter ≤ st5.genVarCounter := gE
      have gRes : st.genVarCounter ≤ st5.genVarCounter := by omega
      refine ⟨hi6.trans hi3, gRes, ?_⟩
      intro n
      have hc := transpileExpression_noColon cond false condition hcf.1.1 hcond
      have hP : strNoChar ':' (st.indent ++ "if " ++ condition ++ " then\n") = true := by
        simp [strNoChar_append, strNoChar_of_allSpaces hsp, hc] <;> decide
      have hM : strNoChar ':' (st.indent ++ "else\n") = true := by
        simp [strNoChar_append, strNoChar_of_allSpaces hsp] <;> decide
      have hQ : strNoChar ':' (st.indent ++ "end\n") = true := by
        simp [strNoChar_append, strNoChar_of_allSpaces hsp] <;> decide
      have hts : lastSafe thenOut = true := lastSafe_sb t (pushIndent st) thenOut st2 hthen
      have hes : lastSafe elseOut = true :=
        lastSafe_sb els (pushIndent (popIndent st2)) elseOut st5 helse
      rw [hi6, hi3, append10_regroup,
        countSub_skip_cf_casePat n _ _ hP, countSub_skip_cf_donePat n _ _ hP,
        countSub_split_safe (casePat n) (casePat_ne_nil n) (newline_not_mem_casePat n)
          (rparen_not_mem_casePat n) _ _ hts,
        countSub_split_safe (donePat n) (donePat_ne_nil n) (newline_not_mem_donePat n)
          (rparen_not_mem_donePat n) _ _ hts,
        countSub_skip_cf_casePat n _ _ hM, countSub_skip_cf_donePat n _ _ hM,
        countSub_split_safe (casePat n) (casePat_ne_nil n) (newline_not_mem_casePat n)
          (rparen_not_mem_casePat n) _ _ hes,
        countSub_split_safe (donePat n) (donePat_ne_nil n) (newline_not_mem_donePat n)
          (rparen_not_mem_donePat n) _ _ hes,
        countSub_casePat_zero_cf n _ hQ, countSub_donePat_zero_cf n _ hQ]
      obtain ⟨a1, d1, w1⟩ := cntT n
      obtain ⟨a2, d2, w2⟩ := cntE n
      have w1' : 0 < countSub (casePat n) thenOut.data ∨ 0 < countSub (donePat n) thenOut.data →
          st.genVarCounter ≤ n ∧ n < st2.genVarCounter := w1
      have w2' : 0 < countSub (casePat n) elseOut.data ∨ 0 < countSub (donePat n) elseOut.data →
          st2.genVarCounter ≤ n ∧ n < st5.genVarCounter := w2
      refine ⟨?_, ?_, ?_⟩
      · by_cases h1 : 0 < countSub (casePat n) thenOut.data
        · by_cases h2 : 0 < countSub (casePat n) elseOut.data
          · exfalso
            have b1 := w1' (Or.inl h1)
            have b2 := w2' (Or.inl h2)
            omega
          · omega
        · omega
      · by_cases h1 : 0 < countSub (donePat n) thenOut.data
        · by_cases h2 : 0 < countSub (donePat n) elseOut.data
          · exfalso
            have b1 := w1' (Or.inr h1)
            have b2 := w2' (Or.inr h2)
            omega
          · omega
        · omega
      · intro hp
        have hres : st.genVarCounter ≤ n ∧ n < st5.genVarCounter := by
          by_cases h1 : 0 < countSub (casePat n) thenOut.data
            ∨ 0 < countSub (donePat n) thenOut.data
          · have b1 := w1' h1
            omega
          · have h2 : 0 < countSub (casePat n) elseOut.data
                ∨ 0 < countSub (donePat n) elseOut.data := by
              rcases hp with hp | hp
              · left; omega
              · right; omega
            have b2 := w2' h2
            omega
        exact hres
  | whileStmt cond b =>
    simp only [transpileNode, bind_eq_ok] at h
    obtain ⟨condition, hcond, h⟩ := h
    obtain ⟨⟨bodyOut, st2⟩, hbody, h⟩ := h
    simp only [Pure.pure, Except.pure, Except.ok.injEq, Prod.mk.injEq] at h
    obtain ⟨rfl, rfl⟩ := h
    unfold Stmt.switchesOk at hso
    unfold Stmt.colonFree at hcf; simp only [Bool.and_eq_true] at hcf
    have hsp1 : allSpaces (pushIndent st).indent = true := allSpaces_push st hsp
    obtain ⟨i2, gT, cntT⟩ := labels_sb b (pushIndent st) bodyOut st2 hso hcf.2 hsp1 hbody
    have hi3 : (popIndent st2).indent = st.indent := popIndent_after_push i2 hsp
    have gT' : st.genVarCounter ≤ st2.genVarCounter := gT
    refine ⟨hi3, gT', ?_⟩
    intro n
    have hc := transpileExpression_noColon cond false condition hcf.1 hcond
    have hP : strNoChar ':' (st.indent ++ "while " ++ condition ++ " do\n") = true := by
      simp [strNoChar_append, strNoChar_of_allSpaces hsp, hc] <;> decide
    have hQ : strNoChar ':' (st.indent ++ "end\n") = true := by
      simp [strNoChar_append, strNoChar_of_allSpaces hsp] <;> decide
    have hts : lastSafe bodyOut = true := lastSafe_sb b (pushIndent st) bodyOut st2 hbody
    rw [hi3, append7_regroup,
      countSub_skip_cf_casePat n _ _ hP, countSub_skip_cf_donePat n _ _ hP,
      countSub_split_safe (casePat n) (casePat_ne_nil n) (newline_not_mem_casePat n)
        (rparen_not_mem_casePat n) _ _ hts,
      countSub_split_safe (donePat n) (donePat_ne_nil n) (newline_not_mem_donePat n)
        (rparen_not_mem_donePat n) _ _ hts,
      countSub_casePat_zero_cf n _ hQ, countSub_donePat_zero_cf n _ hQ]
    obtain ⟨a1, d1, w1⟩ := cntT n
    have w1' : 0 < countSub (casePat n) bodyOut.data ∨ 0 < countSub (donePat n) bodyOut.data →
        st.genVarCounter ≤ n ∧ n < st2.genVarCounter := w1
    refine ⟨by omega, by omega, ?_⟩
    intro hp
    have hres : st.genVarCounter ≤ n ∧ n < st2.genVarCounter := by
      refine w1' ?_
      rcases hp with hp | hp
      · exact Or.inl (by omega)
      · exact Or.inr (by omega)
    exact hres
  | funcDecl name params body =>
    simp only [transpileNode, bind_eq_ok] at h
    obtain ⟨⟨bodyOut, st2⟩, hbody, h⟩ := h
    simp only [Pure.pure, Except.pure, Except.ok.injEq, Prod.mk.injEq] at h
    obtain ⟨rfl, rfl⟩ := h
    unfold Stmt.switchesOk at hso
    unfold Stmt.colonFree at hcf; simp only [Bool.and_eq_true] at hcf
    have hsp1 : allSpaces (pushIndent st).indent = true := allSpaces_push st hsp
    obtain ⟨i2, gT, cntT⟩ := labels_seq body (pushIndent st) bodyOut st2 hso hcf.2 hsp1 hbody
    have hi3 : (popIndent st2).indent = st.indent := popIndent_after_push i2 hsp
    have gT' : st.genVarCounter ≤ st2.genVarCounter := gT
    refine ⟨hi3, gT', ?_⟩
    intro n
    have hp : strNoChar ':' (joinComma params) = true := by
      refine strNoChar_joinComma ':' (by decide) params ?_
      intro x hx
      have := hcf.1.2
      simp only [List.all_eq_true] at this
      exact this x hx
    have hP : strNoChar ':'
        (st.indent ++ "function " ++ name ++ "(" ++ joinComma params ++ ")\n") = true := by
      simp [strNoChar_append, strNoChar_of_allSpaces hsp, hcf.1.1, hp] <;> decide
    have hQ : strNoChar ':' (st.indent ++ "end\n") = true := by
      simp [strNoChar_append, strNoChar_of_allSpaces hsp] <;> decide
    have hts : lastSafe bodyOut = true := lastSafe_seq body (pushIndent st) bodyOut st2 hbody
    rw [hi3, append9_regroup,
      countSub_skip_cf_casePat n _ _ hP, countSub_skip_cf_donePat n _ _ hP,
      countSub_split_safe (casePat n) (casePat_ne_nil n) (newline_not_mem_casePat n)
        (rparen_not_mem_casePat n) _ _ hts,
      countSub_split_safe (donePat n) (donePat_ne_nil n) (newline_not_mem_donePat n)
        (rparen_not_mem_donePat n) _ _ hts,
      countSub_casePat_zero_cf n _ hQ, countSub_donePat_zero_cf n _ hQ]
    obtain ⟨a1, d1, w1⟩ := cntT n
    have w1' : 0 < countSub (casePat n) bodyOut.data ∨ 0 < countSub (donePat n) bodyOut.data →
        st.genVarCounter ≤ n ∧ n < st2.genVarCounter := w1
    refine ⟨by omega, by omega, ?_⟩
    intro hq
    have hres : st.genVarCounter ≤ n ∧ n < st2.genVarCounter := by
      refine w1' ?_
      rcases hq with hq | hq
      · exact Or.inl (by omega)
      · exact Or.inr (by omega)
    exact hres
  | switchStmt scrut clauses =>
    simp only [transpileNode, bind_eq_ok] at h
    obtain ⟨expression, hexp, h⟩ := h
    obtain ⟨⟨clausesOut, st1⟩, hcl, h⟩ := h
    simp only [Pure.pure, Except.pure, Except.ok.injEq, Prod.mk.injEq] at h
    obtain ⟨rfl, rfl⟩ := h
    unfold Stmt.switchesOk at hso; simp only [Bool.and_eq_true] at hso
    unfold Stmt.colonFree at hcf; simp only [Bool.and_eq_true] at hcf
    have hexpcf := transpileExpression_noColon scrut true expression hcf.1 hexp
    obtain ⟨i1, g1, cntL⟩ := labels_clauses expression clauses st 0 clauses.length
      clausesOut st1 hsp hexpcf hso.2 hcf.2 hcl
    have hlen : 0 < clauses.length := by
      cases clauses with
      | nil => simp [List.isEmpty] at hso
      | cons c0 rest => simp
    have g1' : st.genVarCounter ≤ st1.genVarCounter := g1
    have hsp1' : allSpaces st1.indent = true := by rw [i1]; exact hsp
    refine ⟨i1, ?_, ?_⟩
    · have hres : st.genVarCounter ≤ st1.genVarCounter + clauses.length := by omega
      exact hres
    · intro n
      have hP0 : strNoChar ':' (st.indent ++ "-------Switch statement start-------\n")
          = true := by
        simp [strNoChar_append, strNoChar_of_allSpaces hsp] <;> decide
      have hP2 : strNoChar ':' (st1.indent ++ "end\n") = true := by
        simp [strNoChar_append, strNoChar_of_allSpaces hsp1'] <;> decide
      have hP4 : strNoChar ':' (st1.indent ++ "--------Switch statement end--------\n")
          = true := by
        simp [strNoChar_append, strNoChar_of_allSpaces hsp1'] <;> decide
      have hLS : lastSafe clausesOut = true :=
        lastSafe_clauses expression clauses st 0 clauses.length clausesOut st1 hcl
      have hDL : lastSafe (st1.indent ++ "::switchDone" ++ natStr st1.genVarCounter ++ "::\n")
          = true := lastSafe_right _ _ (by decide) (by decide)
      rw [append11_regroup,
        countSub_skip_cf_casePat n _ _ hP0, countSub_skip_cf_donePat n _ _ hP0,
        countSub_split_safe (casePat n) (casePat_ne_nil n) (newline_not_mem_casePat n)
          (rparen_not_mem_casePat n) _ _ hLS,
        countSub_split_safe (donePat n) (donePat_ne_nil n) (newline_not_mem_donePat n)
          (rparen_not_mem_donePat n) _ _ hLS,
        countSub_skip_cf_casePat n _ _ hP2, countSub_skip_cf_donePat n _ _ hP2,
        countSub_split_safe (casePat n) (casePat_ne_nil n) (newline_not_mem_casePat n)
          (rparen_not_mem_casePat n) _ _ hDL,
        countSub_split_safe (donePat n) (donePat_ne_nil n) (newline_not_mem_donePat n)
          (rparen_not_mem_donePat n) _ _ hDL,
        count_casePat_doneLineStr n _ _ hsp1', count_donePat_doneLineStr n _ _ hsp1',
        countSub_casePat_zero_cf n _ hP4, countSub_donePat_zero_cf n _ hP4]
      obtain ⟨cD0, cC1, cW⟩ := cntL n
      refine ⟨by omega, ?_, ?_⟩
      · split <;> omega
      · intro hq
        have hres : st.genVarCounter ≤ n ∧ n < st1.genVarCounter + clauses.length := by
          rcases hq with hq | hq
          · have hb := cW (by omega)
            omega
          · by_cases hnm : n = st1.genVarCounter
            · subst hnm
              exact ⟨g1', by omega⟩
            · rw [if_neg hnm] at hq
              omega
        exact hres
termination_by sizeOf s

theorem labels_seq (l : List Stmt) : ∀ (st : St) (out : String) (st' : St),
    Stmt.listSwitchesOk l = true → Stmt.listColonFree l = true → allSpaces st.indent = true →
    transpileStmtSeq st l = .ok (out, st') →
    st'.indent = st.indent ∧ st.genVarCounter ≤ st'.genVarCounter ∧
    ∀ n : Nat,
      countSub (casePat n) out.data ≤ 1 ∧
      countSub (donePat n) out.data ≤ 1 ∧
      ((0 < countSub (casePat n) out.data ∨ 0 < countSub (donePat n) out.data) →
        st.genVarCounter ≤ n ∧ n < st'.genVarCounter) := by
  intro st out st' hso hcf hsp h
  cases l with
  | nil =>
    simp only [transpileStmtSeq, Except.ok.injEq, Prod.mk.injEq] at h
    obtain ⟨rfl, rfl⟩ := h
    refine ⟨rfl, le_refl _, ?_⟩
    intro n
    rw [count_casePat_empty n, count_donePat_empty n]
    exact ⟨Nat.zero_le 1, Nat.zero_le 1, fun hp => absurd hp (by simp)⟩
  | cons s rest =>
    simp only [transpileStmtSeq, bind_eq_ok] at h
    obtain ⟨⟨o1, st1⟩, h1, h⟩ := h
    obtain ⟨⟨o2, st2⟩, h2, h⟩ := h
    simp only [Pure.pure, Except.pure, Except.ok.injEq, Prod.mk.injEq] at h
    obtain ⟨rfl, rfl⟩ := h
    unfold Stmt.listSwitchesOk at hso; simp only [Bool.and_eq_true] at hso
    unfold Stmt.listColonFree at hcf; simp only [Bool.and_eq_true] at hcf
    obtain ⟨i1, g1, cnt1⟩ := labels_node s st o1 st1 hso.1 hcf.1 hsp h1
    have hsp1 : allSpaces st1.indent = true := by rw [i1]; exact hsp
    obtain ⟨i2, g2, cnt2⟩ := labels_seq rest st1 o2 st2 hso.2 hcf.2 hsp1 h2
    refine ⟨i2.trans i1, le_trans g1 g2, ?_⟩
    intro n
    have hls1 : lastSafe o1 = true := lastSafe_node s st o1 st1 h1
    rw [countSub_split_safe (casePat n) (casePat_ne_nil n) (newline_not_mem_casePat n)
        (rparen_not_mem_casePat n) _ _ hls1,
      countSub_split_safe (donePat n) (donePat_ne_nil n) (newline_not_mem_donePat n)
        (rparen_not_mem_donePat n) _ _ hls1]
    obtain ⟨a1, d1, w1⟩ := cnt1 n
    obtain ⟨a2, d2, w2⟩ := cnt2 n
    refine ⟨?_, ?_, ?_⟩
    · by_cases hp1 : 0 < countSub (casePat n) o1.data
      · by_cases hp2 : 0 < countSub (casePat n) o2.data
        · exfalso
          have b1 := w1 (Or.inl hp1)
          have b2 := w2 (Or.inl hp2)
          omega
        · omega
      · omega
    · by_cases hp1 : 0 < countSub (donePat n) o1.data
      · by_cases hp2 : 0 < countSub (donePat n) o2.data
        · exfalso
          have b1 := w1 (Or.inr hp1)
          have b2 := w2 (Or.inr hp2)
          omega
        · omega
      · omega
    · intro hp
      by_cases h1p : 0 < countSub (casePat n) o1.data ∨ 0 < countSub (donePat n) o1.data
      · have b1 := w1 h1p
        omega
      · have h2p : 0 < countSub (casePat n) o2.data ∨ 0 < countSub (donePat n) o2.data := by
          rcases hp with hp | hp
          · left; omega
          · right; omega
        have b2 := w2 h2p
        omega
termination_by sizeOf l

theorem labels_sb (sb : SB) : ∀ (st : St) (out : String) (st' : St),
    SB.switchesOk sb = true → SB.colonFree sb = true → allSpaces st.indent = true →
    transpileStatement st sb = .ok (out, st') →
    st'.indent = st.indent ∧ st.genVarCounter ≤ st'.genVarCounter ∧
    ∀ n : Nat,
      countSub (casePat n) out.data ≤ 1 ∧
      countSub (donePat n) out.data ≤ 1 ∧
      ((0 < countSub (casePat n) out.data ∨ 0 < countSub (donePat n) out.data) →
        st.genVarCounter ≤ n ∧ n < st'.genVarCounter) := by
  intro st out st' hso hcf hsp h
  cases sb with
  | block stmts =>
    simp only [transpileStatement] at h
    unfold SB.switchesOk at hso
    unfold SB.colonFree at hcf
    exact labels_seq stmts st out st' hso hcf hsp h
  | single s =>
    simp only [transpileStatement] at h
    unfold SB.switchesOk at hso
    unfold SB.colonFree at hcf
    exact labels_node s st out st' hso hcf hsp h
termination_by sizeOf sb

theorem labels_clauses (expression : String) (cs : List Clause) :
    ∀ (st : St) (index total : Nat) (o : String) (st1 : St),
      allSpaces st.indent = true →
      strNoChar ':' expression = true →
      cs.all (fun c => Stmt.listNoSwitch c.statements) = true →
      Clause.listColonFree cs = true →
      transpileSwitchClauses st expression index total cs = .ok (o, st1) →
      st1.indent = st.indent ∧ st.genVarCounter ≤ st1.genVarCounter ∧
      ∀ n : Nat,
        countSub (donePat n) o.data = 0 ∧
        countSub (casePat n) o.data ≤ 1 ∧
        (0 < countSub (casePat n) o.data →
          st.genVarCounter + index ≤ n ∧ n < st1.genVarCounter + index + cs.length) := by
  intro st index total o st1 hsp hexpcf hns hcfC h
  cases cs with
  | nil =>
    simp only [transpileSwitchClauses, Except.ok.injEq, Prod.mk.injEq] at h
    obtain ⟨rfl, rfl⟩ := h
    refine ⟨rfl, le_refl _, ?_⟩
    intro n
    rw [count_casePat_empty n, count_donePat_empty n]
    exact ⟨rfl, Nat.zero_le 1, fun hp => absurd hp (by simp)⟩
  | cons c0 rest =>
    unfold Clause.listColonFree at hcfC
    simp only [Bool.and_eq_true] at hcfC
    simp only [List.all_cons, Bool.and_eq_true] at hns
    cases c0 with
    | caseClause ce stmts =>
      simp only [transpileSwitchClauses, bind_eq_ok] at h
      obtain ⟨condition, hcond, h⟩ := h
      have hc0 := hcfC.1
      unfold Clause.colonFree at hc0
      simp only [Bool.and_eq_true] at hc0
      have hcondcf := transpileExpression_noColon ce true condition hc0.1 hcond
      have hH : strNoChar ':' (st.indent ++ (if (index == 0 : Bool) then "if" else "elseif")
          ++ " " ++ expression ++ "==" ++ condition ++ " then\n") = true := by
        split <;>
          simp [strNoChar_append, strNoChar_of_allSpaces hsp, hexpcf, hcondcf] <;> decide
      have hnsB : Stmt.listNoSwitch stmts = true := by
        simpa [Clause.statements] using hns.1
      obtain ⟨i1, g1, cnt1⟩ := labels_tail expression stmts rest st index total _ o st1
        hsp hexpcf hH hnsB hc0.2 hns.2 hcfC.2 h
      refine ⟨i1, g1, ?_⟩
      intro n
      obtain ⟨cD, cC, cW⟩ := cnt1 n
      refine ⟨cD, cC, ?_⟩
      intro hq
      have hb := cW hq
      have hres : st.genVarCounter + index ≤ n
          ∧ n < st1.genVarCounter + index + (rest.length + 1) := hb
      simpa [List.length_cons] using hres
    | defaultClause stmts =>
      simp only [transpileSwitchClauses, bind_eq_ok] at h
      have hc0 := hcfC.1
      unfold Clause.colonFree at hc0
      have hH : strNoChar ':' (st.indent ++ "else\n") = true := by
        simp [strNoChar_append, strNoChar_of_allSpaces hsp] <;> decide
      have hnsB : Stmt.listNoSwitch stmts = true := by
        simpa [Clause.statements] using hns.1
      obtain ⟨i1, g1, cnt1⟩ := labels_tail expression stmts rest st index total _ o st1
        hsp hexpcf hH hnsB hc0 hns.2 hcfC.2 h
      refine ⟨i1, g1, ?_⟩
      intro n
      obtain ⟨cD, cC, cW⟩ := cnt1 n
      refine ⟨cD, cC, ?_⟩
      intro hq
      have hb := cW hq
      have hres : st.genVarCounter + index ≤ n
          ∧ n < st1.genVarCounter + index + (rest.length + 1) := hb
      simpa [List.length_cons] using hres
termination_by sizeOf cs

theorem labels_tail (expression : String) (stmts : List Stmt) (rest : List Clause) :
    ∀ (st : St) (index total : Nat) (header o : String) (st1 : St),
      allSpaces st.indent = true →
      strNoChar ':' expression = true →
      strNoChar ':' header = true →
      Stmt.listNoSwitch stmts = true →
      Stmt.listColonFree stmts = true →
      rest.all (fun c => Stmt.listNoSwitch c.statements) = true →
      Clause.listColonFree rest = true →
      transpileSwitchClauseTail st expression index total header stmts rest = .ok (o, st1) →
      st1.indent = st.indent ∧ st.genVarCounter ≤ st1.genVarCounter ∧
      ∀ n : Nat,
        countSub (donePat n) o.data = 0 ∧
        countSub (casePat n) o.data ≤ 1 ∧
        (0 < countSub (casePat n) o.data →
          st.genVarCounter + index ≤ n ∧ n < st1.genVarCounter + index + (rest.length + 1)) := by
  intro st index total header o st1 hsp hexpcf hH hnsB hcfB hnsR hcfR h
  simp only [transpileSwitchClauseTail, bind_eq_ok] at h
  obtain ⟨⟨bodyOut, st3⟩, hbody, h⟩ := h
  obtain ⟨⟨restOut, st6⟩, hrest, h⟩ := h
  simp only [Pure.pure, Except.pure, Except.ok.injEq, Prod.mk.injEq] at h
  obtain ⟨rfl, rfl⟩ := h
  have hsp2 : allSpaces ({ pushIndent st with transpilingSwitch := true } : St).indent = true :=
    allSpaces_push st hsp
  obtain ⟨i3, f3, g3, _, c3⟩ := noSwitch_seq stmts _ bodyOut st3 hnsB hsp2 hbody
  have hbodycf : strNoChar ':' bodyOut = true := c3 hcfB
  have hblast : lastSafe bodyOut = true := lastSafe_seq stmts _ bodyOut st3 hbody
  have hi34 : ({ st3 with transpilingSwitch := false } : St).indent
      = (pushIndent st).indent := i3
  have hst5i : (popIndent { st3 with transpilingSwitch := false }).indent = st.indent :=
    popIndent_after_push hi34 hsp
  have hsp5 : allSpaces (popIndent { st3 with transpilingSwitch := false }).indent = true := by
    rw [hst5i]; exact hsp
  obtain ⟨i6, g6, cntR⟩ := labels_clauses expression rest _ (index + 1) total restOut st6
    hsp5 hexpcf hnsR hcfR hrest
  have g3' : st.genVarCounter ≤ st3.genVarCounter := g3
  have g6' : st3.genVarCounter ≤ st6.genVarCounter := g6
  have hind3 : strNoChar ':' st3.indent = true := by
    have h1 : st3.indent = (pushIndent st).indent := i3
    rw [h1]
    exact strNoChar_of_allSpaces (allSpaces_push st hsp)
  have hpush : allSpaces (pushIndent st).indent = true := allSpaces_push st hsp
  refine ⟨i6.trans hst5i, by omega, ?_⟩
  intro n
  have hlabLS : lastSafe ((pushIndent st).indent ++ "::switchCase"
      ++ natStr ((pushIndent st).genVarCounter + index) ++ "::\n") = true :=
    lastSafe_right _ _ (by decide) (by decide)
  have hftcf : strNoChar ':' (if index < total - 1 then
      ({ st3 with transpilingSwitch := false } : St).indent ++ "goto switchCase"
        ++ natStr (({ st3 with transpilingSwitch := false } : St).genVarCounter + index + 1)
        ++ "\n" else "") = true := by
    split
    · simp [strNoChar_append, hind3, strNoChar_natStr] <;> decide
    · decide
  rw [append5_assoc,
    countSub_skip_cf_casePat n _ _ hH, countSub_skip_cf_donePat n _ _ hH,
    countSub_split_safe (casePat n) (casePat_ne_nil n) (newline_not_mem_casePat n)
      (rparen_not_mem_casePat n) _ _ hlabLS,
    countSub_split_safe (donePat n) (donePat_ne_nil n) (newline_not_mem_donePat n)
      (rparen_not_mem_donePat n) _ _ hlabLS,
    count_casePat_caseLineStr n _ _ hpush, count_donePat_caseLineStr n _ _ hpush,
    countSub_skip_cf_casePat n _ _ hbodycf, countSub_skip_cf_donePat n _ _ hbodycf,
    countSub_skip_cf_casePat n _ _ hftcf, countSub_skip_cf_donePat n _ _ hftcf]
  obtain ⟨cD0, cC1, cW⟩ := cntR n
  have cW' : 0 < countSub (casePat n) restOut.data →
      st3.genVarCounter + (index + 1) ≤ n
        ∧ n < st6.genVarCounter + (index + 1) + rest.length := cW
  refine ⟨by omega, ?_, ?_⟩
  · by_cases hnm : n = (pushIndent st).genVarCounter + index
    · rw [if_pos hnm]
      have hnm' : n = st.genVarCounter + index := hnm
      by_cases hp2 : 0 < countSub (casePat n) restOut.data
      · exfalso
        have hb := cW' hp2
        omega
      · omega
    · rw [if_neg hnm]
      omega
  · intro hq
    by_cases hnm : n = (pushIndent st).genVarCounter + index
    · have hnm' : n = st.genVarCounter + index := hnm
      constructor
      · omega
      · omega
    · rw [if_neg hnm] at hq
      have hb := cW' (by omega)
      constructor
      · omega
      · omega
termination_by sizeOf stmts + sizeOf rest + 1
end

/-- **C2** (corrected). The `::switchCase<k>::` / `::switchDone<k>::` labels are
each emitted at most once in the whole transpiled file, provided no switch
statement occurs inside a case clause of another switch (and every switch has
at least one clause), and the identifiers and literal texts of the program are
free of the colon character. -/
theorem c2_labels_unique (file : List Stmt) (out : String)
    (hso : Stmt.listSwitchesOk file = true)
    (hcf : Stmt.listColonFree file = true)
    (h : transpileSourceFile file = .ok out) :
    ∀ n : Nat, countSub (casePat n) out.data ≤ 1 ∧ countSub (donePat n) out.data ≤ 1 := by
  unfold transpileSourceFile at h
  cases hseq : transpileStmtSeq initialState file with
  | error e =>
    rw [hseq] at h
    simp [map_error] at h
  | ok p =>
    obtain ⟨o, stF⟩ := p
    rw [hseq] at h
    simp only [map_ok, Except.ok.injEq] at h
    subst h
    obtain ⟨_, _, cnt⟩ := labels_seq file initialState o stF hso hcf (by decide) hseq
    intro n
    obtain ⟨c1, c2, _⟩ := cnt n
    exact ⟨c1, c2⟩

set_option maxRecDepth 40000 in
/-- Witness for `c2_labels_unique`: two sequential one-clause switches; the
labels come out as `::switchCase0::`/`::switchDone0::` and
`::switchCase1::`/`::switchDone1::`, each at most once. -/
theorem c2_labels_unique_witness :
    countSub (casePat 0)
      ("-------Switch statement start-------\nif x==1 then\n    ::switchCase0::\n    f()\n    goto switchDone0\nend\n::switchDone0::\n--------Switch statement end--------\n-------Switch statement start-------\nif x==2 then\n    ::switchCase1::\n    g()\n    goto switchDone1\nend\n::switchDone1::\n--------Switch statement end--------\n" : String).data ≤ 1 ∧
    countSub (donePat 0)
      ("-------Switch statement start-------\nif x==1 then\n    ::switchCase0::\n    f()\n    goto switchDone0\nend\n::switchDone0::\n--------Switch statement end--------\n-------Switch statement start-------\nif x==2 then\n    ::switchCase1::\n    g()\n    goto switchDone1\nend\n::switchDone1::\n--------Switch statement end--------\n" : String).data ≤ 1 := by
  have h : transpileSourceFile
      [.switchStmt (.ident "x" tyNone)
        [Clause.caseClause (.numericLit "1" tyNone) [callStmt "f", Stmt.breakStmt]],
       .switchStmt (.ident "x" tyNone)
        [Clause.caseClause (.numericLit "2" tyNone) [callStmt "g", Stmt.breakStmt]]]
      = .ok "-------Switch statement start-------\nif x==1 then\n    ::switchCase0::\n    f()\n    goto switchDone0\nend\n::switchDone0::\n--------Switch statement end--------\n-------Switch statement start-------\nif x==2 then\n    ::switchCase1::\n    g()\n    goto switchDone1\nend\n::switchDone1::\n--------Switch statement end--------\n" := by
    simp [transpileSourceFile, transpileStmtSeq, transpileNode, transpileSwitchClauses,
      transpileSwitchClauseTail, transpileBreak, transpileExpression,
      transpileArgumentStrings, joinComma, natStr, natStrAux, digitChar, initialState,
      callStmt, tyNone, pushIndent, popIndent, ok_bind, error_bind, map_ok, map_error]
  exact c2_labels_unique
    [.switchStmt (.ident "x" tyNone)
      [Clause.caseClause (.numericLit "1" tyNone) [callStmt "f", Stmt.breakStmt]],
     .switchStmt (.ident "x" tyNone)
      [Clause.caseClause (.numericLit "2" tyNone) [callStmt "g", Stmt.breakStmt]]]
    _
    (by simp [Stmt.listSwitchesOk.eq_def, Stmt.switchesOk.eq_def, Stmt.listNoSwitch.eq_def,
      Stmt.noSwitch.eq_def, Clause.statements, callStmt, List.all, List.isEmpty])
    (by simp [Stmt.listColonFree.eq_def, Stmt.colonFree.eq_def, Expr.colonFree.eq_def,
      Expr.listColonFree.eq_def, Clause.listColonFree.eq_def, Clause.colonFree.eq_def,
      callStmt, List.all] <;> decide)
    h 0
